import Mathlib

/-!
# Automatic variogram fitting (gammaray): embedding and verified properties

Shallow embedding of `geostats/automaticvariogramfitting.cpp`, of `RandomForest::classify`
(`algorithms/randomforest.cpp`) and of `MatrixNXM<double>::invertWithGaussJordan`
(`geostats/matrixmxn.cpp`).

Conventions of the embedding:
* a C++ `double` is an exact rational (`ℚ`); rounding, infinities and NaN are not modelled;
* a `spectral::array` used as a linear array is a `List ℚ`; reading past the end yields `0`;
* `std::rand()` after `std::srand(seed)` is a sequence `rnd : ℕ → ℕ` read through a cursor
  that every call advances by one;
* a loop that may spin forever (`while(true)` rejection sampling, drawing two different
  indices) takes a `fuel` bound and yields `none` when the bound is exhausted;
* a call whose behaviour is undefined (`erase` at a position without an element) yields `none`;
* `objectiveFunction( grid, data, vw, m )` of a session is a function `F data vw`.
-/

namespace AutoVarFit

/-! ## Numeric constants -/

/-- The value of `std::numeric_limits<double>::max()`. -/
def DBL_MAX : ℚ := 2 ^ 1024 - 2 ^ 971

/-- The value of the C library constant (glibc) bounding `std::rand()`. -/
def RAND_MAX : ℚ := 2147483647

/-! ## Variographic structures and the linear parameter array -/

/-- Modelled from the spec: the class `IJVariographicStructure2D` (its header and source are
not part of the examined sources).  One nested structure holds the four scalars `range`,
`rangeRatio`, `azimuth`, `contribution`, read and written through indexed parameter access
in that order. -/
structure IJVariographicStructure2D where
  range : ℚ
  rangeRatio : ℚ
  azimuth : ℚ
  contribution : ℚ
  deriving DecidableEq, Repr

/-- Modelled from the spec: `IJVariographicStructure2D::getNumberOfParameters()`, exactly
four scalars per nested structure. -/
def getNumberOfParameters : ℕ := 4

/-- Modelled from the spec: `IJVariographicStructure2D::getParameter(index)`, the scalars in
the order range, ratio, azimuth, contribution. -/
def IJVariographicStructure2D.getParameter (s : IJVariographicStructure2D) (index : ℕ) : ℚ :=
  match index with
  | 0 => s.range
  | 1 => s.rangeRatio
  | 2 => s.azimuth
  | 3 => s.contribution
  | _ => 0

/-- Modelled from the spec: `IJVariographicStructure2D::setParameter(index, value)`, the
scalars in the order range, ratio, azimuth, contribution. -/
def IJVariographicStructure2D.setParameter (s : IJVariographicStructure2D) (index : ℕ)
    (value : ℚ) : IJVariographicStructure2D :=
  match index with
  | 0 => { s with range := value }
  | 1 => { s with rangeRatio := value }
  | 2 => { s with azimuth := value }
  | 3 => { s with contribution := value }
  | _ => s

/-- The default-valued structure, standing for an element read past the end of a vector. -/
def zeroStructure : IJVariographicStructure2D := ⟨0, 0, 0, 0⟩

/-- Inner loop of the linearisation: `for( iPar ...; ++iPar, ++i ) vw[i] = s.getParameter( iPar )`.
The state is the running linear index and the array. -/
def flattenOne (s : IJVariographicStructure2D) (st : ℕ × List ℚ) : ℕ × List ℚ :=
  (List.range getNumberOfParameters).foldl
    (fun st iPar => (st.1 + 1, st.2.set st.1 (s.getParameter iPar))) st

/-- The linearisation loops of `initDomainAndParameters` and `evaluateModel`:
`vw = array( m * 4 )` and then, structure after structure, `vw[i] = getParameter( iPar )`. -/
def flattenStructures (variogramStructures : List IJVariographicStructure2D) (m : ℕ) :
    List ℚ :=
  ((List.range m).foldl
    (fun st iStructure => flattenOne (variogramStructures.getD iStructure zeroStructure) st)
    (0, List.replicate (m * getNumberOfParameters) 0)).2

/-- Inner loop of the read-back: `for( iPar ...; ++iPar, ++i ) s.setParameter( iPar, vw[i] )`.
The state is the running linear index and the structure being written. -/
def readBackOne (vw : List ℚ) (st : ℕ × IJVariographicStructure2D) :
    ℕ × IJVariographicStructure2D :=
  (List.range getNumberOfParameters).foldl
    (fun st iPar => (st.1 + 1, st.2.setParameter iPar (vw.getD st.1 0))) st

/-- The read-back loops closing every `processWith*`:
`variogramStructures[iStructure].setParameter( iPar, vw[i] )` with `i` running along. -/
def readBackStructures (vw : List ℚ) (variogramStructures : List IJVariographicStructure2D)
    (m : ℕ) : List IJVariographicStructure2D :=
  ((List.range m).foldl
    (fun st iStructure =>
      let r := readBackOne vw (st.1, st.2.getD iStructure zeroStructure)
      (r.1, st.2.set iStructure r.2))
    (0, variogramStructures)).2

/-! ## The optimisation domain -/

/-- What `initDomainAndParameters` reads from its collaborators: the cell sizes and the
diagonal of the grid `m_cg`, the constant `ImageJockeyUtils::PI` and `inputVarmap.max()`. -/
structure DomainInputs where
  cellSizeI : ℚ
  cellSizeJ : ℚ
  diagonalLength : ℚ
  PI : ℚ
  varmapMax : ℚ

/-- The object `VariogramParametersDomain`: a structure of minima and one of maxima. -/
structure VariogramParametersDomain where
  min : IJVariographicStructure2D
  max : IJVariographicStructure2D

/-- The four outputs of `initDomainAndParameters` that the optimisers use. -/
structure DomainAndParameters where
  domain : VariogramParametersDomain
  vw : List ℚ
  L_wMin : List ℚ
  L_wMax : List ℚ
  variogramStructures : List IJVariographicStructure2D

/-- The loops filling `L_wMin` / `L_wMax`: element `i` receives the bound of its parameter kind
(`switch( iPar )`), starting from an array of `size` copies of `fill`. -/
def boundsArray (size : ℕ) (fill : ℚ) (m : ℕ) (b : IJVariographicStructure2D) : List ℚ :=
  ((List.range m).foldl
    (fun st _ => (List.range getNumberOfParameters).foldl
      (fun st iPar => (st.1 + 1, st.2.set st.1 (b.getParameter iPar))) st)
    (0, List.replicate size fill)).2

/-- The method `initDomainAndParameters`. -/
def initDomainAndParameters (g : DomainInputs) (m : ℕ) : DomainAndParameters :=
  let minCellSize := Min.min g.cellSizeI g.cellSizeJ
  let minAxis := minCellSize
  let maxAxis := g.diagonalLength / 2
  let minRatio : ℚ := 1 / 1000
  let maxRatio : ℚ := 1
  let minAzimuth : ℚ := 0
  let maxAzimuth := g.PI
  let minContribution := g.varmapMax / 100
  let maxContribution := g.varmapMax
  let variogramStructures : List IJVariographicStructure2D :=
    (List.range m).foldl
      (fun acc _ => acc ++ [⟨(maxAxis + minAxis) / 2, (maxRatio + minRatio) / 2,
        (minAzimuth + maxAzimuth) / 2, (maxContribution - minContribution) / m⟩]) []
  let vw := flattenStructures variogramStructures m
  let lo : IJVariographicStructure2D := ⟨minAxis, minRatio, minAzimuth, minContribution⟩
  let hi : IJVariographicStructure2D := ⟨maxAxis, maxRatio, maxAzimuth, maxContribution⟩
  { domain := ⟨lo, hi⟩
    vw := vw
    L_wMin := boundsArray vw.length 0 m lo
    L_wMax := boundsArray vw.length 1 m hi
    variogramStructures := variogramStructures }

/-! ## Random draws -/

/-- The expression `LO + std::rand() / (RAND_MAX/(HI-LO))` for the draw `r = std::rand()`. -/
def randomWithin (r : ℕ) (LO HI : ℚ) : ℚ := LO + (r : ℚ) / (RAND_MAX / (HI - LO))

/-- The loop `for( i ... ) pw[i] = LO + std::rand() / (RAND_MAX/(HI-LO))` with `LO = L_wMin[i]`
and `HI = L_wMax[i]`, over an array of `n` elements; yields the array and the advanced cursor. -/
def randomVector (rnd : ℕ → ℕ) (c : ℕ) (L_wMin L_wMax : List ℚ) (n : ℕ) : List ℚ × ℕ :=
  ((List.range n).map
      (fun i => randomWithin (rnd (c + i)) (L_wMin.getD i 0) (L_wMax.getD i 0)), c + n)

/-- The expression `int index = std::rand() / (double)RAND_MAX * ( size - 1 )` for the draw
`r = std::rand()`: the conversion to `int` truncates. -/
def randomIndex (r : ℕ) (size : ℕ) : ℕ :=
  ⌊(r : ℚ) / RAND_MAX * ((size : ℚ) - 1)⌋.toNat

/-- The loop `while( second == first ) second = (a fresh random index)`: the first draw that
differs from `first`, with the advanced cursor; `none` when `fuel` draws did not suffice. -/
def drawDifferent (rnd : ℕ → ℕ) (size first : ℕ) : ℕ → ℕ → Option (ℕ × ℕ)
  | 0, _ => none
  | fuel + 1, c =>
    if randomIndex (rnd c) size = first then drawDifferent rnd size first fuel (c + 1)
    else some (randomIndex (rnd c) size, c + 1)

/-- The indices visited by a worker loop `for( int i = initial_i; i <= final_i; ++i )`. -/
def indexRange (initial_i final_i : ℤ) : List ℕ :=
  (List.range (final_i + 1 - initial_i).toNat).map (fun d => (initial_i + (d : ℤ)).toNat)

/-! ## The genetic algorithm -/

/-- The class `Individual`: the genes and the recorded value of the objective function. -/
structure Individual where
  parameters : List ℚ
  fValue : ℚ
  deriving DecidableEq, Repr

/-- The constructor `Individual( const spectral::array& pparameters )`: not yet evaluated. -/
def Individual.ofParameters (pparameters : List ℚ) : Individual := ⟨pparameters, DBL_MAX⟩

/-- The constructor `Individual( int nNumberOfParameters )`: not yet evaluated. -/
def Individual.ofSize (nNumberOfParameters : ℕ) : Individual :=
  ⟨List.replicate nNumberOfParameters 0, DBL_MAX⟩

/-- The method `Individual::crossOver`; the point of crossover is an `int`. -/
def Individual.crossOver (self otherIndividual : Individual) (pointOfCrossOver : ℤ) :
    Individual × Individual :=
  (List.range self.parameters.length).foldl
    (fun ch (iParameter : ℕ) =>
      if (iParameter : ℤ) < pointOfCrossOver then
        ({ ch.1 with parameters :=
              ch.1.parameters.set iParameter (self.parameters.getD iParameter 0) },
         { ch.2 with parameters :=
              ch.2.parameters.set iParameter (otherIndividual.parameters.getD iParameter 0) })
      else
        ({ ch.1 with parameters :=
              ch.1.parameters.set iParameter (otherIndividual.parameters.getD iParameter 0) },
         { ch.2 with parameters :=
              ch.2.parameters.set iParameter (self.parameters.getD iParameter 0) }))
    (Individual.ofSize self.parameters.length, Individual.ofSize self.parameters.length)

/-- The gene loop of `Individual::mutate`, from gene `iPar` on: a draw `p` per gene and, when
`p < probOfMutation`, a second draw that replaces the gene by a value between the bounds. -/
def mutateGenes (rnd : ℕ → ℕ) (probOfMutation : ℚ) (lowBoundaries highBoundaries : List ℚ) :
    ℕ → List ℚ → ℕ → List ℚ × ℕ
  | _, [], c => ([], c)
  | iPar, gene :: rest, c =>
    if (rnd c : ℚ) / RAND_MAX < probOfMutation then
      let r := mutateGenes rnd probOfMutation lowBoundaries highBoundaries (iPar + 1) rest (c + 2)
      (randomWithin (rnd (c + 1)) (lowBoundaries.getD iPar 0) (highBoundaries.getD iPar 0) :: r.1,
        r.2)
    else
      let r := mutateGenes rnd probOfMutation lowBoundaries highBoundaries (iPar + 1) rest (c + 1)
      (gene :: r.1, r.2)

/-- The method `Individual::mutate`; yields the individual and the advanced cursor. -/
def Individual.mutate (self : Individual) (rnd : ℕ → ℕ) (c : ℕ) (mutationRate : ℚ)
    (lowBoundaries highBoundaries : List ℚ) : Individual × ℕ :=
  if lowBoundaries.length ≠ self.parameters.length ∨
      highBoundaries.length ≠ self.parameters.length then (self, c)
  else
    let probOfMutation := 1 / (self.parameters.length : ℚ) * mutationRate
    let r := mutateGenes rnd probOfMutation lowBoundaries highBoundaries 0 self.parameters c
    ({ self with parameters := r.1 }, r.2)

/-- The order `Individual::operator<` induces for `std::sort`, as a non-strict relation. -/
def Individual.le (a b : Individual) : Prop := a.fValue ≤ b.fValue

instance : DecidableRel Individual.le := fun a b => inferInstanceAs (Decidable (a.fValue ≤ b.fValue))

instance : IsTotal Individual Individual.le := ⟨fun a b => le_total a.fValue b.fValue⟩

instance : IsTrans Individual Individual.le :=
  ⟨fun a b c (h1 : a.fValue ≤ b.fValue) (h2 : b.fValue ≤ c.fValue) => le_trans h1 h2⟩

/-- The call `std::sort( v.begin(), v.end() )` on individuals: ascending `fValue`. -/
def sortIndividuals (v : List Individual) : List Individual := v.insertionSort Individual.le

/-- The function `taskEvaluateObjetiveInRangeOfIndividualsForGenetic`: individual after
individual of the index range receives the value of the objective function of its genes. -/
def taskEvaluateObjetiveInRangeOfIndividualsForGenetic (F : List ℚ → ℚ)
    (iIndividual_initial iIndividual_final : ℤ) (population : List Individual) :
    List Individual :=
  (indexRange iIndividual_initial iIndividual_final).foldl
    (fun pop iInd => pop.modify (fun ind => { ind with fValue := F ind.parameters }) iInd)
    population

/-- The refill loop `while( population.size() < nPopulationSize )` with random individuals. -/
def refillPopulation (rnd : ℕ → ℕ) (L_wMin L_wMax : List ℚ) (totalNumberOfParameters : ℕ)
    (nPopulationSize : ℕ) : ℕ → List Individual → ℕ → List Individual × ℕ
  | 0, population, c => (population, c)
  | missing + 1, population, c =>
    if population.length < nPopulationSize then
      let pw := randomVector rnd c L_wMin L_wMax totalNumberOfParameters
      refillPopulation rnd L_wMin L_wMax totalNumberOfParameters nPopulationSize missing
        (population ++ [Individual.ofParameters pw.1]) pw.2
    else (population, c)

/-- The selection loop: `nSelectionSize` binary tournaments between two different random
individuals of the population, the better of each entering the selection pool. -/
def binaryTournaments (rnd : ℕ → ℕ) (fuel : ℕ) (population : List Individual) :
    ℕ → List Individual → ℕ → Option (List Individual × ℕ)
  | 0, selection, c => some (selection, c)
  | iSel + 1, selection, c =>
    let tournCandidate1 := randomIndex (rnd c) population.length
    match drawDifferent rnd population.length tournCandidate1 fuel (c + 1) with
    | none => none
    | some (tournCandidate2, c2) =>
      let tournament := sortIndividuals
        [population.getD tournCandidate1 (Individual.ofSize 0),
         population.getD tournCandidate2 (Individual.ofSize 0)]
      binaryTournaments rnd fuel population iSel
        (selection ++ [tournament.headD (Individual.ofSize 0)]) c2

/-- The call `v.erase( v.begin() + index )`: the vector without the element at the position
`index`; `none` when the vector has no element there (`v.end()` included), the behaviour of
the call being undefined then. -/
def eraseAt (v : List Individual) (index : ℕ) : Option (List Individual) :=
  if index < v.length then some (v.eraseIdx index) else none

/-- The pairing loop `while( ! selection.empty() )`: two different random positions of the
pool give the parents, the two `erase` calls are made one after the other at those positions,
the second on the pool already shortened by the first, then crossover (or not) and mutation
feed the next generation; the `uint` point of crossover is handed to `crossOver` as an `int`
of the same value.  `rounds` bounds the number of rounds.  The result is `none` when a drawing
loop exhausts `fuel` and when an `erase` is not at the position of an element. -/
def crossoverAndMutation (rnd : ℕ → ℕ) (fuel : ℕ) (probabilityOfCrossOver : ℚ)
    (pointOfCrossover : ℕ) (mutationRate : ℚ) (L_wMin L_wMax : List ℚ) :
    ℕ → List Individual → List Individual → ℕ → Option (List Individual × ℕ)
  | 0, selection, nextGen, c => if selection = [] then some (nextGen, c) else none
  | rounds + 1, selection, nextGen, c =>
    if selection = [] then some (nextGen, c)
    else
      let parentIndex1 := randomIndex (rnd c) selection.length
      match drawDifferent rnd selection.length parentIndex1 fuel (c + 1) with
      | none => none
      | some (parentIndex2, c2) =>
        let parent1 := selection.getD parentIndex1 (Individual.ofSize 0)
        let parent2 := selection.getD parentIndex2 (Individual.ofSize 0)
        match (eraseAt selection parentIndex1).bind (fun erased => eraseAt erased parentIndex2) with
        | none => none
        | some selection1 =>
          let p := (rnd c2 : ℚ) / RAND_MAX
          if p < probabilityOfCrossOver then
            let offspring := parent1.crossOver parent2 (pointOfCrossover : ℤ)
            let child1 := offspring.1.mutate rnd (c2 + 1) mutationRate L_wMin L_wMax
            let child2 := offspring.2.mutate rnd child1.2 mutationRate L_wMin L_wMax
            let mparent1 := parent1.mutate rnd child2.2 mutationRate L_wMin L_wMax
            let mparent2 := parent2.mutate rnd mparent1.2 mutationRate L_wMin L_wMax
            crossoverAndMutation rnd fuel probabilityOfCrossOver pointOfCrossover mutationRate
              L_wMin L_wMax rounds selection1
              (nextGen ++ [child1.1, child2.1, mparent1.1, mparent2.1]) mparent2.2
          else
            let mparent1 := parent1.mutate rnd (c2 + 1) mutationRate L_wMin L_wMax
            let mparent2 := parent2.mutate rnd mparent1.2 mutationRate L_wMin L_wMax
            crossoverAndMutation rnd fuel probabilityOfCrossOver pointOfCrossover mutationRate
              L_wMin L_wMax rounds selection1 (nextGen ++ [mparent1.1, mparent2.1]) mparent2.2

/-- The state carried from one generation to the next: the population, the collected values
`s_objectiveFunctionValues` and the cursor of the random sequence. -/
structure GeneticState where
  population : List Individual
  trace : List ℚ
  cursor : ℕ

/-- One pass of the main loop of `processWithGenetic` (one generation); `none` as in
`binaryTournaments` and `crossoverAndMutation`. -/
def geneticGeneration (F : List ℚ → ℚ) (rnd : ℕ → ℕ) (fuel : ℕ)
    (individualsIndexesRanges : List (ℤ × ℤ)) (L_wMin L_wMax : List ℚ)
    (totalNumberOfParameters nPopulationSize nSelectionSize : ℕ) (probabilityOfCrossOver : ℚ)
    (pointOfCrossover : ℕ) (mutationRate : ℚ) (st : GeneticState) : Option GeneticState :=
  let filled := refillPopulation rnd L_wMin L_wMax totalNumberOfParameters nPopulationSize
    (nPopulationSize - st.population.length) st.population st.cursor
  let evaluated := individualsIndexesRanges.foldl
    (fun pop range => taskEvaluateObjetiveInRangeOfIndividualsForGenetic F range.1 range.2 pop)
    filled.1
  let sorted := sortIndividuals evaluated
  let trace := st.trace ++ [(sorted.headD (Individual.ofSize 0)).fValue]
  let clipped := sorted.take nPopulationSize
  match binaryTournaments rnd fuel clipped nSelectionSize [] filled.2 with
  | none => none
  | some (selection, c1) =>
    match crossoverAndMutation rnd fuel probabilityOfCrossOver pointOfCrossover mutationRate
        L_wMin L_wMax selection.length selection [] c1 with
    | none => none
    | some (nextGen, c2) => some ⟨nextGen, trace, c2⟩

/-- The main loop of `processWithGenetic`: `maxNumberOfGenerations` generations. -/
def geneticGenerations (F : List ℚ → ℚ) (rnd : ℕ → ℕ) (fuel : ℕ)
    (individualsIndexesRanges : List (ℤ × ℤ)) (L_wMin L_wMax : List ℚ)
    (totalNumberOfParameters nPopulationSize nSelectionSize : ℕ) (probabilityOfCrossOver : ℚ)
    (pointOfCrossover : ℕ) (mutationRate : ℚ) : ℕ → GeneticState → Option GeneticState
  | 0, st => some st
  | iGen + 1, st =>
    match geneticGeneration F rnd fuel individualsIndexesRanges L_wMin L_wMax
        totalNumberOfParameters nPopulationSize nSelectionSize probabilityOfCrossOver
        pointOfCrossover mutationRate st with
    | none => none
    | some st1 =>
      geneticGenerations F rnd fuel individualsIndexesRanges L_wMin L_wMax
        totalNumberOfParameters nPopulationSize nSelectionSize probabilityOfCrossOver
        pointOfCrossover mutationRate iGen st1

/-- The declaration `uint totalNumberOfParameters = m * getNumberOfParameters()`: the `int`
product converted to a 32-bit unsigned integer. -/
def totalNumberOfParameters (m : ℤ) : ℕ := ((m * (getNumberOfParameters : ℤ)) % 2 ^ 32).toNat

/-- The three sanity checks opening `processWithGenetic`, in the order of the code; `true`
when one of them shows its error message and makes the method return. -/
def geneticSanityChecksReject (m : ℤ) (nPopulationSize nSelectionSize pointOfCrossover : ℕ) :
    Bool :=
  if nSelectionSize ≥ nPopulationSize then true
  else if nPopulationSize % 2 + nSelectionSize % 2 ≠ 0 then true
  else if pointOfCrossover ≥ totalNumberOfParameters m then true
  else false

/-- The method `processWithGenetic`: the fitted structures and the collected values
`s_objectiveFunctionValues`.  `F` is the objective function of the session on its input data,
`generateSubRanges` is `Util::generateSubRanges` (not part of the examined sources), `rnd` the
random sequence of the seed; `none` when a drawing loop exhausted `fuel` and when the pairing
loop calls `erase` at a position without an element (undefined behaviour). -/
def processWithGenetic (F : List ℚ → ℚ) (g : DomainInputs)
    (generateSubRanges : ℤ → ℤ → ℤ → List (ℤ × ℤ)) (rnd : ℕ → ℕ) (fuel : ℕ)
    (nThreads : ℤ) (m : ℤ) (maxNumberOfGenerations : ℤ) (nPopulationSize nSelectionSize : ℕ)
    (probabilityOfCrossOver : ℚ) (pointOfCrossover : ℕ) (mutationRate : ℚ) :
    Option (List IJVariographicStructure2D × List ℚ) :=
  if geneticSanityChecksReject m nPopulationSize nSelectionSize pointOfCrossover then
    some ([], [])
  else
    let d := initDomainAndParameters g m.toNat
    let individualsIndexesRanges := generateSubRanges 0 ((nPopulationSize : ℤ) - 1) nThreads
    match geneticGenerations F rnd fuel individualsIndexesRanges d.L_wMin d.L_wMax
        (totalNumberOfParameters m) nPopulationSize nSelectionSize probabilityOfCrossOver
        pointOfCrossover mutationRate maxNumberOfGenerations.toNat ⟨[], [], 0⟩ with
    | none => none
    | some st =>
      let evaluated := st.population.map (fun ind => { ind with fValue := F ind.parameters })
      let sorted := sortIndividuals evaluated
      let gbest_pw := (sorted.headD (Individual.ofSize 0)).parameters
      some (readBackStructures gbest_pw d.variogramStructures m.toNat, st.trace)

/-! ## The objective function -/

/-- A `spectral::array` used as a grid: its three extents and the value of each cell. -/
structure SpectralArray where
  M : ℕ
  N : ℕ
  K : ℕ
  cell : ℕ → ℕ → ℕ → ℚ

/-- The default-constructed `spectral::array`: no cell at all. -/
def SpectralArray.empty : SpectralArray := ⟨0, 0, 0, fun _ _ _ => 0⟩

/-- The constructor `spectral::array( nI, nJ, nK, value )`. -/
def SpectralArray.filled (nI nJ nK : ℕ) (value : ℚ) : SpectralArray :=
  ⟨nI, nJ, nK, fun i j k => if i < nI ∧ j < nJ ∧ k < nK then value else 0⟩

/-- The test `a.data().empty()`. -/
def SpectralArray.dataEmpty (a : SpectralArray) : Bool := a.M * a.N * a.K == 0

/-- The part of `IJAbstractCartesianGrid` the objective function reads. -/
structure GridGeometry where
  nI : ℕ
  nJ : ℕ
  nK : ℕ
  cellSizeI : ℚ
  cellSizeJ : ℚ
  cellSizeK : ℚ

/-- The enumeration `ObjectiveFunctionType` with the two values the code switches on. -/
inductive ObjectiveFunctionType where
  | BASED_ON_FIM
  | BASED_ON_VARFIT
  deriving DecidableEq, Repr

/-- An `AutomaticVariogramFitting` object seen from the objective function: the identity of
its attribute `m_at`, its strategy, and what it obtains from code outside the examined
sources: the result of `computeVarmap()`, of `getInputPhaseMap()`, the distance between the
centre of `m_cg` and the location of cell `(i, j, k)` of `m_cg`, the method
`addContributionToModelGrid` of a structure (spheric model) and the transform of `computeFIM`. -/
structure AutomaticVariogramFitting where
  m_at : ℕ
  m_objectiveFunctionType : ObjectiveFunctionType
  computeVarmap : SpectralArray
  getInputPhaseMap : SpectralArray
  distanceToCenter : ℕ → ℕ → ℕ → ℚ
  addContributionToModelGrid :
    IJVariographicStructure2D → GridGeometry → SpectralArray → SpectralArray
  computeFIM : SpectralArray → SpectralArray → SpectralArray

/-- The function-local `static` variables of `objectiveFunctionVARFIT` and
`objectiveFunctionFIM`; a null `Attribute*` is `none`. -/
structure ObjectiveStatics where
  inputVarmap : SpectralArray
  currentAttribute : Option ℕ
  weights : SpectralArray
  currentAttribute2 : Option ℕ
  inputFFTphases : SpectralArray
  currentAttribute3 : Option ℕ

/-- The statics as they are when the program loads. -/
def ObjectiveStatics.initial : ObjectiveStatics :=
  ⟨SpectralArray.empty, none, SpectralArray.empty, none, SpectralArray.empty, none⟩

/-- The method `generateVariographicSurface`. -/
def AutomaticVariogramFitting.generateVariographicSurface (self : AutomaticVariogramFitting)
    (gridWithGeometry : GridGeometry) (vectorOfParameters : List ℚ) (m : ℕ) : SpectralArray :=
  ((List.range m).foldl
    (fun st _ =>
      let varEllip := readBackOne vectorOfParameters (st.1, zeroStructure)
      (varEllip.1, self.addContributionToModelGrid varEllip.2 gridWithGeometry st.2))
    (0, SpectralArray.filled gridWithGeometry.nI gridWithGeometry.nJ gridWithGeometry.nK 0)).2

/-- The triple loop `for k, for j, for i` accumulating `sum += term( i, j, k )`. -/
def sumOverCells (nI nJ nK : ℕ) (term : ℕ → ℕ → ℕ → ℚ) : ℚ :=
  (List.range nK).foldl
    (fun sum k => (List.range nJ).foldl
      (fun sum j => (List.range nI).foldl (fun sum i => sum + term i j k) sum) sum) 0

/-- The weight given to a cell at distance `d` from the centre of the map. -/
def cellWeight (d meanSampleSpacing : ℚ) : ℚ :=
  if d < 1 / 10000 then 0 else 1 / d / (628 / 100 * d / meanSampleSpacing)

/-- The expression `( getCellSizeI() + getCellSizeJ() + getCellSizeK() ) / 3.0`. -/
def GridGeometry.meanSampleSpacing (g : GridGeometry) : ℚ :=
  (g.cellSizeI + g.cellSizeJ + g.cellSizeK) / 3

/-- The array `weights_tmp` once the triple loop has visited every cell. -/
def computeWeights (self : AutomaticVariogramFitting) (g : GridGeometry) : SpectralArray :=
  ⟨g.nI, g.nJ, g.nK, fun i j k =>
    if i < g.nI ∧ j < g.nJ ∧ k < g.nK then
      cellWeight (self.distanceToCenter i j k) g.meanSampleSpacing
    else 0⟩

/-- The method `objectiveFunctionVARFIT`: the value and the statics it leaves. -/
def AutomaticVariogramFitting.objectiveFunctionVARFIT (self : AutomaticVariogramFitting)
    (st : ObjectiveStatics) (gridWithGeometry : GridGeometry) (_inputGridData : SpectralArray)
    (vectorOfParameters : List ℚ) (m : ℕ) : ℚ × ObjectiveStatics :=
  let st1 : ObjectiveStatics :=
    if st.inputVarmap.dataEmpty ∨ st.currentAttribute ≠ some self.m_at then
      { st with inputVarmap := self.computeVarmap, currentAttribute := some self.m_at }
    else st
  let theoreticalVariographicSurface :=
    self.generateVariographicSurface gridWithGeometry vectorOfParameters m
  let st2 : ObjectiveStatics :=
    if st1.weights.dataEmpty ∨ st1.currentAttribute2 ≠ some self.m_at then
      { st1 with weights := computeWeights self gridWithGeometry,
                 currentAttribute2 := some self.m_at }
    else st1
  (sumOverCells gridWithGeometry.nI gridWithGeometry.nJ gridWithGeometry.nK
    (fun i j k =>
      st2.weights.cell i j k *
        (theoreticalVariographicSurface.cell i j k - st2.inputVarmap.cell i j k) *
        (theoreticalVariographicSurface.cell i j k - st2.inputVarmap.cell i j k)), st2)

/-- The method `objectiveFunctionFIM`: the value and the statics it leaves. -/
def AutomaticVariogramFitting.objectiveFunctionFIM (self : AutomaticVariogramFitting)
    (st : ObjectiveStatics) (gridWithGeometry : GridGeometry) (inputGridData : SpectralArray)
    (vectorOfParameters : List ℚ) (m : ℕ) : ℚ × ObjectiveStatics :=
  let st1 : ObjectiveStatics :=
    if st.inputFFTphases.dataEmpty ∨ st.currentAttribute3 ≠ some self.m_at then
      { st with inputFFTphases := self.getInputPhaseMap, currentAttribute3 := some self.m_at }
    else st
  let theoreticalVariographicSurface :=
    self.generateVariographicSurface gridWithGeometry vectorOfParameters m
  let mapFromTheoreticalVariographicStructure :=
    self.computeFIM theoreticalVariographicSurface st1.inputFFTphases
  (sumOverCells gridWithGeometry.nI gridWithGeometry.nJ gridWithGeometry.nK
    (fun i j k =>
      (mapFromTheoreticalVariographicStructure.cell i j k - inputGridData.cell i j k) *
        (mapFromTheoreticalVariographicStructure.cell i j k - inputGridData.cell i j k)), st1)

/-- The method `objectiveFunction`: the switch on the strategy of the object (the `default`
branch of the C++ switch is not reached by either value of the enumeration). -/
def AutomaticVariogramFitting.objectiveFunction (self : AutomaticVariogramFitting)
    (st : ObjectiveStatics) (gridWithGeometry : GridGeometry) (inputGridData : SpectralArray)
    (vectorOfParameters : List ℚ) (m : ℕ) : ℚ × ObjectiveStatics :=
  match self.m_objectiveFunctionType with
  | ObjectiveFunctionType.BASED_ON_FIM =>
    self.objectiveFunctionFIM st gridWithGeometry inputGridData vectorOfParameters m
  | ObjectiveFunctionType.BASED_ON_VARFIT =>
    self.objectiveFunctionVARFIT st gridWithGeometry inputGridData vectorOfParameters m

/-- The arguments of one call of `objectiveFunction`, with the object it is called on. -/
structure ObjectiveCall where
  self : AutomaticVariogramFitting
  gridWithGeometry : GridGeometry
  inputGridData : SpectralArray
  vectorOfParameters : List ℚ
  m : ℕ

/-- A sequence of calls of `objectiveFunction` made one after the other from the statics `st`:
the values returned, in order, and the statics left. -/
def objectiveCalls : ObjectiveStatics → List ObjectiveCall → List ℚ × ObjectiveStatics
  | st, [] => ([], st)
  | st, c :: rest =>
    let r := c.self.objectiveFunction st c.gridWithGeometry c.inputGridData
      c.vectorOfParameters c.m
    let rs := objectiveCalls r.2 rest
    (r.1 :: rs.1, rs.2)

/-! ## Simulated annealing followed by gradient descent -/

/-- The lambda `temperature` of `processWithSAandGD`; `exp` and `log10` stand for `std::exp`
and `std::log10`. -/
def temperature (exp log10 : ℚ → ℚ) (f_Tinitial : ℚ) (i_stepNumber : ℕ) : ℚ :=
  f_Tinitial * exp (-(i_stepNumber : ℚ) / 1000 * (3 / 2 * log10 f_Tinitial))

/-- The lambda `probAcceptance` of `processWithSAandGD`. -/
def probAcceptance (f_Tinitial f_Tfinal : ℚ) (f_eCurrent f_eNewLocal f_T : ℚ) : ℚ :=
  if f_eNewLocal > f_eCurrent then (f_T - f_Tfinal) / (f_Tinitial - f_Tfinal)
  else 1 - (f_T - f_Tfinal) / (f_Tinitial - f_Tfinal)

/-- The loop `while( true )` drawing the value of one parameter of the neighbouring state
until it falls inside the domain; `none` when `fuel` draws did not suffice. -/
def drawInsideDomain (rnd : ℕ → ℕ) (f_factorSearch current delta wMin wMax : ℚ) :
    ℕ → ℕ → Option (ℚ × ℕ)
  | 0, _ => none
  | fuel + 1, c =>
    let f_tmp := randomWithin (rnd c) (current - f_factorSearch * delta)
      (current + f_factorSearch * delta)
    if f_tmp ≥ wMin ∧ f_tmp ≤ wMax then some (f_tmp, c + 1)
    else drawInsideDomain rnd f_factorSearch current delta wMin wMax fuel (c + 1)

/-- The loop `for( i ... ) L_wNew[i] = f_tmp` building the neighbouring state, from
parameter `i` on for `remaining` parameters. -/
def drawNeighbor (rnd : ℕ → ℕ) (fuel : ℕ) (f_factorSearch : ℚ)
    (L_wCurrent L_wDelta L_wMin L_wMax : List ℚ) :
    ℕ → ℕ → List ℚ → ℕ → Option (List ℚ × ℕ)
  | 0, _, L_wNew, c => some (L_wNew, c)
  | remaining + 1, i, L_wNew, c =>
    match drawInsideDomain rnd f_factorSearch (L_wCurrent.getD i 0) (L_wDelta.getD i 0)
        (L_wMin.getD i 0) (L_wMax.getD i 0) fuel c with
    | none => none
    | some (f_tmp, c1) =>
      drawNeighbor rnd fuel f_factorSearch L_wCurrent L_wDelta L_wMin L_wMax remaining (i + 1)
        (L_wNew.set i f_tmp) c1

/-- The variables the annealing loop carries from one step to the next. -/
structure AnnealingState where
  L_wCurrent : List ℚ
  f_eNew : ℚ
  f_lowestEnergyFound : ℚ
  L_wOfLowestEnergyFound : List ℚ
  trace : List ℚ
  cursor : ℕ

/-- The body of the main annealing loop from the neighbouring state on: energies, probability
of acceptance, the random draw deciding the move, the record low and the collected value. -/
def annealingMove (F : List ℚ → ℚ) (f_Tinitial f_Tfinal f_T : ℚ) (L_wNew : List ℚ) (r : ℕ)
    (st : AnnealingState) : AnnealingState :=
  let f_eCurrent := F st.L_wCurrent
  let f_eNew := F L_wNew
  let f_probMov := probAcceptance f_Tinitial f_Tfinal f_eCurrent f_eNew f_T
  if f_probMov ≥ (r : ℚ) / RAND_MAX then
    if f_eNew < st.f_lowestEnergyFound then
      { L_wCurrent := L_wNew, f_eNew := f_eNew, f_lowestEnergyFound := f_eNew,
        L_wOfLowestEnergyFound := L_wNew, trace := st.trace ++ [f_eCurrent],
        cursor := st.cursor }
    else
      { st with L_wCurrent := L_wNew, f_eNew := f_eNew, trace := st.trace ++ [f_eCurrent] }
  else
    { st with f_eNew := f_eNew, trace := st.trace ++ [f_eCurrent] }

/-- One pass of the main annealing loop at step `k` (the test `f_T < f_Tfinal` guards an
empty statement and has no effect). -/
def annealingStep (F : List ℚ → ℚ) (exp log10 : ℚ → ℚ) (rnd : ℕ → ℕ) (fuel : ℕ)
    (f_Tinitial f_Tfinal f_factorSearch : ℚ) (L_wMin L_wMax : List ℚ) (k : ℕ)
    (st : AnnealingState) : Option AnnealingState :=
  let f_T := temperature exp log10 f_Tinitial k
  match drawNeighbor rnd fuel f_factorSearch st.L_wCurrent
      (List.zipWith (fun a b => a - b) L_wMax L_wMin) L_wMin L_wMax
      st.L_wCurrent.length 0 st.L_wCurrent st.cursor with
  | none => none
  | some (L_wNew, c1) =>
    some (annealingMove F f_Tinitial f_Tfinal f_T L_wNew (rnd c1) { st with cursor := c1 + 1 })

/-- The main annealing loop `for( ; k < i_kmax; ++k )`, from step `k` on for `remaining`
steps. -/
def annealingLoop (F : List ℚ → ℚ) (exp log10 : ℚ → ℚ) (rnd : ℕ → ℕ) (fuel : ℕ)
    (f_Tinitial f_Tfinal f_factorSearch : ℚ) (L_wMin L_wMax : List ℚ) :
    ℕ → ℕ → AnnealingState → Option AnnealingState
  | 0, _, st => some st
  | remaining + 1, k, st =>
    match annealingStep F exp log10 rnd fuel f_Tinitial f_Tfinal f_factorSearch L_wMin L_wMax
        k st with
    | none => none
    | some st1 =>
      annealingLoop F exp log10 rnd fuel f_Tinitial f_Tfinal f_factorSearch L_wMin L_wMax
        remaining (k + 1) st1

/-- The annealing part of `processWithSAandGD`, from the initial parameters `vw`: the state
when the loop ends; the part hands `L_wOfLowestEnergyFound` over to the gradient descent. -/
def simulatedAnnealing (F : List ℚ → ℚ) (exp log10 : ℚ → ℚ) (rnd : ℕ → ℕ) (fuel : ℕ)
    (f_Tinitial f_Tfinal : ℚ) (i_kmax : ℤ) (f_factorSearch : ℚ) (vw L_wMin L_wMax : List ℚ) :
    Option AnnealingState :=
  annealingLoop F exp log10 rnd fuel f_Tinitial f_Tfinal f_factorSearch L_wMin L_wMax
    i_kmax.toNat 0 ⟨vw, DBL_MAX, DBL_MAX, [], [], 0⟩

/-- The function `taskOnePartialDerivative`: the central difference of `G` at `vw` along each
parameter of the bin, written into `gradient`. -/
def taskOnePartialDerivative (G : List ℚ → ℚ) (vw : List ℚ) (parameterIndexBin : List ℕ)
    (epsilon : ℚ) (gradient : List ℚ) : List ℚ :=
  parameterIndexBin.foldl
    (fun gradient iParameter =>
      let vwFromRight := vw.set iParameter (vw.getD iParameter 0 + epsilon)
      let vwFromLeft := vw.set iParameter (vw.getD iParameter 0 - epsilon)
      gradient.set iParameter ((G vwFromRight - G vwFromLeft) / (2 * epsilon)))
    gradient

/-- The distribution of the parameter indexes among the threads:
`parameterIndexBins[ iThread % nThreads ].push_back( parameterIndex )`. -/
def parameterIndexBins (nThreads : ℕ) (size : ℕ) : List (List ℕ) :=
  (List.range size).foldl
    (fun bins parameterIndex =>
      bins.modify (fun bin => bin ++ [parameterIndex]) (parameterIndex % nThreads))
    (List.replicate nThreads [])

/-- The gradient block of one descent iteration: the tasks of all the threads, each on its
bin, writing into the same array (the threads are taken one after the other). -/
def computeGradient (G : List ℚ → ℚ) (nThreads : ℕ) (vw : List ℚ) (epsilon : ℚ) : List ℚ :=
  (parameterIndexBins nThreads vw.length).foldl
    (fun gradient bin => taskOnePartialDerivative G vw bin epsilon gradient)
    (List.replicate vw.length 0)

/-- The loop imposing the domain constraints on `new_vw`. -/
def imposeDomain (L_wMin L_wMax new_vw : List ℚ) : List ℚ :=
  (List.range new_vw.length).foldl
    (fun v i =>
      let v1 := if v.getD i 0 < L_wMin.getD i 0 then v.set i (L_wMin.getD i 0) else v
      if v1.getD i 0 > L_wMax.getD i 0 then v1.set i (L_wMax.getD i 0) else v1)
    new_vw

/-- The variables of the step-halving block of one descent iteration. -/
structure DescentStep where
  vw : List ℚ
  currentF : ℚ
  nextF : ℚ
  warned : Bool

/-- The loop `for( ; iAlphaReductionStep < maxNumberOfAlphaReductionSteps; ... )` from step
number `iAlphaReductionStep` on, with at most `remaining` passes left. -/
def alphaReduction (F : List ℚ → ℚ) (L_wMin L_wMax gradient : List ℚ)
    (maxNumberOfAlphaReductionSteps : ℚ) :
    ℕ → ℕ → ℚ → DescentStep → DescentStep
  | 0, iAlphaReductionStep, _, st =>
    { st with warned := decide ((iAlphaReductionStep : ℚ) = maxNumberOfAlphaReductionSteps) }
  | remaining + 1, iAlphaReductionStep, alpha, st =>
    if (iAlphaReductionStep : ℚ) < maxNumberOfAlphaReductionSteps then
      let new_vw := imposeDomain L_wMin L_wMax
        (List.zipWith (fun a b => a - b) st.vw (gradient.map (fun x => x * alpha)))
      let currentF := F st.vw
      let nextF := F new_vw
      if nextF < currentF then ⟨new_vw, currentF, nextF, false⟩
      else
        alphaReduction F L_wMin L_wMax gradient maxNumberOfAlphaReductionSteps remaining
          (iAlphaReductionStep + 1) (alpha / 2) ⟨st.vw, currentF, nextF, false⟩
    else
      { st with warned := decide ((iAlphaReductionStep : ℚ) = maxNumberOfAlphaReductionSteps) }

/-- The variables the gradient descent loop carries from one iteration to the next, with a
flag telling that the convergence criterion has ended the loop. -/
structure DescentState where
  vw : List ℚ
  trace : List ℚ
  converged : Bool

/-- One pass of the main loop of the gradient descent.  `F` is the objective function on the
input data, `G` the objective function on the array handed to the gradient tasks. -/
def descentIteration (F G : List ℚ → ℚ) (nThreads : ℕ) (epsilon initialAlpha
    maxNumberOfAlphaReductionSteps convergenceCriterion : ℚ) (L_wMin L_wMax : List ℚ)
    (st : DescentState) : DescentState :=
  let gradient := computeGradient G nThreads st.vw epsilon
  let r := alphaReduction F L_wMin L_wMax gradient maxNumberOfAlphaReductionSteps
    (⌈maxNumberOfAlphaReductionSteps⌉.toNat) 0 initialAlpha ⟨st.vw, DBL_MAX, 1, false⟩
  let ratio := r.currentF / r.nextF
  ⟨r.vw, st.trace ++ [r.currentF], decide (ratio < 1 + convergenceCriterion)⟩

/-- The main loop of the gradient descent, `for( ; iOptStep < maxNumberOfOptimizationSteps; ...)`
with its `break` on convergence. -/
def gradientDescent (F G : List ℚ → ℚ) (nThreads : ℕ) (epsilon initialAlpha
    maxNumberOfAlphaReductionSteps convergenceCriterion : ℚ) (L_wMin L_wMax : List ℚ) :
    ℕ → DescentState → DescentState
  | 0, st => st
  | remaining + 1, st =>
    let st1 := descentIteration F G nThreads epsilon initialAlpha
      maxNumberOfAlphaReductionSteps convergenceCriterion L_wMin L_wMax st
    if st1.converged then st1
    else gradientDescent F G nThreads epsilon initialAlpha maxNumberOfAlphaReductionSteps
      convergenceCriterion L_wMin L_wMax remaining st1

/-- The method `processWithSAandGD`: the fitted structures and the collected values.
`objectiveFunction data vw` is the objective function of the session; the annealing and the
step-halving evaluate it on `inputData`, the gradient tasks are handed `inputVarmap`. -/
def processWithSAandGD (objectiveFunction : SpectralArray → List ℚ → ℚ)
    (inputData inputVarmap : SpectralArray) (g : DomainInputs) (exp log10 : ℚ → ℚ)
    (rnd : ℕ → ℕ) (fuel : ℕ) (nThreads : ℕ) (m : ℤ) (f_Tinitial f_Tfinal : ℚ) (i_kmax : ℤ)
    (f_factorSearch : ℚ) (maxNumberOfOptimizationSteps : ℤ)
    (epsilon initialAlpha maxNumberOfAlphaReductionSteps convergenceCriterion : ℚ) :
    Option (List IJVariographicStructure2D × List ℚ) :=
  let d := initDomainAndParameters g m.toNat
  match simulatedAnnealing (objectiveFunction inputData) exp log10 rnd fuel f_Tinitial f_Tfinal
      i_kmax f_factorSearch d.vw d.L_wMin d.L_wMax with
  | none => none
  | some sa =>
    let gd := gradientDescent (objectiveFunction inputData) (objectiveFunction inputVarmap)
      nThreads epsilon initialAlpha maxNumberOfAlphaReductionSteps convergenceCriterion
      d.L_wMin d.L_wMax maxNumberOfOptimizationSteps.toNat
      ⟨sa.L_wOfLowestEnergyFound, sa.trace, false⟩
    some (readBackStructures gd.vw d.variogramStructures m.toNat, gd.trace)

/-! ## Line search with restarts -/

/-- The lambda `alpha_k` of `movePointAlongLineForLSRS`. -/
def alpha_k (k : ℕ) : ℚ := 2 + 3 / (2 : ℚ) ^ (k * k + 1)

/-- The variables the worker tasks of the line search write: the points, the value of the
objective function at the best solution and the best solution. -/
structure LineSearchState where
  startingPoints : List (List ℚ)
  fOfBestSolution : ℚ
  vw_bestSolution : List ℚ

/-- The candidate point `vw_candidate` of `movePointAlongLineForLSRS`, element after element:
the displacement of the point and then the two tests against the boundaries. -/
def lineCandidate (m : ℕ) (i k : ℕ) (domain : VariogramParametersDomain)
    (L_wMax L_wMin : List ℚ) (randSequence : ℕ → ℕ → ℕ → ℚ) (point : List ℚ) : List ℚ :=
  (List.range (m * getNumberOfParameters)).map (fun j =>
    let p_k := -1 + randSequence j i (k - 1) * 2
    let delta := (domain.max.getParameter (j % getNumberOfParameters)) -
      (domain.min.getParameter (j % getNumberOfParameters))
    let c := point.getD j 0 + p_k * delta * alpha_k k
    let c1 := if c > L_wMax.getD j 0 then L_wMax.getD j 0 else c
    if c1 < L_wMin.getD j 0 then L_wMin.getD j 0 else c1)

/-- The method `movePointAlongLineForLSRS` for point `i` at step `k`. -/
def movePointAlongLineForLSRS (F : List ℚ → ℚ) (m : ℕ) (i k : ℕ)
    (domain : VariogramParametersDomain) (L_wMax L_wMin : List ℚ)
    (randSequence : ℕ → ℕ → ℕ → ℚ) (st : LineSearchState) : LineSearchState :=
  let vw_candidate := lineCandidate m i k domain L_wMax L_wMin randSequence
    (st.startingPoints.getD i [])
  let fCurrent := F (st.startingPoints.getD i [])
  let fCandidate := F vw_candidate
  if fCandidate < fCurrent then
    if fCandidate < st.fOfBestSolution then
      ⟨st.startingPoints.set i vw_candidate, fCandidate, vw_candidate⟩
    else
      { st with startingPoints := st.startingPoints.set i vw_candidate }
  else st

/-- The function `taskMovePointAlongLineForLSRS`: the points `initial_i .. final_i`. -/
def taskMovePointAlongLineForLSRS (F : List ℚ → ℚ) (m : ℕ) (initial_i final_i : ℤ) (k : ℕ)
    (domain : VariogramParametersDomain) (L_wMax L_wMin : List ℚ)
    (randSequence : ℕ → ℕ → ℕ → ℚ) (st : LineSearchState) : LineSearchState :=
  (indexRange initial_i final_i).foldl
    (fun st i => movePointAlongLineForLSRS F m i k domain L_wMax L_wMin randSequence st) st

/-- One step `k` of the line search: the tasks of all the threads, one per range of point
indexes, taken one after the other in the order of the ranges. -/
def lineSearchStep (F : List ℚ → ℚ) (m : ℕ)
    (startingPointsIndexesRanges : List (ℤ × ℤ)) (k : ℕ) (domain : VariogramParametersDomain)
    (L_wMax L_wMin : List ℚ) (randSequence : ℕ → ℕ → ℕ → ℚ) (st : LineSearchState) :
    LineSearchState :=
  startingPointsIndexesRanges.foldl
    (fun st range =>
      taskMovePointAlongLineForLSRS F m range.1 range.2 k domain L_wMax L_wMin randSequence st)
    st

/-- The loop of the line search `for( k = 1; k <= maxNumberOfOptimizationSteps; ++k )`, from
step `k` on for `remaining` steps; each step appends the value of the objective function at
`vw_bestSolution` to the collected values. -/
def lineSearchSteps (F : List ℚ → ℚ) (m : ℕ) (startingPointsIndexesRanges : List (ℤ × ℤ))
    (domain : VariogramParametersDomain) (L_wMax L_wMin : List ℚ)
    (randSequence : ℕ → ℕ → ℕ → ℚ) :
    ℕ → ℕ → LineSearchState × List ℚ → LineSearchState × List ℚ
  | 0, _, st => st
  | remaining + 1, k, st =>
    let st1 := lineSearchStep F m startingPointsIndexesRanges k domain L_wMax L_wMin
      randSequence st.1
    lineSearchSteps F m startingPointsIndexesRanges domain L_wMax L_wMin randSequence
      remaining (k + 1) (st1, st.2 ++ [F st1.vw_bestSolution])

/-- The loop generating the starting points of a restart, at random within the domain. -/
def randomStartingPoints (rnd : ℕ → ℕ) (L_wMin L_wMax : List ℚ) (size : ℕ) :
    ℕ → List (List ℚ) → ℕ → List (List ℚ) × ℕ
  | 0, startingPoints, c => (startingPoints, c)
  | remaining + 1, startingPoints, c =>
    let p := randomVector rnd c L_wMin L_wMax size
    randomStartingPoints rnd L_wMin L_wMax size remaining (startingPoints ++ [p.1]) p.2

/-- The array `randSequence( j, i, k-1 )` filled beforehand from the cursor `c`: steps
outermost, then points, then parameters. -/
def makeRandSequence (rnd : ℕ → ℕ) (c : ℕ) (size nStartingPoints : ℕ) : ℕ → ℕ → ℕ → ℚ :=
  fun j i k0 => (rnd (c + (k0 * nStartingPoints + i) * size + j) : ℚ) / RAND_MAX

/-- The loop updating the domain limits after a restart, parameter after parameter, from the
sign of the central difference of the objective function at the best solution. -/
def updateLimits (F : List ℚ → ℚ) (epsilon : ℚ) (vw_bestSolution : List ℚ) (size : ℕ)
    (limits : List ℚ × List ℚ) : List ℚ × List ℚ :=
  (List.range size).foldl
    (fun lim iParameter =>
      let vwFromRight :=
        vw_bestSolution.set iParameter (vw_bestSolution.getD iParameter 0 + epsilon)
      let vwFromLeft :=
        vw_bestSolution.set iParameter (vw_bestSolution.getD iParameter 0 - epsilon)
      let partialDerivative := (F vwFromRight - F vwFromLeft) / (2 * epsilon)
      if partialDerivative > 0 then
        (lim.1, lim.2.set iParameter (vw_bestSolution.getD iParameter 0))
      else if partialDerivative < 0 then
        (lim.1.set iParameter (vw_bestSolution.getD iParameter 0), lim.2)
      else lim)
    limits

/-- The variables the restart loop carries from one restart to the next: the limits
`(L_wMin, L_wMax)`, the best solution, the collected values and the cursor. -/
structure RestartState where
  L_wMin : List ℚ
  L_wMax : List ℚ
  vw_bestSolution : List ℚ
  trace : List ℚ
  cursor : ℕ

/-- One pass of the restart loop of `processWithLSRS`. -/
def lineSearchRestart (F : List ℚ → ℚ) (rnd : ℕ → ℕ) (m : ℕ)
    (startingPointsIndexesRanges : List (ℤ × ℤ)) (domain : VariogramParametersDomain)
    (vwSize : ℕ) (maxNumberOfOptimizationSteps : ℕ) (epsilon : ℚ) (nStartingPoints : ℕ)
    (st : RestartState) : RestartState :=
  let size := m * getNumberOfParameters
  let sp := randomStartingPoints rnd st.L_wMin st.L_wMax size nStartingPoints [] st.cursor
  let randSequence := makeRandSequence rnd sp.2 size nStartingPoints
  let c1 := sp.2 + maxNumberOfOptimizationSteps * nStartingPoints * size
  let r := lineSearchSteps F m startingPointsIndexesRanges domain st.L_wMax st.L_wMin
    randSequence maxNumberOfOptimizationSteps 1
    (⟨sp.1, DBL_MAX, st.vw_bestSolution⟩, st.trace)
  let lim := updateLimits F epsilon r.1.vw_bestSolution vwSize (st.L_wMin, st.L_wMax)
  ⟨lim.1, lim.2, r.1.vw_bestSolution, r.2, c1⟩

/-- The method `processWithLSRS`: the fitted structures and the collected values.
`startingPointsIndexesRanges` is what `Util::generateSubRanges( 0, nStartingPoints-1, nThreads )`
returns (one range of point indexes per thread; the function is outside the examined
sources). -/
def processWithLSRS (F : List ℚ → ℚ) (g : DomainInputs)
    (startingPointsIndexesRanges : List (ℤ × ℤ)) (rnd : ℕ → ℕ) (m : ℤ)
    (maxNumberOfOptimizationSteps : ℤ) (epsilon : ℚ) (nStartingPoints nRestarts : ℤ) :
    List IJVariographicStructure2D × List ℚ :=
  let d := initDomainAndParameters g m.toNat
  let final := (List.range nRestarts.toNat).foldl
    (fun st _ => lineSearchRestart F rnd m.toNat startingPointsIndexesRanges d.domain
      d.vw.length maxNumberOfOptimizationSteps.toNat epsilon nStartingPoints.toNat st)
    ⟨d.L_wMin, d.L_wMax, List.replicate (m.toNat * getNumberOfParameters) 0, [], 0⟩
  (readBackStructures final.vw_bestSolution d.variogramStructures m.toNat, final.trace)

/-! ## Particle swarm optimisation -/

/-- One particle of the swarm: position, velocity, best position and the recorded value of
the objective function at the best position. -/
structure Particle where
  pw : List ℚ
  vw : List ℚ
  pbw : List ℚ
  fOfpbest : ℚ

/-- The "bounce" of a candidate coordinate at the boundaries of the domain: the test on the
overshoot and then the test on the undershoot. -/
def bounce (wMin wMax candidate : ℚ) : ℚ :=
  let overshoot := candidate - wMax
  let c1 := if overshoot > 0 then wMax - overshoot else candidate
  let undershoot := wMin - c1
  if undershoot > 0 then wMin + undershoot else c1

/-- The candidate velocity of coordinate `i` of a particle. -/
def candidateVelocity (intertia_weight acceleration_constant_1 acceleration_constant_2
    rand1 rand2 : ℚ) (p : Particle) (gbest_pw : List ℚ) (i : ℕ) : ℚ :=
  intertia_weight * p.vw.getD i 0 +
    acceleration_constant_1 * rand1 * (p.pbw.getD i 0 - p.pw.getD i 0) +
    acceleration_constant_2 * rand2 * (gbest_pw.getD i 0 - p.pw.getD i 0)

/-- The candidate position of coordinate `i` of a particle, after the bounce. -/
def candidateParticle (intertia_weight acceleration_constant_1 acceleration_constant_2
    rand1 rand2 : ℚ) (L_wMin L_wMax : List ℚ) (p : Particle) (gbest_pw : List ℚ) (i : ℕ) : ℚ :=
  bounce (L_wMin.getD i 0) (L_wMax.getD i 0)
    (p.pw.getD i 0 + candidateVelocity intertia_weight acceleration_constant_1
      acceleration_constant_2 rand1 rand2 p gbest_pw i)

/-- The variables the swarm loop carries along: the particles, the global best position, the
value `fOfgbest`, the collected values and the cursor. -/
structure SwarmState where
  particles : List Particle
  gbest_pw : List ℚ
  fOfgbest : ℚ
  trace : List ℚ
  cursor : ℕ

/-- The body of the loop over the particles for particle `iParticle`. -/
def moveParticle (F : List ℚ → ℚ) (rnd : ℕ → ℕ) (intertia_weight acceleration_constant_1
    acceleration_constant_2 : ℚ) (L_wMin L_wMax : List ℚ) (st : SwarmState) (iParticle : ℕ) :
    SwarmState :=
  let p := st.particles.getD iParticle ⟨[], [], [], DBL_MAX⟩
  let rand1 := (rnd st.cursor : ℚ) / RAND_MAX
  let rand2 := (rnd (st.cursor + 1) : ℚ) / RAND_MAX
  let candidate_velocity := (List.range p.pw.length).map
    (candidateVelocity intertia_weight acceleration_constant_1 acceleration_constant_2
      rand1 rand2 p st.gbest_pw)
  let candidate_particle := (List.range p.pw.length).map
    (candidateParticle intertia_weight acceleration_constant_1 acceleration_constant_2
      rand1 rand2 L_wMin L_wMax p st.gbest_pw)
  let fCurrent := F p.pw
  let fCandidate := F candidate_particle
  let p1 : Particle :=
    if fCandidate < fCurrent then { p with pw := candidate_particle, vw := candidate_velocity }
    else p
  let p2 : Particle :=
    if fCandidate < p.fOfpbest then { p1 with fOfpbest := fCandidate, pbw := candidate_particle }
    else p1
  let particles := st.particles.set iParticle p2
  if fCandidate < st.fOfgbest then
    ⟨particles, candidate_particle, fCandidate, st.trace, st.cursor + 2⟩
  else
    ⟨particles, st.gbest_pw, st.fOfgbest, st.trace, st.cursor + 2⟩

/-- One optimisation step of the swarm: every particle in turn, then the value `fOfgbest` is
appended to the collected values. -/
def swarmStep (F : List ℚ → ℚ) (rnd : ℕ → ℕ) (intertia_weight acceleration_constant_1
    acceleration_constant_2 : ℚ) (L_wMin L_wMax : List ℚ) (nParticles : ℕ) (st : SwarmState) :
    SwarmState :=
  let st1 := (List.range nParticles).foldl
    (moveParticle F rnd intertia_weight acceleration_constant_1 acceleration_constant_2
      L_wMin L_wMax) st
  { st1 with trace := st1.trace ++ [st1.fOfgbest] }

/-- The loop creating the particles: a random position within the domain, a zero velocity,
the position as best position and the largest `double` as its value. -/
def initParticles (rnd : ℕ → ℕ) (L_wMin L_wMax : List ℚ) (size : ℕ) :
    ℕ → List Particle → ℕ → List Particle × ℕ
  | 0, particles, c => (particles, c)
  | remaining + 1, particles, c =>
    let pw := randomVector rnd c L_wMin L_wMax size
    initParticles rnd L_wMin L_wMax size remaining
      (particles ++ [⟨pw.1, List.replicate size 0, pw.1, DBL_MAX⟩]) pw.2

/-- The block initialising the global best position: the best position of the particle with
the lowest value of the objective function, the first one among equals; its value is kept in
the local variable `fOfBest` of the block. -/
def initGlobalBest (F : List ℚ → ℚ) (particles : List Particle) : List ℚ × ℚ :=
  particles.foldl
    (fun best p => if F p.pbw < best.2 then (p.pbw, F p.pbw) else best) ([], DBL_MAX)

/-- The method `processWithPSO`: the fitted structures and the collected values. -/
def processWithPSO (F : List ℚ → ℚ) (g : DomainInputs) (rnd : ℕ → ℕ) (m : ℤ)
    (maxNumberOfOptimizationSteps : ℤ) (nParticles : ℤ)
    (intertia_weight acceleration_constant_1 acceleration_constant_2 : ℚ) :
    List IJVariographicStructure2D × List ℚ :=
  let d := initDomainAndParameters g m.toNat
  let init := initParticles rnd d.L_wMin d.L_wMax (m.toNat * getNumberOfParameters)
    nParticles.toNat [] 0
  let gbest_pw := (initGlobalBest F init.1).1
  let final := (List.range maxNumberOfOptimizationSteps.toNat).foldl
    (fun st _ => swarmStep F rnd intertia_weight acceleration_constant_1
      acceleration_constant_2 d.L_wMin d.L_wMax nParticles.toNat st)
    ⟨init.1, gbest_pw, DBL_MAX, [], init.2⟩
  (readBackStructures final.gbest_pw d.variogramStructures m.toNat, final.trace)

/-! ## The random forest classifier (`algorithms/randomforest.cpp`) -/

/-- The vector `classesFound` of `RandomForest::classify` after the loop over the trees. The
result `localResult` of `tree->classify( ... )` (code of `CART/cart.h`, which is not among the
sources) is given for each tree as a list of pairs (categorical value, count); a tree contributes
the class of its first pair only, since the `break` leaves the inner loop after one `push_back`,
and a tree with an empty result contributes nothing. -/
def RandomForest.classesFound (localResults : List (List (ℤ × ℤ))) : List ℤ :=
  localResults.foldl
    (fun classesFound localResult =>
      match localResult with
      | [] => classesFound
      | it :: _ => classesFound ++ [it.1])
    []

/-- The local variables of the vote counting loop of `RandomForest::classify`. The two counters
are `long`s that start at zero and are only incremented, at most once per vote: they are
naturals. -/
structure VoteCount where
  mostVotedClass : ℤ
  mostVotedClassCount : ℕ
  currentCount : ℕ
  previousClass : ℤ

/-- One pass of the vote counting loop of `RandomForest::classify`, for the vote
`currentClass`. -/
def RandomForest.countVote (s : VoteCount) (currentClass : ℤ) : VoteCount :=
  let currentCount := (if currentClass ≠ s.previousClass then 0 else s.currentCount) + 1
  if currentCount > s.mostVotedClassCount then
    { mostVotedClass := currentClass, mostVotedClassCount := currentCount,
      currentCount := currentCount, previousClass := currentClass }
  else
    { mostVotedClass := s.mostVotedClass, mostVotedClassCount := s.mostVotedClassCount,
      currentCount := currentCount, previousClass := currentClass }

/-- The method `RandomForest::classify`, from the results of the trees: the pair
(`result.first`, `result.second`), that is, the most voted class and the voting uncertainty.
`std::sort` of the `int` votes is the ascending sort. -/
def RandomForest.classify (localResults : List (List (ℤ × ℤ))) : ℤ × ℚ :=
  let classesFound := (RandomForest.classesFound localResults).insertionSort (· ≤ ·)
  let s := classesFound.foldl RandomForest.countVote
    { mostVotedClass := -999999999, mostVotedClassCount := 0, currentCount := 0,
      previousClass := -999999999 }
  let uncertainty : ℚ := 1 - (s.mostVotedClassCount : ℚ) / (classesFound.length : ℚ)
  (s.mostVotedClass, uncertainty)

/-! ## Gauss-Jordan inversion (`geostats/matrixmxn.cpp`) -/

/-- The assignment `a(i,j) = v` to an element of a matrix with `n` rows and `n` columns. The
element access `a(i,j)` and the storage of `MatrixNXM` are declared in `matrixmxn.h`, which is
not among the sources: a matrix is given by its elements. -/
def MatrixNXM.setElement {n : ℕ} (a : Fin n → Fin n → ℚ) (i j : Fin n) (v : ℚ) :
    Fin n → Fin n → ℚ :=
  Function.update a i (Function.update (a i) j v)

/-- The call `std::swap( a(i,j), a(i2,j2) )`. -/
def MatrixNXM.swapElements {n : ℕ} (a : Fin n → Fin n → ℚ) (i j i2 j2 : Fin n) :
    Fin n → Fin n → ℚ :=
  MatrixNXM.setElement (MatrixNXM.setElement a i j (a i2 j2)) i2 j2 (a i j)

/-- The variables of `MatrixNXM<double>::invertWithGaussJordan` that live across the passes of
its main loop: the matrix, the three bookkeeping vectors and the position of the last pivot. -/
structure GaussJordan (n : ℕ) where
  a : Fin n → Fin n → ℚ
  indxc : Fin n → Fin n
  indxr : Fin n → Fin n
  ipiv : Fin n → ℤ
  irow : Fin n
  icol : Fin n

/-- The search of the pivot in `invertWithGaussJordan`: the loops over `j` and `k` that follow
`big = 0.0`; the result is (`big`, `irow`, `icol`). -/
def MatrixNXM.searchPivot {n : ℕ} (a : Fin n → Fin n → ℚ) (ipiv : Fin n → ℤ)
    (irow icol : Fin n) : ℚ × Fin n × Fin n :=
  (List.finRange n).foldl
    (fun s j =>
      if ipiv j ≠ 1 then
        (List.finRange n).foldl
          (fun s k =>
            if ipiv k = 0 then
              if |a j k| ≥ s.1 then (|a j k|, j, k) else s
            else s)
          s
      else s)
    (0, irow, icol)

/-- The loop `for (l=0; l<n; ++l) std::swap( a(irow,l), a(icol,l) )`. -/
def MatrixNXM.swapRows {n : ℕ} (a : Fin n → Fin n → ℚ) (irow icol : Fin n) :
    Fin n → Fin n → ℚ :=
  (List.finRange n).foldl (fun a l => MatrixNXM.swapElements a irow l icol l) a

/-- The statements `a(icol, icol) = 1.0; for (l=0; l<n; ++l) a(icol,l) *= pivinv`. -/
def MatrixNXM.scaleRow {n : ℕ} (a : Fin n → Fin n → ℚ) (icol : Fin n) (pivinv : ℚ) :
    Fin n → Fin n → ℚ :=
  (List.finRange n).foldl (fun a l => MatrixNXM.setElement a icol l (a icol l * pivinv))
    (MatrixNXM.setElement a icol icol 1)

/-- The body of the loop over `ll` for one row `ll != icol`: `dum` is saved, the element of
the column of the pivot is zeroed and the multiple of the row of the pivot is subtracted. -/
def MatrixNXM.reduceRow {n : ℕ} (a : Fin n → Fin n → ℚ) (icol ll : Fin n) :
    Fin n → Fin n → ℚ :=
  let dum := a ll icol
  (List.finRange n).foldl (fun a l => MatrixNXM.setElement a ll l (a ll l - a icol l * dum))
    (MatrixNXM.setElement a ll icol 0)

/-- The loop `for (ll=0; ll<n; ++ll) if (ll != icol) ...`. -/
def MatrixNXM.reduceRows {n : ℕ} (a : Fin n → Fin n → ℚ) (icol : Fin n) :
    Fin n → Fin n → ℚ :=
  (List.finRange n).foldl
    (fun a ll => if ll ≠ icol then MatrixNXM.reduceRow a icol ll else a) a

/-- One pass `i` of the main loop of `invertWithGaussJordan`; `none` is the early `return` after
the message "Singular matrix. Operation aborted." -/
def MatrixNXM.pivotPass {n : ℕ} (s : GaussJordan n) (i : Fin n) : Option (GaussJordan n) :=
  let found := MatrixNXM.searchPivot s.a s.ipiv s.irow s.icol
  let irow := found.2.1
  let icol := found.2.2
  let ipiv := Function.update s.ipiv icol (s.ipiv icol + 1)
  let a := if irow ≠ icol then MatrixNXM.swapRows s.a irow icol else s.a
  let indxr := Function.update s.indxr i irow
  let indxc := Function.update s.indxc i icol
  if a icol icol = 0 then none
  else
    let pivinv := 1 / a icol icol
    let a := MatrixNXM.scaleRow a icol pivinv
    let a := MatrixNXM.reduceRows a icol
    some { a := a, indxc := indxc, indxr := indxr, ipiv := ipiv, irow := irow, icol := icol }

/-- The last loop of `invertWithGaussJordan`, `for (l=n-1; l>=0; --l)`: the columns are
swapped back in the reverse order of the passes. -/
def MatrixNXM.unscramble {n : ℕ} (s : GaussJordan n) : Fin n → Fin n → ℚ :=
  (List.finRange n).reverse.foldl
    (fun a l =>
      if s.indxr l ≠ s.indxc l then
        (List.finRange n).foldl
          (fun a k => MatrixNXM.swapElements a k (s.indxr l) k (s.indxc l)) a
      else a)
    s.a

/-- The method `MatrixNXM<double>::invertWithGaussJordan` on a matrix with `n` rows and `n`
columns (the `assert`): the matrix left in place, or `none` when the method returns early
with the matrix in an inconsistent state. The vectors `indxc`, `indxr` and `ipiv` and the
variables `irow` and `icol` start at zero; with `n = 0` no loop is entered. -/
def MatrixNXM.invertWithGaussJordan (n : ℕ) (a : Fin n → Fin n → ℚ) :
    Option (Fin n → Fin n → ℚ) :=
  if h : 0 < n then
    ((List.finRange n).foldlM MatrixNXM.pivotPass
      { a := a, indxc := fun _ => ⟨0, h⟩, indxr := fun _ => ⟨0, h⟩, ipiv := fun _ => 0,
        irow := ⟨0, h⟩, icol := ⟨0, h⟩ }).map MatrixNXM.unscramble
  else some a

/-! ## Auxiliary definitions for the statements -/

/-- The structure the read-back loop writes at position `s`: the scalars `4s .. 4s+3`. -/
def quadAt (vw : List ℚ) (s : ℕ) : IJVariographicStructure2D :=
  ⟨vw.getD (4 * s) 0, vw.getD (4 * s + 1) 0, vw.getD (4 * s + 2) 0, vw.getD (4 * s + 3) 0⟩

/-- Every element of `v` lies between the elements of `L_wMin` and `L_wMax` of its index. -/
def WithinDomain (L_wMin L_wMax v : List ℚ) : Prop :=
  ∀ i, i < v.length → L_wMin.getD i 0 ≤ v.getD i 0 ∧ v.getD i 0 ≤ L_wMax.getD i 0

/-- The positions, the best positions and the global best position of a swarm lie within
the domain. -/
def SwarmWithinDomain (L_wMin L_wMax : List ℚ) (st : SwarmState) : Prop :=
  (∀ p, p ∈ st.particles →
    WithinDomain L_wMin L_wMax p.pw ∧ WithinDomain L_wMin L_wMax p.pbw) ∧
  WithinDomain L_wMin L_wMax st.gbest_pw

/-- The collected values of a swarm never increase from one to the next, and the current
`fOfgbest` is not above any of them. -/
def SwarmTraceDescends (st : SwarmState) : Prop :=
  st.trace.Pairwise (fun a b => b ≤ a) ∧ ∀ x, x ∈ st.trace → st.fOfgbest ≤ x

/-- Every cell of the static array `weights` holds a non-negative value. -/
def WeightsNonneg (st : ObjectiveStatics) : Prop := ∀ i j k, 0 ≤ st.weights.cell i j k

/-- The point indexes visited by the worker tasks of a list of index ranges, in the order in
which the tasks visit them when they are taken one after the other. -/
def pointsOfRanges : List (ℤ × ℤ) → List ℕ
  | [] => []
  | range :: rest => indexRange range.1 range.2 ++ pointsOfRanges rest

/-- What `movePointAlongLineForLSRS` does to the points and to the value at the best
solution, as a function of these two alone. -/
def movePointCore (F : List ℚ → ℚ) (m : ℕ) (i k : ℕ) (domain : VariogramParametersDomain)
    (L_wMax L_wMin : List ℚ) (randSequence : ℕ → ℕ → ℕ → ℚ) (c : List (List ℚ) × ℚ) :
    List (List ℚ) × ℚ :=
  let cand := lineCandidate m i k domain L_wMax L_wMin randSequence (c.1.getD i [])
  (if F cand < F (c.1.getD i []) then c.1.set i cand else c.1,
   if F cand < F (c.1.getD i []) ∧ F cand < c.2 then F cand else c.2)

/-- The point the step-halving tries for the step size `alpha`: `vw - gradient * alpha` with
the domain constraints imposed. -/
def descentCandidate (L_wMin L_wMax vw gradient : List ℚ) (alpha : ℚ) : List ℚ :=
  imposeDomain L_wMin L_wMax
    (List.zipWith (fun a b => a - b) vw (gradient.map (fun x => x * alpha)))

/-- The random sequence keeps offering draws in both halves of `[0, RAND_MAX]`: from every
position on, among the next `fuel` draws there is one not above `RAND_MAX / 2` and one not
below it (and not above `RAND_MAX`). -/
def FairDraws (rnd : ℕ → ℕ) (fuel : ℕ) : Prop :=
  ∀ c, (∃ j, j < fuel ∧ 2 * (rnd (c + j) : ℚ) ≤ RAND_MAX) ∧
    (∃ j, j < fuel ∧ RAND_MAX ≤ 2 * (rnd (c + j) : ℚ) ∧ (rnd (c + j) : ℚ) ≤ RAND_MAX)

/-- A random sequence that alternates between the draws `0` and `RAND_MAX`. -/
def alternatingDraws (n : ℕ) : ℕ := if n % 2 = 0 then 0 else 2147483647

/-- The value `objectiveFunction` returns for the object `self` on the grid `g` with `m`
structures, called on the data array `data` with the statics as they are when the program
loads. -/
def objectiveValue (self : AutomaticVariogramFitting) (g : GridGeometry) (m : ℕ)
    (data : SpectralArray) (vw : List ℚ) : ℚ :=
  (self.objectiveFunction ObjectiveStatics.initial g data vw m).1

/-- A session with the strategy `BASED_ON_FIM` on a grid of `2 x 1 x 1` cells: a structure
adds its contribution to every cell of the model grid and `computeFIM` returns the surface
it is given. -/
def fimSession : AutomaticVariogramFitting :=
  { m_at := 1
    m_objectiveFunctionType := ObjectiveFunctionType.BASED_ON_FIM
    computeVarmap := SpectralArray.filled 2 1 1 100
    getInputPhaseMap := SpectralArray.filled 2 1 1 0
    distanceToCenter := fun _ _ _ => 0
    addContributionToModelGrid := fun s _ a =>
      ⟨a.M, a.N, a.K, fun i j k => a.cell i j k + s.contribution⟩
    computeFIM := fun a _ => a }

/-- What one pass of the pairing loop appends to the next generation for the parents
`parent1` and `parent2`, the crossover draw being at the cursor `c2`: the mutated children and
the mutated parents when crossover is due, the mutated parents otherwise; with the advanced
cursor. -/
def pairContribution (rnd : ℕ → ℕ) (probabilityOfCrossOver : ℚ) (pointOfCrossover : ℕ)
    (mutationRate : ℚ) (L_wMin L_wMax : List ℚ) (parent1 parent2 : Individual) (c2 : ℕ) :
    List Individual × ℕ :=
  if (rnd c2 : ℚ) / RAND_MAX < probabilityOfCrossOver then
    let offspring := parent1.crossOver parent2 (pointOfCrossover : ℤ)
    let child1 := offspring.1.mutate rnd (c2 + 1) mutationRate L_wMin L_wMax
    let child2 := offspring.2.mutate rnd child1.2 mutationRate L_wMin L_wMax
    let mparent1 := parent1.mutate rnd child2.2 mutationRate L_wMin L_wMax
    let mparent2 := parent2.mutate rnd mparent1.2 mutationRate L_wMin L_wMax
    ([child1.1, child2.1, mparent1.1, mparent2.1], mparent2.2)
  else
    let mparent1 := parent1.mutate rnd (c2 + 1) mutationRate L_wMin L_wMax
    let mparent2 := parent2.mutate rnd mparent1.2 mutationRate L_wMin L_wMax
    ([mparent1.1, mparent2.1], mparent2.2)

/-- A random sequence for one generation of the genetic algorithm with a population of four
and a selection of two: sixteen draws for the genes of the population, four for the two
tournaments, two for the parents, one for the crossover, then zeros. -/
def geneticDraws (n : ℕ) : ℕ :=
  ([2147483647, 0, 0, 0,  0, 0, 0, 2147483647,  2147483647, 0, 0, 2147483647,
    2147483647, 2147483647, 0, 2147483647,
    0, 2147483647, 1073741824, 2147483647,
    2147483647, 0, 0] : List ℕ).getD n 0

/-- The neighbours the annealing loop proposes from step `k` on, in order, each with the
outcome of its acceptance test; the states are those of `annealingLoop`. -/
def annealingProposals (F : List ℚ → ℚ) (exp log10 : ℚ → ℚ) (rnd : ℕ → ℕ) (fuel : ℕ)
    (f_Tinitial f_Tfinal f_factorSearch : ℚ) (L_wMin L_wMax : List ℚ) :
    ℕ → ℕ → AnnealingState → Option (List (List ℚ × Bool))
  | 0, _, _ => some []
  | remaining + 1, k, st =>
    match drawNeighbor rnd fuel f_factorSearch st.L_wCurrent
        (List.zipWith (fun a b => a - b) L_wMax L_wMin) L_wMin L_wMax
        st.L_wCurrent.length 0 st.L_wCurrent st.cursor with
    | none => none
    | some (L_wNew, c1) =>
      let f_T := temperature exp log10 f_Tinitial k
      let accepted := decide (probAcceptance f_Tinitial f_Tfinal (F st.L_wCurrent) (F L_wNew) f_T
        ≥ (rnd c1 : ℚ) / RAND_MAX)
      match annealingProposals F exp log10 rnd fuel f_Tinitial f_Tfinal f_factorSearch
          L_wMin L_wMax remaining (k + 1)
          (annealingMove F f_Tinitial f_Tfinal f_T L_wNew (rnd c1)
            { st with cursor := c1 + 1 }) with
      | none => none
      | some rest => some ((L_wNew, accepted) :: rest)

/-- The outcome of the tests guarding the three memoized quantities when `objectiveFunction`
is called on the object `self` with the statics `st`: whether the call computes the
experimental map (`inputVarmap`), the weight map (`weights`) and the phase map
(`inputFFTphases`).  A call only tests the quantities of its strategy. -/
def recomputes (self : AutomaticVariogramFitting) (st : ObjectiveStatics) :
    Bool × Bool × Bool :=
  match self.m_objectiveFunctionType with
  | ObjectiveFunctionType.BASED_ON_FIM =>
    (false, false,
      decide (st.inputFFTphases.dataEmpty ∨ st.currentAttribute3 ≠ some self.m_at))
  | ObjectiveFunctionType.BASED_ON_VARFIT =>
    (decide (st.inputVarmap.dataEmpty ∨ st.currentAttribute ≠ some self.m_at),
      decide (st.weights.dataEmpty ∨ st.currentAttribute2 ≠ some self.m_at), false)

/-- For a sequence of calls of `objectiveFunction` made one after the other from the statics
`st`: the input variable of each call with what the call computes. -/
def computationLog : ObjectiveStatics → List ObjectiveCall → List (ℕ × Bool × Bool × Bool)
  | _, [] => []
  | st, c :: rest =>
    (c.self.m_at, recomputes c.self st) ::
      computationLog (c.self.objectiveFunction st c.gridWithGeometry c.inputGridData
        c.vectorOfParameters c.m).2 rest

/-- A session with the strategy `BASED_ON_VARFIT` for the input variable `inputVariable` on
a grid of one cell. -/
def varfitSession (inputVariable : ℕ) : AutomaticVariogramFitting :=
  { m_at := inputVariable
    m_objectiveFunctionType := ObjectiveFunctionType.BASED_ON_VARFIT
    computeVarmap := SpectralArray.filled 1 1 1 1
    getInputPhaseMap := SpectralArray.filled 1 1 1 0
    distanceToCenter := fun _ _ _ => 1
    addContributionToModelGrid := fun s _ a =>
      ⟨a.M, a.N, a.K, fun i j k => a.cell i j k + s.contribution⟩
    computeFIM := fun a _ => a }

/-- The population of a generation at the moment it is sorted: the population handed over
by the previous generation, refilled, with the values written by the evaluation tasks. -/
def populationAtSort (F : List ℚ → ℚ) (rnd : ℕ → ℕ)
    (individualsIndexesRanges : List (ℤ × ℤ)) (L_wMin L_wMax : List ℚ)
    (totalNumberOfParameters nPopulationSize : ℕ) (st : GeneticState) : List Individual :=
  individualsIndexesRanges.foldl
    (fun pop range => taskEvaluateObjetiveInRangeOfIndividualsForGenetic F range.1 range.2 pop)
    (refillPopulation rnd L_wMin L_wMax totalNumberOfParameters nPopulationSize
      (nPopulationSize - st.population.length) st.population st.cursor).1

/-- A random sequence for one generation of the genetic algorithm with a population of six
and a selection of four: twenty-four draws for the genes of the population, eight for the
four tournaments, then for each of the two passes of the pairing loop two draws for the
parents, one for the crossover and the draws of the mutations. -/
def pairingDraws (n : ℕ) : ℕ :=
  ([0, 0, 0, 0,  0, 2147483647, 0, 0,  2147483647, 0, 0, 0,  2147483647, 2147483647, 0, 0,
    0, 0, 0, 2147483647,  2147483647, 2147483647, 0, 2147483647,
    0, 2147483647,  644245095, 2147483647,  1073741824, 2147483647,  1932735283, 2147483647,
    0, 1073741824, 0,
    2147483647, 2147483647, 2147483647, 2147483647,
    2147483647, 2147483647, 2147483647, 2147483647,
    2147483647, 2147483647, 2147483647, 2147483647,
    2147483647, 2147483647, 2147483647, 2147483647,
    2147483647, 0, 0,
    2147483647, 2147483647, 2147483647, 2147483647,
    2147483647, 2147483647, 2147483647, 2147483647,
    2147483647, 2147483647, 2147483647, 0, 0,
    2147483647, 2147483647, 2147483647, 2147483647] : List ℕ).getD n 0

/-- The random sequence keeps offering the two extreme draws: from every position on, among
the next `fuel` draws there is a `0` and a `RAND_MAX`. -/
def ExtremeDraws (rnd : ℕ → ℕ) (fuel : ℕ) : Prop :=
  ∀ c, (∃ j, j < fuel ∧ rnd (c + j) = 0) ∧ (∃ j, j < fuel ∧ rnd (c + j) = 2147483647)

/-- The positions drawn by the passes of the pairing loop from the pool `selection` and the
cursor `c` on: for each pass the size of the pool, the position of `parent1` and the position
of `parent2`, as long as the drawing of `parent2` ends within `fuel` draws; the list ends with
the first pass that calls `erase` at a position without an element, if there is one. -/
def pairingPositions (rnd : ℕ → ℕ) (fuel : ℕ) (probabilityOfCrossOver : ℚ)
    (pointOfCrossover : ℕ) (mutationRate : ℚ) (L_wMin L_wMax : List ℚ) :
    ℕ → List Individual → ℕ → List (ℕ × ℕ × ℕ)
  | 0, _, _ => []
  | rounds + 1, selection, c =>
    if selection = [] then []
    else
      match drawDifferent rnd selection.length (randomIndex (rnd c) selection.length) fuel
          (c + 1) with
      | none => []
      | some (parentIndex2, c2) =>
        (selection.length, randomIndex (rnd c) selection.length, parentIndex2) ::
          match (eraseAt selection (randomIndex (rnd c) selection.length)).bind
              (fun erased => eraseAt erased parentIndex2) with
          | none => []
          | some selection1 =>
            pairingPositions rnd fuel probabilityOfCrossOver pointOfCrossover mutationRate
              L_wMin L_wMax rounds selection1
              (pairContribution rnd probabilityOfCrossOver pointOfCrossover mutationRate
                L_wMin L_wMax
                (selection.getD (randomIndex (rnd c) selection.length) (Individual.ofSize 0))
                (selection.getD parentIndex2 (Individual.ofSize 0)) c2).2

/-- The selection pool of a generation and the cursor at which its pairing loop starts: the
outcome of the binary tournaments on the sorted and clipped population. -/
def selectionAtPairing (F : List ℚ → ℚ) (rnd : ℕ → ℕ) (fuel : ℕ)
    (individualsIndexesRanges : List (ℤ × ℤ)) (L_wMin L_wMax : List ℚ)
    (totalNumberOfParameters nPopulationSize nSelectionSize : ℕ) (st : GeneticState) :
    Option (List Individual × ℕ) :=
  binaryTournaments rnd fuel
    ((sortIndividuals (populationAtSort F rnd individualsIndexesRanges L_wMin L_wMax
      totalNumberOfParameters nPopulationSize st)).take nPopulationSize)
    nSelectionSize []
    (refillPopulation rnd L_wMin L_wMax totalNumberOfParameters nPopulationSize
      (nPopulationSize - st.population.length) st.population st.cursor).2

/-- The positions drawn by the passes of the pairing loop of a generation. -/
def generationPositions (F : List ℚ → ℚ) (rnd : ℕ → ℕ) (fuel : ℕ)
    (individualsIndexesRanges : List (ℤ × ℤ)) (L_wMin L_wMax : List ℚ)
    (totalNumberOfParameters nPopulationSize nSelectionSize : ℕ) (probabilityOfCrossOver : ℚ)
    (pointOfCrossover : ℕ) (mutationRate : ℚ) (st : GeneticState) : List (ℕ × ℕ × ℕ) :=
  match selectionAtPairing F rnd fuel individualsIndexesRanges L_wMin L_wMax
      totalNumberOfParameters nPopulationSize nSelectionSize st with
  | none => []
  | some (selection, c1) =>
    pairingPositions rnd fuel probabilityOfCrossOver pointOfCrossover mutationRate L_wMin L_wMax
      selection.length selection c1

/-- A random sequence for one generation of the genetic algorithm with a population of four
and a selection of two: `RAND_MAX` at the even positions and `0` at the odd ones, but for the
draw of the crossover, at position 22, which is `0`. -/
def pairedDraws (n : ℕ) : ℕ := if n = 22 then 0 else if n % 2 = 0 then 2147483647 else 0

/-! ## The invariant of the vote counting loop -/

/-- What the vote counting loop has established after the votes `p`, all of them at most the
votes to come. -/
def VoteCount.Counted (s : VoteCount) (p : List ℤ) : Prop :=
  s.mostVotedClassCount = p.count s.mostVotedClass ∧
  (∀ c, p.count c ≤ s.mostVotedClassCount) ∧
  (∀ c ∈ p, p.count c = s.mostVotedClassCount → s.mostVotedClass ≤ c) ∧
  (∀ x, (∀ y ∈ p, y ≤ x) →
    (if x ≠ s.previousClass then 0 else s.currentCount) = p.count x)

/-! ## Statements about the Gauss-Jordan inversion -/

/-- The triple (`big`, `irow`, `icol`) names an element that the search of the pivot may take:
a row that is not yet the row of a pivot, a column that is not yet the column of a pivot, and
`big` the absolute value of the element there. -/
def PivotFound {n : ℕ} (a : Fin n → Fin n → ℚ) (ipiv : Fin n → ℤ) (s : ℚ × Fin n × Fin n) :
    Prop :=
  ipiv s.2.1 ≠ 1 ∧ ipiv s.2.2 = 0 ∧ s.1 = |a s.2.1 s.2.2|

/-- The columns of the pivots already taken (`ipiv[j] == 1`) come from the matrix in place, the
other columns from the identity matrix. -/
def pivotedColumns {n : ℕ} (a : Fin n → Fin n → ℚ) (ipiv : Fin n → ℤ) :
    Matrix (Fin n) (Fin n) ℚ :=
  fun i j => if ipiv j = 1 then a i j else if i = j then 1 else 0

/-- The columns of the pivots already taken come from the identity matrix, the other columns
from the matrix in place. -/
def pendingColumns {n : ℕ} (a : Fin n → Fin n → ℚ) (ipiv : Fin n → ℤ) :
    Matrix (Fin n) (Fin n) ℚ :=
  fun i j => if ipiv j = 1 then (if i = j then 1 else 0) else a i j

/-- The permutation of the rows made by the passes `done`, as recorded in `indxr` and
`indxc`. -/
def GaussJordan.recordedSwaps {n : ℕ} (s : GaussJordan n) (done : List (Fin n)) :
    Equiv.Perm (Fin n) :=
  (done.map fun i => Equiv.swap (s.indxr i) (s.indxc i)).prod

/-- The invariant of the main loop of `invertWithGaussJordan` for the original matrix `A`, after
the passes `done`: the flags of `ipiv` are 0 or 1, as many are 1 as passes were made, and the
matrix in place is the partial inverse, on the pivots taken, of the matrix `A` with its rows
permuted as recorded. -/
def GaussJordan.Inverting {n : ℕ} (A : Matrix (Fin n) (Fin n) ℚ) (s : GaussJordan n)
    (done : List (Fin n)) : Prop :=
  (∀ k, s.ipiv k = 0 ∨ s.ipiv k = 1) ∧
  (Finset.univ.filter fun k => s.ipiv k = 1).card = done.length ∧
  pivotedColumns s.a s.ipiv * A.submatrix (s.recordedSwaps done) id = pendingColumns s.a s.ipiv

/-! # Verified properties -/

/-! ## Sanity checks of the genetic algorithm -/

/-- C1: whenever `nSelectionSize >= nPopulationSize`, `processWithGenetic` returns an empty
list of structures and an empty collection of objective function values, whatever the
objective function, the seed, the number of structures, of threads, of generations and the
other settings are. -/
theorem processWithGenetic_selection_not_below_population
    (F : List ℚ → ℚ) (g : DomainInputs) (generateSubRanges : ℤ → ℤ → ℤ → List (ℤ × ℤ))
    (rnd : ℕ → ℕ) (fuel : ℕ) (nThreads m maxNumberOfGenerations : ℤ)
    (nPopulationSize nSelectionSize : ℕ) (probabilityOfCrossOver : ℚ) (pointOfCrossover : ℕ)
    (mutationRate : ℚ) (h : nSelectionSize ≥ nPopulationSize) :
    processWithGenetic F g generateSubRanges rnd fuel nThreads m maxNumberOfGenerations
      nPopulationSize nSelectionSize probabilityOfCrossOver pointOfCrossover mutationRate
      = some ([], []) := by
  simp [processWithGenetic, geneticSanityChecksReject, h]

theorem processWithGenetic_selection_not_below_population_witness :
    (6 : ℕ) ≥ 4 ∧
    processWithGenetic (fun v => v.sum) ⟨1, 1, 10, 355 / 113, 1⟩ (fun a b _ => [(a, b)])
      (fun n => n) 5 1 1 3 4 6 (1 / 2) 2 (1 / 10) = some ([], []) :=
  ⟨by decide, processWithGenetic_selection_not_below_population _ _ _ _ _ _ _ _ _ _ _ _ _
    (by decide)⟩

/-- C2: when `nPopulationSize` is odd, or `nSelectionSize` is odd, or `pointOfCrossover` is
not below the number of parameters `totalNumberOfParameters` (the product `4*m` as the code
holds it), `processWithGenetic` returns an empty list of structures and an empty collection
of values; when `nSelectionSize < nPopulationSize`, both sizes are even and
`pointOfCrossover` is below the number of parameters, none of the three checks rejects; and
the number of parameters is `4*m` for every `m` from `0` up to `2^30` excluded. -/
theorem processWithGenetic_sanity_checks
    (F : List ℚ → ℚ) (g : DomainInputs) (generateSubRanges : ℤ → ℤ → ℤ → List (ℤ × ℤ))
    (rnd : ℕ → ℕ) (fuel : ℕ) (nThreads m maxNumberOfGenerations : ℤ)
    (nPopulationSize nSelectionSize : ℕ) (probabilityOfCrossOver : ℚ) (pointOfCrossover : ℕ)
    (mutationRate : ℚ) :
    ((nPopulationSize % 2 = 1 ∨ nSelectionSize % 2 = 1 ∨
        pointOfCrossover ≥ totalNumberOfParameters m) →
      processWithGenetic F g generateSubRanges rnd fuel nThreads m maxNumberOfGenerations
        nPopulationSize nSelectionSize probabilityOfCrossOver pointOfCrossover mutationRate
        = some ([], [])) ∧
    (nSelectionSize < nPopulationSize → nPopulationSize % 2 = 0 → nSelectionSize % 2 = 0 →
      pointOfCrossover < totalNumberOfParameters m →
      geneticSanityChecksReject m nPopulationSize nSelectionSize pointOfCrossover = false) ∧
    (0 ≤ m → m < 2 ^ 30 → (totalNumberOfParameters m : ℤ) = 4 * m) := by
  refine ⟨?_, ?_, ?_⟩
  · intro h
    have hr : geneticSanityChecksReject m nPopulationSize nSelectionSize pointOfCrossover
        = true := by
      unfold geneticSanityChecksReject
      by_cases h1 : nSelectionSize ≥ nPopulationSize
      · simp [h1]
      · by_cases h2 : nPopulationSize % 2 + nSelectionSize % 2 ≠ 0
        · simp [h1, h2]
        · have h3 : pointOfCrossover ≥ totalNumberOfParameters m := by
            rcases h with h | h | h
            · omega
            · omega
            · exact h
          simp [h3]
    simp [processWithGenetic, hr]
  · intro h1 h2 h3 h4
    unfold geneticSanityChecksReject
    have h1' : ¬ nSelectionSize ≥ nPopulationSize := by omega
    have h4' : ¬ pointOfCrossover ≥ totalNumberOfParameters m := by omega
    simp [h1', h2, h3, h4']
  · intro h0 h1
    unfold totalNumberOfParameters getNumberOfParameters
    have : (m * ((4 : ℕ) : ℤ)) % 2 ^ 32 = 4 * m := by
      rw [Int.emod_eq_of_lt] <;> push_cast <;> omega
    rw [this]
    omega

theorem processWithGenetic_sanity_checks_witness :
    processWithGenetic (fun v => v.sum) ⟨1, 1, 10, 355 / 113, 1⟩ (fun a b _ => [(a, b)])
        (fun n => n) 5 1 1 3 5 2 (1 / 2) 1 (1 / 10) = some ([], []) ∧
    geneticSanityChecksReject 1 4 2 1 = false ∧
    (totalNumberOfParameters 1 : ℤ) = 4 * 1 :=
  ⟨(processWithGenetic_sanity_checks (fun v => v.sum) ⟨1, 1, 10, 355 / 113, 1⟩ (fun a b _ => [(a, b)])
      (fun n => n) 5 1 1 3 5 2 (1 / 2) 1 (1 / 10)).1 (Or.inl (by decide)),
   (processWithGenetic_sanity_checks (fun v => v.sum) ⟨1, 1, 10, 355 / 113, 1⟩ (fun a b _ => [(a, b)])
      (fun n => n) 5 1 1 3 4 2 (1 / 2) 1 (1 / 10)).2.1
      (by decide) (by decide) (by decide) (by decide),
   (processWithGenetic_sanity_checks (fun v => v.sum) ⟨1, 1, 10, 355 / 113, 1⟩ (fun a b _ => [(a, b)])
      (fun n => n) 5 1 1 3 4 2 (1 / 2) 1 (1 / 10)).2.2 (by decide) (by decide)⟩

/-! ## Round trip between the linear array and the structures -/

theorem readBackOne_eq (vw : List ℚ) (i : ℕ) (s : IJVariographicStructure2D) :
    readBackOne vw (i, s) =
      (i + 4, ⟨vw.getD i 0, vw.getD (i + 1) 0, vw.getD (i + 2) 0, vw.getD (i + 3) 0⟩) := by
  simp [readBackOne, getNumberOfParameters, List.range_succ,
    IJVariographicStructure2D.setParameter]

theorem flattenOne_eq (s : IJVariographicStructure2D) (i : ℕ) (l : List ℚ) :
    flattenOne s (i, l) =
      (i + 4, (((l.set i s.range).set (i + 1) s.rangeRatio).set (i + 2) s.azimuth).set (i + 3)
        s.contribution) := by
  simp [flattenOne, getNumberOfParameters, List.range_succ,
    IJVariographicStructure2D.getParameter]

theorem readBack_fold (vw : List ℚ) (structs : List IJVariographicStructure2D) (n : ℕ)
    (hn : n ≤ structs.length) :
    ∃ out, (List.range n).foldl
      (fun st iStructure =>
        let r := readBackOne vw (st.1, st.2.getD iStructure zeroStructure)
        (r.1, st.2.set iStructure r.2)) (0, structs) = (4 * n, out) ∧
      out.length = structs.length ∧
      (∀ s, s < n → out.getD s zeroStructure = quadAt vw s) := by
  induction n with
  | zero => exact ⟨structs, by simp, rfl, by simp⟩
  | succ n ih =>
    obtain ⟨out, h1, h2, h3⟩ := ih (by omega)
    refine ⟨out.set n (quadAt vw n), ?_, by simp [h2], ?_⟩
    · rw [List.range_succ, List.foldl_append, h1]
      simp [readBackOne_eq, quadAt]
      omega
    · intro s hs
      by_cases hsn : s = n
      · subst hsn
        rw [List.getD_eq_getElem _ _ (by simp; omega)]
        simp
      · rw [List.getD_eq_getElem?_getD, List.getElem?_set_ne (by omega),
          ← List.getD_eq_getElem?_getD]
        exact h3 s (by omega)

theorem getD_set_ne {α : Type} (l : List α) (i j : ℕ) (a d : α) (h : i ≠ j) :
    (l.set i a).getD j d = l.getD j d := by
  rw [List.getD_eq_getElem?_getD, List.getElem?_set_ne h, ← List.getD_eq_getElem?_getD]

theorem getD_set_eq {α : Type} (l : List α) (i : ℕ) (a d : α) (h : i < l.length) :
    (l.set i a).getD i d = a := by
  rw [List.getD_eq_getElem _ _ (by simpa using h)]
  simp

theorem flattenOne_fold (f : ℕ → IJVariographicStructure2D) (l : List ℚ) (n : ℕ)
    (hn : 4 * n ≤ l.length) :
    ∃ out, (List.range n).foldl (fun st iStructure => flattenOne (f iStructure) st) (0, l)
        = (4 * n, out) ∧
      out.length = l.length ∧
      (∀ j, j < 4 * n → out.getD j 0 = (f (j / 4)).getParameter (j % 4)) := by
  induction n with
  | zero => exact ⟨l, by simp, rfl, by simp⟩
  | succ n ih =>
    obtain ⟨out, h1, h2, h3⟩ := ih (by omega)
    refine ⟨(((out.set (4 * n) (f n).range).set (4 * n + 1) (f n).rangeRatio).set (4 * n + 2)
      (f n).azimuth).set (4 * n + 3) (f n).contribution, ?_, ?_, ?_⟩
    · rw [List.range_succ, List.foldl_append, h1]
      simp only [List.foldl_cons, List.foldl_nil, flattenOne_eq]
      rfl
    · simp [h2]
    · intro j hj
      by_cases hlt : j < 4 * n
      · rw [getD_set_ne _ _ _ _ _ (by omega), getD_set_ne _ _ _ _ _ (by omega),
          getD_set_ne _ _ _ _ _ (by omega), getD_set_ne _ _ _ _ _ (by omega)]
        exact h3 j hlt
      · obtain ⟨t, ht, rfl⟩ : ∃ t, t < 4 ∧ j = 4 * n + t := ⟨j - 4 * n, by omega, by omega⟩
        have hd : (4 * n + t) / 4 = n := by omega
        have hm : (4 * n + t) % 4 = t := by omega
        rw [hd, hm]
        interval_cases t
        · simp only [add_zero]
          rw [getD_set_ne _ _ _ _ _ (by omega), getD_set_ne _ _ _ _ _ (by omega),
            getD_set_ne _ _ _ _ _ (by omega), getD_set_eq _ _ _ _ (by omega)]
          rfl
        · rw [getD_set_ne _ _ _ _ _ (by omega), getD_set_ne _ _ _ _ _ (by omega),
            getD_set_eq _ _ _ _ (by simp; omega)]
          rfl
        · rw [getD_set_ne _ _ _ _ _ (by omega), getD_set_eq _ _ _ _ (by simp; omega)]
          rfl
        · rw [getD_set_eq _ _ _ _ (by simp; omega)]
          rfl

theorem flatten_fold (structs : List IJVariographicStructure2D) (l : List ℚ) (n : ℕ)
    (hn : 4 * n ≤ l.length) :
    ∃ out, (List.range n).foldl
      (fun st iStructure => flattenOne (structs.getD iStructure zeroStructure) st) (0, l)
        = (4 * n, out) ∧
      out.length = l.length ∧
      (∀ j, j < 4 * n →
        out.getD j 0 = (structs.getD (j / 4) zeroStructure).getParameter (j % 4)) :=
  flattenOne_fold (fun i => structs.getD i zeroStructure) l n hn

/-- C4: for every number of structures `m` (in particular every `m >= 1`) and every linear
array `v` of `4*m` elements, reading `v` back into `m` structures (structure `s` receives the
elements `4s .. 4s+3` through `setParameter( 0..3 )`) and linearising the structures again
(`getParameter( 0..3 )` in structure order) yields exactly `v`. -/
theorem flatten_readBack_roundtrip (m : ℕ) (v : List ℚ)
    (variogramStructures : List IJVariographicStructure2D)
    (hv : v.length = 4 * m) (hs : variogramStructures.length = m) :
    flattenStructures (readBackStructures v variogramStructures m) m = v := by
  obtain ⟨rb, hrb, hrblen, hrbget⟩ := readBack_fold v variogramStructures m (by omega)
  obtain ⟨out, hout, houtlen, houtget⟩ :=
    flatten_fold rb (List.replicate (m * getNumberOfParameters) 0) m
      (by simp [getNumberOfParameters]; omega)
  have e1 : readBackStructures v variogramStructures m = rb := by
    simp only [readBackStructures]; rw [hrb]
  have e2 : flattenStructures rb m = out := by
    simp only [flattenStructures]; rw [hout]
  rw [e1, e2]
  have hlen : out.length = v.length := by
    rw [houtlen, hv]; simp [getNumberOfParameters]; omega
  apply List.ext_getElem hlen
  intro j h1 h2
  have hj : j < 4 * m := by omega
  have := houtget j hj
  rw [List.getD_eq_getElem _ _ h1, hrbget (j / 4) (by omega)] at this
  rw [this]
  have h4 : 4 * (j / 4) + j % 4 = j := by omega
  have hcases : j % 4 < 4 := by omega
  rcases Nat.lt_succ_iff_lt_or_eq.mp hcases with h | h
  · rcases Nat.lt_succ_iff_lt_or_eq.mp h with h | h
    · rcases Nat.lt_succ_iff_lt_or_eq.mp h with h | h
      · have h0 : j % 4 = 0 := by omega
        rw [h0]
        simp only [IJVariographicStructure2D.getParameter, quadAt]
        rw [List.getD_eq_getElem _ _ (by omega)]
        congr 1; omega
      · rw [h]
        simp only [IJVariographicStructure2D.getParameter, quadAt]
        rw [List.getD_eq_getElem _ _ (by omega)]
        congr 1; omega
    · rw [h]
      simp only [IJVariographicStructure2D.getParameter, quadAt]
      rw [List.getD_eq_getElem _ _ (by omega)]
      congr 1; omega
  · rw [h]
    simp only [IJVariographicStructure2D.getParameter, quadAt]
    rw [List.getD_eq_getElem _ _ (by omega)]
    congr 1; omega

theorem flatten_readBack_roundtrip_witness :
    flattenStructures (readBackStructures [1, 2, 3, 4, 5, 6, 7, 8]
      [zeroStructure, zeroStructure] 2) 2 = [1, 2, 3, 4, 5, 6, 7, 8] :=
  flatten_readBack_roundtrip 2 [1, 2, 3, 4, 5, 6, 7, 8] [zeroStructure, zeroStructure]
    (by decide) (by decide)

/-! ## The initial parameters and the domain -/

theorem flattenStructures_spec (structs : List IJVariographicStructure2D) (m : ℕ) :
    (flattenStructures structs m).length = 4 * m ∧
    ∀ j, j < 4 * m → (flattenStructures structs m).getD j 0 =
      (structs.getD (j / 4) zeroStructure).getParameter (j % 4) := by
  obtain ⟨out, h1, h2, h3⟩ := flatten_fold structs
    (List.replicate (m * getNumberOfParameters) 0) m (by simp [getNumberOfParameters]; omega)
  have e : flattenStructures structs m = out := by
    simp only [flattenStructures]; rw [h1]
  rw [e]
  exact ⟨by rw [h2]; simp [getNumberOfParameters]; omega, h3⟩

theorem boundsArray_spec (fill : ℚ) (m : ℕ) (b : IJVariographicStructure2D) :
    (boundsArray (4 * m) fill m b).length = 4 * m ∧
    ∀ j, j < 4 * m → (boundsArray (4 * m) fill m b).getD j 0 = b.getParameter (j % 4) := by
  obtain ⟨out, h1, h2, h3⟩ := flattenOne_fold (fun _ => b)
    (List.replicate (4 * m) fill) m (by simp)
  have e : boundsArray (4 * m) fill m b = out := by
    simp only [boundsArray]
    have : (fun (st : ℕ × List ℚ) (_ : ℕ) => (List.range getNumberOfParameters).foldl
        (fun st iPar => (st.1 + 1, st.2.set st.1 (b.getParameter iPar))) st)
        = (fun st _ => flattenOne b st) := rfl
    rw [this, h1]
  rw [e]
  exact ⟨by rw [h2]; simp, h3⟩

theorem pushBack_fold {α : Type} (s : α) (m : ℕ) :
    (List.range m).foldl (fun acc _ => acc ++ [s]) [] = List.replicate m s := by
  induction m with
  | zero => rfl
  | succ n ih => rw [List.range_succ, List.foldl_append, ih]; simp [List.replicate_succ']

theorem initDomainAndParameters_lengths (g : DomainInputs) (m : ℕ) :
    (initDomainAndParameters g m).vw.length = 4 * m ∧
    (initDomainAndParameters g m).L_wMin.length = 4 * m ∧
    (initDomainAndParameters g m).L_wMax.length = 4 * m ∧
    (initDomainAndParameters g m).variogramStructures.length = m := by
  simp only [initDomainAndParameters, pushBack_fold]
  refine ⟨(flattenStructures_spec _ m).1, ?_, ?_, by simp⟩
  · rw [(flattenStructures_spec _ m).1]
    exact (boundsArray_spec 0 m _).1
  · rw [(flattenStructures_spec _ m).1]
    exact (boundsArray_spec 1 m _).1

/-- One annealing move at the initial temperature: at step `k = 0` the temperature is `f_Tinitial` (for
every `exp` with `exp 0 = 1`); there, with `f_Tinitial = 100`, `f_Tfinal = 1`, a neighbour of
energy `1` against a current state of energy `2` gets the probability of acceptance `0`, and
with the draw `std::rand() = 1073741823` the neighbour is not accepted: the current state
stays and no record low is stored. -/
theorem annealingMove_rejects_better_neighbor :
    (∀ exp log10 : ℚ → ℚ, exp 0 = 1 → temperature exp log10 100 0 = 100) ∧
    (fun v : List ℚ => v.sum) [1] < (fun v : List ℚ => v.sum) [2] ∧
    probAcceptance 100 1 2 1 100 = 0 ∧
    (annealingMove (fun v => v.sum) 100 1 100 [1] 1073741823
      ⟨[2], DBL_MAX, DBL_MAX, [], [], 0⟩).L_wCurrent = [2] ∧
    (annealingMove (fun v => v.sum) 100 1 100 [1] 1073741823
      ⟨[2], DBL_MAX, DBL_MAX, [], [], 0⟩).L_wOfLowestEnergyFound = [] := by
  refine ⟨?_, ?_, ?_, ?_, ?_⟩
  · intro exp log10 h
    simp [temperature, h]
  · norm_num
  · norm_num [probAcceptance]
  · norm_num [annealingMove, probAcceptance, RAND_MAX]
  · norm_num [annealingMove, probAcceptance, RAND_MAX]

/-- C10, the code at a failing input, a whole annealing of one step: domain
`L_wMin = [1, 0.001, 0, 1]`, `L_wMax = [5, 1, 355/113, 100]`, initial parameters
`[3, 0.5005, 355/226, 99]`, `f_Tinitial = 100`, `f_Tfinal = 1`, `i_kmax = 1`,
`f_factorSearch = 0.1`, objective `F(v) = sum v[i]^2`, draws `0, 0, 0, 0` for the neighbour and
`1073741823` for the acceptance.  The proposed neighbour `[2.6, 0.4006, 142/113, 89.1]` has a
strictly lower objective value than the current state, and still the annealing ends with the
current state unchanged and no state of lowest energy recorded (for every `exp` with
`exp 0 = 1`, the temperature of step `0` being `f_Tinitial`). -/
theorem simulatedAnnealing_rejects_better_neighbor :
    drawNeighbor (fun n => if n < 4 then 0 else 1073741823) 3 (1 / 10)
        [3, 1001 / 2000, 355 / 226, 99]
        (List.zipWith (fun a b => a - b) [5, 1, 355 / 113, 100] [1, 1 / 1000, 0, 1])
        [1, 1 / 1000, 0, 1] [5, 1, 355 / 113, 100] 4 0 [3, 1001 / 2000, 355 / 226, 99] 0 =
      some ([13 / 5, 2003 / 5000, 142 / 113, 891 / 10], 4) ∧
    (fun v : List ℚ => (v.map (fun x => x * x)).sum) [13 / 5, 2003 / 5000, 142 / 113, 891 / 10] <
      (fun v : List ℚ => (v.map (fun x => x * x)).sum) [3, 1001 / 2000, 355 / 226, 99] ∧
    (∀ exp log10 : ℚ → ℚ, exp 0 = 1 →
      (simulatedAnnealing (fun v => (v.map (fun x => x * x)).sum) exp log10
        (fun n => if n < 4 then 0 else 1073741823) 3 100 1 1 (1 / 10)
        [3, 1001 / 2000, 355 / 226, 99] [1, 1 / 1000, 0, 1] [5, 1, 355 / 113, 100]).map
          (fun s => (s.L_wCurrent, s.L_wOfLowestEnergyFound, s.trace.length)) =
      some ([3, 1001 / 2000, 355 / 226, 99], [], 1)) := by
  refine ⟨?_, ?_, ?_⟩
  · norm_num [drawNeighbor, drawInsideDomain, randomWithin, RAND_MAX]
  · norm_num
  · intro exp log10 h
    norm_num [simulatedAnnealing, annealingLoop, annealingStep, drawNeighbor, drawInsideDomain,
      randomWithin, annealingMove, probAcceptance, temperature, RAND_MAX, DBL_MAX, h]

/-! ## The bounce at the boundaries of the domain -/

theorem bounce_within_iff (wMin wMax c : ℚ) (h : wMin ≤ wMax) :
    (wMin ≤ bounce wMin wMax c ∧ bounce wMin wMax c ≤ wMax) ↔
      (wMin - (wMax - wMin) ≤ c ∧ c ≤ wMax + 2 * (wMax - wMin)) := by
  unfold bounce
  simp only
  split_ifs with h1 h2 h2
  · constructor
    · rintro ⟨a, b⟩; constructor <;> linarith
    · rintro ⟨a, b⟩; constructor <;> linarith
  · constructor
    · rintro ⟨a, b⟩; constructor <;> linarith
    · rintro ⟨a, b⟩; constructor <;> linarith
  · constructor
    · rintro ⟨a, b⟩; constructor <;> linarith
    · rintro ⟨a, b⟩; constructor <;> linarith
  · constructor
    · rintro ⟨a, b⟩; constructor <;> linarith
    · rintro ⟨a, b⟩; constructor <;> linarith

/-- One move that leaves the domain: a particle at the lower bound `0` of every parameter
(domain `[0, 1]`), at rest, with the global best at the upper bound, acceleration constant
`4` and random scalars `1`, gets the candidate position `4`, which the bounce sends to `-2`
and then to `2`, outside the domain; the candidate improves the objective function, so the
position, the best position of the particle and the global best all leave the domain. -/
theorem moveParticle_leaves_domain :
    candidateParticle (1 / 2) 2 4 1 1 [0, 0, 0, 0] [1, 1, 1, 1]
      ⟨[0, 0, 0, 0], [0, 0, 0, 0], [0, 0, 0, 0], DBL_MAX⟩ [1, 1, 1, 1] 0 = 2 ∧
    (moveParticle (fun v => -v.sum) (fun _ => 2147483647) (1 / 2) 2 4 [0, 0, 0, 0] [1, 1, 1, 1]
      ⟨[⟨[0, 0, 0, 0], [0, 0, 0, 0], [0, 0, 0, 0], DBL_MAX⟩,
        ⟨[1, 1, 1, 1], [0, 0, 0, 0], [1, 1, 1, 1], DBL_MAX⟩], [1, 1, 1, 1], DBL_MAX, [], 0⟩
      0).gbest_pw = [2, 2, 2, 2] ∧
    ((moveParticle (fun v => -v.sum) (fun _ => 2147483647) (1 / 2) 2 4 [0, 0, 0, 0] [1, 1, 1, 1]
      ⟨[⟨[0, 0, 0, 0], [0, 0, 0, 0], [0, 0, 0, 0], DBL_MAX⟩,
        ⟨[1, 1, 1, 1], [0, 0, 0, 0], [1, 1, 1, 1], DBL_MAX⟩], [1, 1, 1, 1], DBL_MAX, [], 0⟩
      0).particles.map (fun p => (p.pw, p.pbw))) =
      [([2, 2, 2, 2], [2, 2, 2, 2]), ([1, 1, 1, 1], [1, 1, 1, 1])] := by
  refine ⟨?_, ?_, ?_⟩
  · norm_num [candidateParticle, candidateVelocity, bounce]
  · norm_num [moveParticle, candidateParticle, candidateVelocity, bounce, RAND_MAX, DBL_MAX,
      List.range_succ]
  · norm_num [moveParticle, candidateParticle, candidateVelocity, bounce, RAND_MAX, DBL_MAX,
      List.range_succ]

theorem initDomainAndParameters_example :
    (initDomainAndParameters ⟨1, 1, 10, 355 / 113, 100⟩ 1).L_wMin = [1, 1 / 1000, 0, 1] ∧
    (initDomainAndParameters ⟨1, 1, 10, 355 / 113, 100⟩ 1).L_wMax = [5, 1, 355 / 113, 100] ∧
    (initDomainAndParameters ⟨1, 1, 10, 355 / 113, 100⟩ 1).variogramStructures =
      [⟨3, 1001 / 2000, 355 / 226, 99⟩] := by
  refine ⟨?_, ?_, ?_⟩ <;>
  norm_num [initDomainAndParameters, boundsArray, flattenStructures, flattenOne,
    getNumberOfParameters, List.range_succ, IJVariographicStructure2D.getParameter,
    List.replicate]

/-- C8, the code at a failing input, a whole run: one structure, a domain with upper bounds
`L_wMax = [5, 1, 355/113, 100]`, two particles drawn at the lower and at the upper corner of
the domain (draws `0, 0, 0, 0` and then `RAND_MAX`), inertia `0.5`, acceleration constants `2`
and `4`, random scalars `1`, one optimisation step.  The first particle gets the candidate
`min + 4 * (max - min)`, which the bounce sends below the lower bound and then above the upper
bound; `processWithPSO` returns the structure `(13, 2.998, 1065/113, 298)`: every parameter of
the global best lies above its upper bound. -/
theorem processWithPSO_leaves_domain :
    (initDomainAndParameters ⟨1, 1, 10, 355 / 113, 100⟩ 1).L_wMax = [5, 1, 355 / 113, 100] ∧
    (processWithPSO (fun v => (v.map (fun x => (1000 - x) * (1000 - x))).sum)
      ⟨1, 1, 10, 355 / 113, 100⟩ (fun n => if n < 4 then 0 else 2147483647) 1 1 2
      (1 / 2) 2 4).1 = [⟨13, 1499 / 500, 1065 / 113, 298⟩] ∧
    (5 : ℚ) < 13 ∧ (1 : ℚ) < 1499 / 500 ∧ (355 : ℚ) / 113 < 1065 / 113 ∧ (100 : ℚ) < 298 := by
  refine ⟨initDomainAndParameters_example.2.1, ?_, by norm_num, by norm_num, by norm_num,
    by norm_num⟩
  have h1 : (1 : ℤ).toNat = 1 := rfl
  have h2 : (2 : ℤ).toNat = 2 := rfl
  simp only [processWithPSO, h1, h2, initDomainAndParameters_example]
  norm_num [initParticles, randomVector, randomWithin, RAND_MAX, List.range_succ,
    getNumberOfParameters, initGlobalBest, DBL_MAX, swarmStep, moveParticle,
    candidateParticle, candidateVelocity, bounce, List.replicate, readBackStructures,
    readBackOne, IJVariographicStructure2D.setParameter]

theorem getD_map_range (f : ℕ → ℚ) (n i : ℕ) (h : i < n) :
    ((List.range n).map f).getD i 0 = f i := by
  rw [List.getD_eq_getElem _ _ (by simpa using h)]
  simp

theorem withinDomain_nil (L_wMin L_wMax : List ℚ) : WithinDomain L_wMin L_wMax [] := by
  intro i hi
  simp at hi

theorem getD_particle_within (L_wMin L_wMax : List ℚ) (particles : List Particle) (i : ℕ)
    (h : ∀ p, p ∈ particles →
      WithinDomain L_wMin L_wMax p.pw ∧ WithinDomain L_wMin L_wMax p.pbw) :
    WithinDomain L_wMin L_wMax (particles.getD i ⟨[], [], [], DBL_MAX⟩).pw ∧
    WithinDomain L_wMin L_wMax (particles.getD i ⟨[], [], [], DBL_MAX⟩).pbw := by
  by_cases hi : i < particles.length
  · rw [List.getD_eq_getElem _ _ hi]
    exact h _ (List.getElem_mem _)
  · rw [List.getD_eq_default _ _ (by omega)]
    exact ⟨withinDomain_nil _ _, withinDomain_nil _ _⟩

/-- How far the bounce reaches: with `L_wMin[i] <= L_wMax[i]`, the candidate position after the
bounce lies within `[L_wMin[i], L_wMax[i]]` exactly when the position before the bounce
(`pw[i]` plus the candidate velocity) lies between `L_wMin[i] - (L_wMax[i] - L_wMin[i])` and
`L_wMax[i] + 2 * (L_wMax[i] - L_wMin[i])`; and when that holds for every parameter of the
particle being moved, the move keeps every position, every best position and the global best
position within the domain. -/
theorem bounce_keeps_within_domain (F : List ℚ → ℚ) (rnd : ℕ → ℕ)
    (intertia_weight acceleration_constant_1 acceleration_constant_2 : ℚ)
    (L_wMin L_wMax : List ℚ) (st : SwarmState) (iParticle : ℕ)
    (hdom : ∀ i, L_wMin.getD i 0 ≤ L_wMax.getD i 0) :
    (∀ i,
      (L_wMin.getD i 0 ≤ candidateParticle intertia_weight acceleration_constant_1
          acceleration_constant_2 ((rnd st.cursor : ℚ) / RAND_MAX)
          ((rnd (st.cursor + 1) : ℚ) / RAND_MAX) L_wMin L_wMax
          (st.particles.getD iParticle ⟨[], [], [], DBL_MAX⟩) st.gbest_pw i ∧
        candidateParticle intertia_weight acceleration_constant_1
          acceleration_constant_2 ((rnd st.cursor : ℚ) / RAND_MAX)
          ((rnd (st.cursor + 1) : ℚ) / RAND_MAX) L_wMin L_wMax
          (st.particles.getD iParticle ⟨[], [], [], DBL_MAX⟩) st.gbest_pw i ≤ L_wMax.getD i 0) ↔
      (L_wMin.getD i 0 - (L_wMax.getD i 0 - L_wMin.getD i 0) ≤
          (st.particles.getD iParticle ⟨[], [], [], DBL_MAX⟩).pw.getD i 0 +
            candidateVelocity intertia_weight acceleration_constant_1 acceleration_constant_2
              ((rnd st.cursor : ℚ) / RAND_MAX) ((rnd (st.cursor + 1) : ℚ) / RAND_MAX)
              (st.particles.getD iParticle ⟨[], [], [], DBL_MAX⟩) st.gbest_pw i ∧
        (st.particles.getD iParticle ⟨[], [], [], DBL_MAX⟩).pw.getD i 0 +
            candidateVelocity intertia_weight acceleration_constant_1 acceleration_constant_2
              ((rnd st.cursor : ℚ) / RAND_MAX) ((rnd (st.cursor + 1) : ℚ) / RAND_MAX)
              (st.particles.getD iParticle ⟨[], [], [], DBL_MAX⟩) st.gbest_pw i ≤
          L_wMax.getD i 0 + 2 * (L_wMax.getD i 0 - L_wMin.getD i 0))) ∧
    ((∀ i, i < (st.particles.getD iParticle ⟨[], [], [], DBL_MAX⟩).pw.length →
        L_wMin.getD i 0 - (L_wMax.getD i 0 - L_wMin.getD i 0) ≤
          (st.particles.getD iParticle ⟨[], [], [], DBL_MAX⟩).pw.getD i 0 +
            candidateVelocity intertia_weight acceleration_constant_1 acceleration_constant_2
              ((rnd st.cursor : ℚ) / RAND_MAX) ((rnd (st.cursor + 1) : ℚ) / RAND_MAX)
              (st.particles.getD iParticle ⟨[], [], [], DBL_MAX⟩) st.gbest_pw i ∧
        (st.particles.getD iParticle ⟨[], [], [], DBL_MAX⟩).pw.getD i 0 +
            candidateVelocity intertia_weight acceleration_constant_1 acceleration_constant_2
              ((rnd st.cursor : ℚ) / RAND_MAX) ((rnd (st.cursor + 1) : ℚ) / RAND_MAX)
              (st.particles.getD iParticle ⟨[], [], [], DBL_MAX⟩) st.gbest_pw i ≤
          L_wMax.getD i 0 + 2 * (L_wMax.getD i 0 - L_wMin.getD i 0)) →
      SwarmWithinDomain L_wMin L_wMax st →
      SwarmWithinDomain L_wMin L_wMax
        (moveParticle F rnd intertia_weight acceleration_constant_1 acceleration_constant_2
          L_wMin L_wMax st iParticle)) := by
  have hiff : ∀ i p r1 r2,
      (L_wMin.getD i 0 ≤ candidateParticle intertia_weight acceleration_constant_1
          acceleration_constant_2 r1 r2 L_wMin L_wMax p st.gbest_pw i ∧
        candidateParticle intertia_weight acceleration_constant_1
          acceleration_constant_2 r1 r2 L_wMin L_wMax p st.gbest_pw i ≤ L_wMax.getD i 0) ↔
      (L_wMin.getD i 0 - (L_wMax.getD i 0 - L_wMin.getD i 0) ≤
          p.pw.getD i 0 + candidateVelocity intertia_weight acceleration_constant_1
            acceleration_constant_2 r1 r2 p st.gbest_pw i ∧
        p.pw.getD i 0 + candidateVelocity intertia_weight acceleration_constant_1
            acceleration_constant_2 r1 r2 p st.gbest_pw i ≤
          L_wMax.getD i 0 + 2 * (L_wMax.getD i 0 - L_wMin.getD i 0)) := by
    intro i p r1 r2
    exact bounce_within_iff _ _ _ (hdom i)
  refine ⟨fun i => hiff i _ _ _, ?_⟩
  intro hrange hst
  obtain ⟨hparts, hg⟩ := hst
  obtain ⟨hpw, hpbw⟩ := getD_particle_within L_wMin L_wMax st.particles iParticle hparts
  have hcand : WithinDomain L_wMin L_wMax
      ((List.range (st.particles.getD iParticle ⟨[], [], [], DBL_MAX⟩).pw.length).map
        (candidateParticle intertia_weight acceleration_constant_1 acceleration_constant_2
          ((rnd st.cursor : ℚ) / RAND_MAX) ((rnd (st.cursor + 1) : ℚ) / RAND_MAX)
          L_wMin L_wMax (st.particles.getD iParticle ⟨[], [], [], DBL_MAX⟩) st.gbest_pw)) := by
    intro i hi
    simp only [List.length_map, List.length_range] at hi
    rw [getD_map_range _ _ _ hi]
    exact (hiff i _ _ _).2 (hrange i hi)
  unfold moveParticle SwarmWithinDomain
  simp only
  split_ifs <;> refine ⟨fun q hq => ?_, ?_⟩ <;>
    first
    | exact hg
    | exact hcand
    | (rcases List.mem_or_eq_of_mem_set hq with hq | hq
       · exact hparts q hq
       · subst hq
         first
         | exact ⟨hcand, hcand⟩
         | exact ⟨hpw, hcand⟩
         | exact ⟨hcand, hpbw⟩
         | exact ⟨hpw, hpbw⟩)

theorem bounce_keeps_within_domain_witness :
    (∀ i, ([0] : List ℚ).getD i 0 ≤ ([1] : List ℚ).getD i 0) ∧
    SwarmWithinDomain [0] [1]
      (moveParticle (fun v => v.sum) (fun _ => 0) (1 / 2) 2 2 [0] [1]
        ⟨[⟨[1 / 2], [0], [1 / 2], DBL_MAX⟩], [1 / 2], DBL_MAX, [], 0⟩ 0) := by
  have hdom : ∀ i, ([0] : List ℚ).getD i 0 ≤ ([1] : List ℚ).getD i 0 := by
    intro i
    cases i <;> simp
  refine ⟨hdom, (bounce_keeps_within_domain (fun v => v.sum) (fun _ => 0) (1 / 2) 2 2 [0] [1]
    ⟨[⟨[1 / 2], [0], [1 / 2], DBL_MAX⟩], [1 / 2], DBL_MAX, [], 0⟩ 0 hdom).2 ?_ ?_⟩
  · intro i hi
    have : i = 0 := by simpa using hi
    subst this
    norm_num [candidateVelocity]
  · refine ⟨fun p hp => ?_, ?_⟩
    · have : p = ⟨[1 / 2], [0], [1 / 2], DBL_MAX⟩ := by simpa using hp
      subst this
      constructor <;> intro i hi <;>
        (have : i = 0 := by simpa using hi) <;> subst this <;> norm_num
    · intro i hi
      have : i = 0 := by simpa using hi
      subst this
      norm_num

/-! ## The collected values of the particle swarm -/

theorem moveParticle_trace (F : List ℚ → ℚ) (rnd : ℕ → ℕ) (w c1 c2 : ℚ)
    (L_wMin L_wMax : List ℚ) (st : SwarmState) (iParticle : ℕ) :
    (moveParticle F rnd w c1 c2 L_wMin L_wMax st iParticle).trace = st.trace ∧
    (moveParticle F rnd w c1 c2 L_wMin L_wMax st iParticle).fOfgbest ≤ st.fOfgbest := by
  unfold moveParticle
  simp only
  split_ifs <;>
    first
    | exact ⟨rfl, le_refl _⟩
    | exact ⟨rfl, le_of_lt (by assumption)⟩

theorem moveParticles_trace (F : List ℚ → ℚ) (rnd : ℕ → ℕ) (w c1 c2 : ℚ)
    (L_wMin L_wMax : List ℚ) (l : List ℕ) (st : SwarmState) :
    (l.foldl (moveParticle F rnd w c1 c2 L_wMin L_wMax) st).trace = st.trace ∧
    (l.foldl (moveParticle F rnd w c1 c2 L_wMin L_wMax) st).fOfgbest ≤ st.fOfgbest := by
  induction l generalizing st with
  | nil => exact ⟨rfl, le_refl _⟩
  | cons i rest ih =>
    obtain ⟨h1, h2⟩ := ih (moveParticle F rnd w c1 c2 L_wMin L_wMax st i)
    obtain ⟨h3, h4⟩ := moveParticle_trace F rnd w c1 c2 L_wMin L_wMax st i
    exact ⟨by rw [List.foldl_cons, h1, h3], by rw [List.foldl_cons]; exact le_trans h2 h4⟩

theorem swarmStep_descends (F : List ℚ → ℚ) (rnd : ℕ → ℕ) (w c1 c2 : ℚ)
    (L_wMin L_wMax : List ℚ) (nParticles : ℕ) (st : SwarmState) (h : SwarmTraceDescends st) :
    SwarmTraceDescends (swarmStep F rnd w c1 c2 L_wMin L_wMax nParticles st) := by
  obtain ⟨h1, h2⟩ := moveParticles_trace F rnd w c1 c2 L_wMin L_wMax (List.range nParticles) st
  obtain ⟨hp, hle⟩ := h
  unfold swarmStep SwarmTraceDescends
  simp only
  rw [h1]
  refine ⟨?_, ?_⟩
  · rw [List.pairwise_append]
    refine ⟨hp, List.pairwise_singleton _ _, ?_⟩
    intro a ha b hb
    rw [List.mem_singleton] at hb
    rw [hb]
    exact le_trans h2 (hle a ha)
  · intro x hx
    rw [List.mem_append, List.mem_singleton] at hx
    rcases hx with hx | hx
    · exact le_trans h2 (hle x hx)
    · rw [hx]

theorem swarmSteps_descend (F : List ℚ → ℚ) (rnd : ℕ → ℕ) (w c1 c2 : ℚ)
    (L_wMin L_wMax : List ℚ) (nParticles : ℕ) (l : List ℕ) (st : SwarmState)
    (h : SwarmTraceDescends st) :
    SwarmTraceDescends
      (l.foldl (fun st _ => swarmStep F rnd w c1 c2 L_wMin L_wMax nParticles st) st) := by
  induction l generalizing st with
  | nil => exact h
  | cons i rest ih =>
    rw [List.foldl_cons]
    exact ih _ (swarmStep_descends F rnd w c1 c2 L_wMin L_wMax nParticles st h)

theorem swarmSteps_length (F : List ℚ → ℚ) (rnd : ℕ → ℕ) (w c1 c2 : ℚ)
    (L_wMin L_wMax : List ℚ) (nParticles : ℕ) (l : List ℕ) (st : SwarmState) :
    (l.foldl (fun st _ => swarmStep F rnd w c1 c2 L_wMin L_wMax nParticles st) st).trace.length
      = st.trace.length + l.length := by
  induction l generalizing st with
  | nil => simp
  | cons i rest ih =>
    rw [List.foldl_cons, ih]
    have := (moveParticles_trace F rnd w c1 c2 L_wMin L_wMax (List.range nParticles) st).1
    simp only [swarmStep, List.length_append, this, List.length_cons, List.length_nil]
    omega

/-- C3: for every run of `processWithPSO` (every objective function, seed, number of
particles, number of steps, inertia and acceleration constants), the collected values (the
value of `fOfgbest` pushed at the end of each iteration) never increase: each value is at
most the value collected by the iteration before. -/
theorem processWithPSO_trace_nonincreasing (F : List ℚ → ℚ) (g : DomainInputs) (rnd : ℕ → ℕ)
    (m maxNumberOfOptimizationSteps nParticles : ℤ)
    (intertia_weight acceleration_constant_1 acceleration_constant_2 : ℚ) (t : ℕ) :
    (processWithPSO F g rnd m maxNumberOfOptimizationSteps nParticles intertia_weight
        acceleration_constant_1 acceleration_constant_2).2.length
      = maxNumberOfOptimizationSteps.toNat ∧
    (t + 1 < (processWithPSO F g rnd m maxNumberOfOptimizationSteps nParticles intertia_weight
        acceleration_constant_1 acceleration_constant_2).2.length →
      (processWithPSO F g rnd m maxNumberOfOptimizationSteps nParticles intertia_weight
        acceleration_constant_1 acceleration_constant_2).2.getD (t + 1) 0 ≤
      (processWithPSO F g rnd m maxNumberOfOptimizationSteps nParticles intertia_weight
        acceleration_constant_1 acceleration_constant_2).2.getD t 0) := by
  have hinv := swarmSteps_descend F rnd intertia_weight acceleration_constant_1
    acceleration_constant_2 (initDomainAndParameters g m.toNat).L_wMin
    (initDomainAndParameters g m.toNat).L_wMax nParticles.toNat
    (List.range maxNumberOfOptimizationSteps.toNat)
    ⟨(initParticles rnd (initDomainAndParameters g m.toNat).L_wMin
        (initDomainAndParameters g m.toNat).L_wMax (m.toNat * getNumberOfParameters)
        nParticles.toNat [] 0).1,
      (initGlobalBest F (initParticles rnd (initDomainAndParameters g m.toNat).L_wMin
        (initDomainAndParameters g m.toNat).L_wMax (m.toNat * getNumberOfParameters)
        nParticles.toNat [] 0).1).1, DBL_MAX, [],
      (initParticles rnd (initDomainAndParameters g m.toNat).L_wMin
        (initDomainAndParameters g m.toNat).L_wMax (m.toNat * getNumberOfParameters)
        nParticles.toNat [] 0).2⟩
    ⟨List.Pairwise.nil, fun x hx => by simp at hx⟩
  have hlen := swarmSteps_length F rnd intertia_weight acceleration_constant_1
    acceleration_constant_2 (initDomainAndParameters g m.toNat).L_wMin
    (initDomainAndParameters g m.toNat).L_wMax nParticles.toNat
    (List.range maxNumberOfOptimizationSteps.toNat)
    ⟨(initParticles rnd (initDomainAndParameters g m.toNat).L_wMin
        (initDomainAndParameters g m.toNat).L_wMax (m.toNat * getNumberOfParameters)
        nParticles.toNat [] 0).1,
      (initGlobalBest F (initParticles rnd (initDomainAndParameters g m.toNat).L_wMin
        (initDomainAndParameters g m.toNat).L_wMax (m.toNat * getNumberOfParameters)
        nParticles.toNat [] 0).1).1, DBL_MAX, [],
      (initParticles rnd (initDomainAndParameters g m.toNat).L_wMin
        (initDomainAndParameters g m.toNat).L_wMax (m.toNat * getNumberOfParameters)
        nParticles.toNat [] 0).2⟩
  simp only [processWithPSO]
  refine ⟨by rw [hlen]; simp, fun ht => ?_⟩
  rw [List.getD_eq_getElem _ _ ht, List.getD_eq_getElem _ _ (by omega)]
  exact (List.pairwise_iff_getElem.mp hinv.1) t (t + 1) (by omega) ht (by omega)

theorem processWithPSO_trace_nonincreasing_witness :
    (processWithPSO (fun v => v.sum) ⟨1, 1, 10, 355 / 113, 100⟩ (fun n => n) 1 2 2 (1 / 2) 2
        2).2.getD (0 + 1) 0 ≤
      (processWithPSO (fun v => v.sum) ⟨1, 1, 10, 355 / 113, 100⟩ (fun n => n) 1 2 2 (1 / 2) 2
        2).2.getD 0 0 :=
  (processWithPSO_trace_nonincreasing (fun v => v.sum) ⟨1, 1, 10, 355 / 113, 100⟩ (fun n => n)
    1 2 2 (1 / 2) 2 2 0).2
    (by rw [(processWithPSO_trace_nonincreasing (fun v => v.sum) ⟨1, 1, 10, 355 / 113, 100⟩
      (fun n => n) 1 2 2 (1 / 2) 2 2 0).1]; decide)

/-! ## The objective function is never negative -/

theorem foldl_add_nonneg (l : List ℕ) (f : ℚ → ℕ → ℚ) (init : ℚ) (h0 : 0 ≤ init)
    (hstep : ∀ s i, 0 ≤ s → 0 ≤ f s i) : 0 ≤ l.foldl f init := by
  induction l generalizing init with
  | nil => exact h0
  | cons i rest ih => exact ih _ (hstep _ _ h0)

theorem sumOverCells_nonneg (nI nJ nK : ℕ) (term : ℕ → ℕ → ℕ → ℚ)
    (h : ∀ i j k, 0 ≤ term i j k) : 0 ≤ sumOverCells nI nJ nK term := by
  unfold sumOverCells
  apply foldl_add_nonneg _ _ _ (le_refl _)
  intro s k hs
  apply foldl_add_nonneg _ _ _ hs
  intro s j hs
  apply foldl_add_nonneg _ _ _ hs
  intro s i hs
  exact add_nonneg hs (h i j k)

theorem cellWeight_nonneg (d meanSampleSpacing : ℚ) (h : 0 < meanSampleSpacing) :
    0 ≤ cellWeight d meanSampleSpacing := by
  unfold cellWeight
  split_ifs with hd
  · exact le_refl _
  · have hd0 : 0 < d := by
      have : (1 : ℚ) / 10000 ≤ d := not_lt.mp hd
      linarith [show (0 : ℚ) < 1 / 10000 by norm_num]
    positivity

theorem computeWeights_nonneg (self : AutomaticVariogramFitting) (g : GridGeometry)
    (h : 0 < g.meanSampleSpacing) (i j k : ℕ) : 0 ≤ (computeWeights self g).cell i j k := by
  unfold computeWeights
  simp only
  split_ifs
  · exact cellWeight_nonneg _ _ h
  · exact le_refl _

theorem objectiveFunction_nonneg (self : AutomaticVariogramFitting) (st : ObjectiveStatics)
    (g : GridGeometry) (inputGridData : SpectralArray) (vw : List ℚ) (m : ℕ)
    (hg : 0 < g.meanSampleSpacing) (hst : WeightsNonneg st) :
    0 ≤ (self.objectiveFunction st g inputGridData vw m).1 ∧
    WeightsNonneg (self.objectiveFunction st g inputGridData vw m).2 := by
  unfold AutomaticVariogramFitting.objectiveFunction
  cases self.m_objectiveFunctionType with
  | BASED_ON_FIM =>
    simp only [AutomaticVariogramFitting.objectiveFunctionFIM]
    refine ⟨sumOverCells_nonneg _ _ _ _ (fun i j k => mul_self_nonneg _), ?_⟩
    split_ifs <;> exact hst
  | BASED_ON_VARFIT =>
    simp only [AutomaticVariogramFitting.objectiveFunctionVARFIT]
    have hw : WeightsNonneg
        (if (if st.inputVarmap.dataEmpty = true ∨ st.currentAttribute ≠ some self.m_at then
              { st with inputVarmap := self.computeVarmap,
                        currentAttribute := some self.m_at }
            else st).weights.dataEmpty = true ∨
            (if st.inputVarmap.dataEmpty = true ∨ st.currentAttribute ≠ some self.m_at then
              { st with inputVarmap := self.computeVarmap,
                        currentAttribute := some self.m_at }
            else st).currentAttribute2 ≠ some self.m_at then
          { (if st.inputVarmap.dataEmpty = true ∨ st.currentAttribute ≠ some self.m_at then
              { st with inputVarmap := self.computeVarmap,
                        currentAttribute := some self.m_at }
            else st) with weights := computeWeights self g,
                          currentAttribute2 := some self.m_at }
        else (if st.inputVarmap.dataEmpty = true ∨ st.currentAttribute ≠ some self.m_at then
              { st with inputVarmap := self.computeVarmap,
                        currentAttribute := some self.m_at }
            else st)) := by
      split_ifs <;> first | exact hst | exact fun i j k => computeWeights_nonneg self g hg i j k
    refine ⟨sumOverCells_nonneg _ _ _ _ (fun i j k => ?_), hw⟩
    rw [mul_assoc]
    exact mul_nonneg (hw i j k) (mul_self_nonneg _)

theorem objectiveCalls_nonneg (calls : List ObjectiveCall) (st : ObjectiveStatics)
    (hst : WeightsNonneg st)
    (hcalls : ∀ c, c ∈ calls → 0 < c.gridWithGeometry.meanSampleSpacing) :
    ∀ v, v ∈ (objectiveCalls st calls).1 → 0 ≤ v := by
  induction calls generalizing st with
  | nil => intro v hv; simp [objectiveCalls] at hv
  | cons c rest ih =>
    intro v hv
    obtain ⟨h1, h2⟩ := objectiveFunction_nonneg c.self st c.gridWithGeometry c.inputGridData
      c.vectorOfParameters c.m (hcalls c (List.mem_cons_self _ _)) hst
    simp only [objectiveCalls, List.mem_cons] at hv
    rcases hv with hv | hv
    · rw [hv]; exact h1
    · exact ih _ h2 (fun c' hc' => hcalls c' (List.mem_cons_of_mem _ hc')) v hv

theorem objectiveCalls_length (calls : List ObjectiveCall) (st : ObjectiveStatics) :
    (objectiveCalls st calls).1.length = calls.length := by
  induction calls generalizing st with
  | nil => rfl
  | cons c rest ih => simp [objectiveCalls, ih]

/-- C6: in every sequence of calls of `objectiveFunction` made since the program was loaded,
on objects of either strategy (surface distance with its cached weights, or Fourier integral),
with any grid of positive mean cell spacing, any input data array and any parameter vector,
every call returns a value, and every value returned is `>= 0`. -/
theorem objectiveFunction_never_negative (calls : List ObjectiveCall)
    (hcalls : ∀ c, c ∈ calls → 0 < c.gridWithGeometry.meanSampleSpacing) :
    (objectiveCalls ObjectiveStatics.initial calls).1.length = calls.length ∧
    ∀ v, v ∈ (objectiveCalls ObjectiveStatics.initial calls).1 → 0 ≤ v :=
  ⟨objectiveCalls_length calls _,
    objectiveCalls_nonneg calls _ (fun _ _ _ => le_refl _) hcalls⟩

theorem objectiveFunction_never_negative_witness :
    0 ≤ ((AutomaticVariogramFitting.mk 7 ObjectiveFunctionType.BASED_ON_VARFIT
        ⟨2, 1, 1, fun i _ _ => (i : ℚ)⟩ ⟨2, 1, 1, fun _ _ _ => 0⟩
        (fun i j k => (i : ℚ) + j + k)
        (fun s _ a => ⟨a.M, a.N, a.K, fun i j k => a.cell i j k + s.contribution⟩)
        (fun a _ => a)).objectiveFunction ObjectiveStatics.initial ⟨2, 1, 1, 1, 1, 1⟩
        ⟨2, 1, 1, fun _ _ _ => 1⟩ [10, 1 / 2, 0, 3] 1).1 :=
  (objectiveFunction_never_negative
    [⟨AutomaticVariogramFitting.mk 7 ObjectiveFunctionType.BASED_ON_VARFIT
        ⟨2, 1, 1, fun i _ _ => (i : ℚ)⟩ ⟨2, 1, 1, fun _ _ _ => 0⟩
        (fun i j k => (i : ℚ) + j + k)
        (fun s _ a => ⟨a.M, a.N, a.K, fun i j k => a.cell i j k + s.contribution⟩)
        (fun a _ => a), ⟨2, 1, 1, 1, 1, 1⟩, ⟨2, 1, 1, fun _ _ _ => 1⟩, [10, 1 / 2, 0, 3], 1⟩]
    (by
      intro c hc
      rw [List.mem_singleton] at hc
      subst hc
      norm_num [GridGeometry.meanSampleSpacing])).2 _ (by simp [objectiveCalls])

/-! ## The gradient descent stays within the domain -/

theorem imposeDomain_fold (L_wMin L_wMax : List ℚ) (hdom : ∀ i, L_wMin.getD i 0 ≤ L_wMax.getD i 0)
    (v : List ℚ) (n : ℕ) (hn : n ≤ v.length) :
    ((List.range n).foldl
      (fun v i =>
        let v1 := if v.getD i 0 < L_wMin.getD i 0 then v.set i (L_wMin.getD i 0) else v
        if v1.getD i 0 > L_wMax.getD i 0 then v1.set i (L_wMax.getD i 0) else v1) v).length
      = v.length ∧
    ∀ j, j < n →
      L_wMin.getD j 0 ≤ ((List.range n).foldl
        (fun v i =>
          let v1 := if v.getD i 0 < L_wMin.getD i 0 then v.set i (L_wMin.getD i 0) else v
          if v1.getD i 0 > L_wMax.getD i 0 then v1.set i (L_wMax.getD i 0) else v1) v).getD j 0 ∧
      ((List.range n).foldl
        (fun v i =>
          let v1 := if v.getD i 0 < L_wMin.getD i 0 then v.set i (L_wMin.getD i 0) else v
          if v1.getD i 0 > L_wMax.getD i 0 then v1.set i (L_wMax.getD i 0) else v1) v).getD j 0
        ≤ L_wMax.getD j 0 := by
  induction n with
  | zero => exact ⟨rfl, fun j hj => absurd hj (Nat.not_lt_zero _)⟩
  | succ n ih =>
    obtain ⟨hlen, hin⟩ := ih (by omega)
    rw [List.range_succ, List.foldl_append]
    simp only [List.foldl_cons, List.foldl_nil]
    generalize (List.range n).foldl
      (fun v i =>
        let v1 := if v.getD i 0 < L_wMin.getD i 0 then v.set i (L_wMin.getD i 0) else v
        if v1.getD i 0 > L_wMax.getD i 0 then v1.set i (L_wMax.getD i 0) else v1) v = u
      at hlen hin ⊢
    have hnu : n < u.length := by omega
    have hd := hdom n
    refine ⟨by split_ifs <;> simp [hlen], ?_⟩
    intro j hj
    by_cases hjn : j = n
    · subst hjn
      split_ifs with h1 h2 h2
      · rw [getD_set_eq _ _ _ _ (by simpa using hnu)]
        exact ⟨hd, le_refl _⟩
      · rw [getD_set_eq _ _ _ _ hnu]
        rw [getD_set_eq _ _ _ _ hnu] at h2
        exact ⟨le_refl _, not_lt.mp h2⟩
      · rw [getD_set_eq _ _ _ _ hnu]
        exact ⟨hd, le_refl _⟩
      · exact ⟨not_lt.mp h1, not_lt.mp h2⟩
    · have hjlt : j < n := by omega
      split_ifs <;>
        (try simp only [getD_set_ne _ _ _ _ _ (Ne.symm hjn)]) <;> exact hin j hjlt

theorem imposeDomain_within (L_wMin L_wMax : List ℚ)
    (hdom : ∀ i, L_wMin.getD i 0 ≤ L_wMax.getD i 0) (v : List ℚ) :
    WithinDomain L_wMin L_wMax (imposeDomain L_wMin L_wMax v) := by
  obtain ⟨hlen, hin⟩ := imposeDomain_fold L_wMin L_wMax hdom v v.length (le_refl _)
  intro i hi
  unfold imposeDomain at hi ⊢
  rw [hlen] at hi
  exact hin i hi

theorem alphaReduction_within (F : List ℚ → ℚ) (L_wMin L_wMax gradient : List ℚ)
    (hdom : ∀ i, L_wMin.getD i 0 ≤ L_wMax.getD i 0) (budget : ℚ) (remaining : ℕ) :
    ∀ (iStep : ℕ) (alpha : ℚ) (st : DescentStep), WithinDomain L_wMin L_wMax st.vw →
      WithinDomain L_wMin L_wMax
        (alphaReduction F L_wMin L_wMax gradient budget remaining iStep alpha st).vw := by
  induction remaining with
  | zero => intro iStep alpha st h; exact h
  | succ n ih =>
    intro iStep alpha st h
    unfold alphaReduction
    simp only
    split_ifs
    · exact imposeDomain_within L_wMin L_wMax hdom _
    · exact ih _ _ _ h
    · exact h

theorem descentIteration_within (F G : List ℚ → ℚ) (nThreads : ℕ) (epsilon initialAlpha
    budget convergenceCriterion : ℚ) (L_wMin L_wMax : List ℚ)
    (hdom : ∀ i, L_wMin.getD i 0 ≤ L_wMax.getD i 0) (st : DescentState)
    (h : WithinDomain L_wMin L_wMax st.vw) :
    WithinDomain L_wMin L_wMax (descentIteration F G nThreads epsilon initialAlpha budget
      convergenceCriterion L_wMin L_wMax st).vw := by
  unfold descentIteration
  exact alphaReduction_within F L_wMin L_wMax _ hdom budget _ _ _ _ h

theorem gradientDescent_within (F G : List ℚ → ℚ) (nThreads : ℕ) (epsilon initialAlpha
    budget convergenceCriterion : ℚ) (L_wMin L_wMax : List ℚ)
    (hdom : ∀ i, L_wMin.getD i 0 ≤ L_wMax.getD i 0) (n : ℕ) :
    ∀ st : DescentState, WithinDomain L_wMin L_wMax st.vw →
      WithinDomain L_wMin L_wMax (gradientDescent F G nThreads epsilon initialAlpha budget
        convergenceCriterion L_wMin L_wMax n st).vw := by
  induction n with
  | zero => intro st h; exact h
  | succ n ih =>
    intro st h
    unfold gradientDescent
    simp only
    have h1 := descentIteration_within F G nThreads epsilon initialAlpha budget
      convergenceCriterion L_wMin L_wMax hdom st h
    split_ifs
    · exact h1
    · exact ih _ h1

theorem drawInsideDomain_within (rnd : ℕ → ℕ) (f_factorSearch current delta wMin wMax : ℚ)
    (fuel : ℕ) : ∀ (c : ℕ) (x : ℚ) (c1 : ℕ),
      drawInsideDomain rnd f_factorSearch current delta wMin wMax fuel c = some (x, c1) →
      wMin ≤ x ∧ x ≤ wMax := by
  induction fuel with
  | zero => intro c x c1 h; simp [drawInsideDomain] at h
  | succ n ih =>
    intro c x c1 h
    unfold drawInsideDomain at h
    simp only at h
    split_ifs at h with hc
    · simp only [Option.some.injEq, Prod.mk.injEq] at h
      rw [← h.1]
      exact hc
    · exact ih _ _ _ h

theorem drawNeighbor_within (rnd : ℕ → ℕ) (fuel : ℕ) (f_factorSearch : ℚ)
    (L_wCurrent L_wDelta L_wMin L_wMax : List ℚ) (remaining : ℕ) :
    ∀ (i : ℕ) (L_wNew : List ℚ) (c : ℕ) (out : List ℚ) (c1 : ℕ),
      i + remaining ≤ L_wNew.length →
      (∀ j, j < i → L_wMin.getD j 0 ≤ L_wNew.getD j 0 ∧ L_wNew.getD j 0 ≤ L_wMax.getD j 0) →
      drawNeighbor rnd fuel f_factorSearch L_wCurrent L_wDelta L_wMin L_wMax remaining i L_wNew c
        = some (out, c1) →
      out.length = L_wNew.length ∧
      ∀ j, j < i + remaining →
        L_wMin.getD j 0 ≤ out.getD j 0 ∧ out.getD j 0 ≤ L_wMax.getD j 0 := by
  induction remaining with
  | zero =>
    intro i L_wNew c out c1 _ hin h
    simp only [drawNeighbor, Option.some.injEq, Prod.mk.injEq] at h
    rw [← h.1]
    exact ⟨rfl, fun j hj => hin j (by omega)⟩
  | succ n ih =>
    intro i L_wNew c out c1 hlen hin h
    unfold drawNeighbor at h
    split at h
    · exact absurd h (by simp)
    · rename_i f_tmp c2 hdraw
      have hb := drawInsideDomain_within rnd f_factorSearch _ _ _ _ fuel c f_tmp c2 hdraw
      have := ih (i + 1) (L_wNew.set i f_tmp) c2 out c1 (by simp; omega)
        (fun j hj => by
          by_cases hji : j = i
          · subst hji
            rw [getD_set_eq _ _ _ _ (by omega)]
            exact hb
          · rw [getD_set_ne _ _ _ _ _ (Ne.symm hji)]
            exact hin j (by omega)) h
      refine ⟨by rw [this.1]; simp, fun j hj => this.2 j (by omega)⟩

theorem annealingMove_within (F : List ℚ → ℚ) (f_Tinitial f_Tfinal f_T : ℚ)
    (L_wMin L_wMax L_wNew : List ℚ) (r : ℕ) (st : AnnealingState)
    (hnew : WithinDomain L_wMin L_wMax L_wNew)
    (h : WithinDomain L_wMin L_wMax st.L_wOfLowestEnergyFound) :
    WithinDomain L_wMin L_wMax
      (annealingMove F f_Tinitial f_Tfinal f_T L_wNew r st).L_wOfLowestEnergyFound := by
  unfold annealingMove
  simp only
  split_ifs
  · exact hnew
  · exact h
  · exact h

theorem annealingStep_within (F : List ℚ → ℚ) (exp log10 : ℚ → ℚ) (rnd : ℕ → ℕ) (fuel : ℕ)
    (f_Tinitial f_Tfinal f_factorSearch : ℚ) (L_wMin L_wMax : List ℚ) (k : ℕ)
    (st st1 : AnnealingState)
    (h : WithinDomain L_wMin L_wMax st.L_wOfLowestEnergyFound)
    (hs : annealingStep F exp log10 rnd fuel f_Tinitial f_Tfinal f_factorSearch L_wMin L_wMax
      k st = some st1) :
    WithinDomain L_wMin L_wMax st1.L_wOfLowestEnergyFound := by
  unfold annealingStep at hs
  simp only at hs
  split at hs
  · exact absurd hs (by simp)
  · rename_i L_wNew c1 hdraw
    have hn := drawNeighbor_within rnd fuel f_factorSearch st.L_wCurrent _ L_wMin L_wMax
      st.L_wCurrent.length 0 st.L_wCurrent st.cursor L_wNew c1 (by omega)
      (fun j hj => absurd hj (Nat.not_lt_zero _)) hdraw
    simp only [Option.some.injEq] at hs
    rw [← hs]
    apply annealingMove_within
    · intro i hi
      rw [hn.1] at hi
      exact hn.2 i (by omega)
    · exact h

theorem annealingLoop_within (F : List ℚ → ℚ) (exp log10 : ℚ → ℚ) (rnd : ℕ → ℕ) (fuel : ℕ)
    (f_Tinitial f_Tfinal f_factorSearch : ℚ) (L_wMin L_wMax : List ℚ) (remaining : ℕ) :
    ∀ (k : ℕ) (st st1 : AnnealingState),
      WithinDomain L_wMin L_wMax st.L_wOfLowestEnergyFound →
      annealingLoop F exp log10 rnd fuel f_Tinitial f_Tfinal f_factorSearch L_wMin L_wMax
        remaining k st = some st1 →
      WithinDomain L_wMin L_wMax st1.L_wOfLowestEnergyFound := by
  induction remaining with
  | zero =>
    intro k st st1 h hs
    simp only [annealingLoop, Option.some.injEq] at hs
    rw [← hs]; exact h
  | succ n ih =>
    intro k st st1 h hs
    unfold annealingLoop at hs
    split at hs
    · exact absurd hs (by simp)
    · rename_i st2 hstep
      exact ih _ _ _ (annealingStep_within F exp log10 rnd fuel f_Tinitial f_Tfinal
        f_factorSearch L_wMin L_wMax k st st2 h hstep) hs

/-- C5: in `processWithSAandGD`, with `L_wMin <= L_wMax` elementwise, the gradient descent
keeps the parameters within the domain: from any parameters within the domain, after any
number of iterations every element `i` of `vw` satisfies `L_wMin[i] <= vw[i] <= L_wMax[i]`,
for every gradient (every function handed to the gradient tasks), initial step size and
reduction budget; and the parameters the annealing hands over are within the domain, so this
holds after every iteration of the descent that follows the annealing. -/
theorem gradientDescent_stays_within_domain (F G : List ℚ → ℚ) (exp log10 : ℚ → ℚ)
    (rnd : ℕ → ℕ) (fuel : ℕ) (nThreads : ℕ) (f_Tinitial f_Tfinal : ℚ) (i_kmax : ℤ)
    (f_factorSearch epsilon initialAlpha maxNumberOfAlphaReductionSteps
      convergenceCriterion : ℚ) (vw L_wMin L_wMax : List ℚ)
    (hdom : ∀ i, L_wMin.getD i 0 ≤ L_wMax.getD i 0) :
    (∀ (st : DescentState) (n : ℕ), WithinDomain L_wMin L_wMax st.vw →
      WithinDomain L_wMin L_wMax (gradientDescent F G nThreads epsilon initialAlpha
        maxNumberOfAlphaReductionSteps convergenceCriterion L_wMin L_wMax n st).vw) ∧
    (∀ sa : AnnealingState,
      simulatedAnnealing F exp log10 rnd fuel f_Tinitial f_Tfinal i_kmax f_factorSearch vw
        L_wMin L_wMax = some sa →
      ∀ n : ℕ, WithinDomain L_wMin L_wMax (gradientDescent F G nThreads epsilon initialAlpha
        maxNumberOfAlphaReductionSteps convergenceCriterion L_wMin L_wMax n
        ⟨sa.L_wOfLowestEnergyFound, sa.trace, false⟩).vw) := by
  refine ⟨fun st n h => gradientDescent_within F G nThreads epsilon initialAlpha
    maxNumberOfAlphaReductionSteps convergenceCriterion L_wMin L_wMax hdom n st h, ?_⟩
  intro sa hsa n
  apply gradientDescent_within F G nThreads epsilon initialAlpha
    maxNumberOfAlphaReductionSteps convergenceCriterion L_wMin L_wMax hdom n
  exact annealingLoop_within F exp log10 rnd fuel f_Tinitial f_Tfinal f_factorSearch
    L_wMin L_wMax _ 0 _ sa (withinDomain_nil _ _) hsa

theorem gradientDescent_stays_within_domain_witness :
    (∀ i, ([0] : List ℚ).getD i 0 ≤ ([1] : List ℚ).getD i 0) ∧
    simulatedAnnealing (fun v => v.sum) (fun x => 1 + x) (fun _ => 2) (fun _ => 0) 3 100 1 1
      (1 / 4) [1 / 2] [0] [1] = some ⟨[1 / 4], 1 / 4, 1 / 4, [1 / 4], [1 / 2], 2⟩ ∧
    WithinDomain [0] [1] (gradientDescent (fun v => v.sum) (fun v => v.sum) 1 (1 / 100)
      (1 / 10) 3 (1 / 1000) [0] [1] 2 ⟨[1 / 4], [1 / 2], false⟩).vw := by
  have hdom : ∀ i, ([0] : List ℚ).getD i 0 ≤ ([1] : List ℚ).getD i 0 := by
    intro i
    cases i <;> simp
  have hsa : simulatedAnnealing (fun v => v.sum) (fun x => 1 + x) (fun _ => 2) (fun _ => 0) 3
      100 1 1 (1 / 4) [1 / 2] [0] [1] = some ⟨[1 / 4], 1 / 4, 1 / 4, [1 / 4], [1 / 2], 2⟩ := by
    norm_num [simulatedAnnealing, annealingLoop, annealingStep, drawNeighbor, drawInsideDomain,
      randomWithin, annealingMove, probAcceptance, temperature, RAND_MAX, DBL_MAX]
  exact ⟨hdom, hsa, (gradientDescent_stays_within_domain (fun v => v.sum) (fun v => v.sum)
    (fun x => 1 + x) (fun _ => 2) (fun _ => 0) 3 1 100 1 1 (1 / 4) (1 / 100) (1 / 10) 3
    (1 / 1000) [1 / 2] [0] [1] hdom).2 _ hsa 2⟩

/-! ## The line search does not depend on the distribution of the points among threads -/

theorem movePoint_core (F : List ℚ → ℚ) (m : ℕ) (i k : ℕ) (domain : VariogramParametersDomain)
    (L_wMax L_wMin : List ℚ) (randSequence : ℕ → ℕ → ℕ → ℚ) (st : LineSearchState) :
    ((movePointAlongLineForLSRS F m i k domain L_wMax L_wMin randSequence st).startingPoints,
      (movePointAlongLineForLSRS F m i k domain L_wMax L_wMin randSequence st).fOfBestSolution)
    = movePointCore F m i k domain L_wMax L_wMin randSequence
        (st.startingPoints, st.fOfBestSolution) := by
  unfold movePointAlongLineForLSRS movePointCore
  simp only
  by_cases h1 : F (lineCandidate m i k domain L_wMax L_wMin randSequence
      (st.startingPoints.getD i [])) < F (st.startingPoints.getD i [])
  · by_cases h2 : F (lineCandidate m i k domain L_wMax L_wMin randSequence
        (st.startingPoints.getD i [])) < st.fOfBestSolution
    · simp only [h1, h2, if_true, and_self]
    · simp only [h1, h2, if_true, if_false, and_false]
  · simp only [h1, if_false, false_and]

theorem movePointCore_comm (F : List ℚ → ℚ) (m : ℕ) (i j k : ℕ)
    (domain : VariogramParametersDomain) (L_wMax L_wMin : List ℚ)
    (randSequence : ℕ → ℕ → ℕ → ℚ) (c : List (List ℚ) × ℚ) (hij : i ≠ j) :
    movePointCore F m j k domain L_wMax L_wMin randSequence
        (movePointCore F m i k domain L_wMax L_wMin randSequence c) =
      movePointCore F m i k domain L_wMax L_wMin randSequence
        (movePointCore F m j k domain L_wMax L_wMin randSequence c) := by
  obtain ⟨sp, f⟩ := c
  unfold movePointCore
  simp only
  have e1 : ∀ a : List ℚ, (sp.set i a).getD j [] = sp.getD j [] :=
    fun a => getD_set_ne _ _ _ _ _ hij
  have e2 : ∀ a : List ℚ, (sp.set j a).getD i [] = sp.getD i [] :=
    fun a => getD_set_ne _ _ _ _ _ (Ne.symm hij)
  generalize hci : lineCandidate m i k domain L_wMax L_wMin randSequence (sp.getD i []) = ci
  generalize hcj : lineCandidate m j k domain L_wMax L_wMin randSequence (sp.getD j []) = cj
  by_cases hi : F ci < F (sp.getD i []) <;> by_cases hj : F cj < F (sp.getD j []) <;>
    (simp only [hi, hj, e1, e2, hci, hcj, if_true, if_false, true_and, false_and]
     try
      (refine Prod.ext ?_ ?_ <;> simp only <;>
        first
        | rfl
        | exact List.set_comm _ _ _ (Ne.symm hij)
        | exact List.set_comm _ _ _ hij
        | (split_ifs <;> first | rfl | linarith)))

theorem movePoints_core (F : List ℚ → ℚ) (m : ℕ) (k : ℕ) (domain : VariogramParametersDomain)
    (L_wMax L_wMin : List ℚ) (randSequence : ℕ → ℕ → ℕ → ℚ) (l : List ℕ) :
    ∀ st : LineSearchState,
    ((l.foldl (fun st i => movePointAlongLineForLSRS F m i k domain L_wMax L_wMin
        randSequence st) st).startingPoints,
      (l.foldl (fun st i => movePointAlongLineForLSRS F m i k domain L_wMax L_wMin
        randSequence st) st).fOfBestSolution)
    = l.foldl (fun c i => movePointCore F m i k domain L_wMax L_wMin randSequence c)
        (st.startingPoints, st.fOfBestSolution) := by
  induction l with
  | nil => intro st; rfl
  | cons i rest ih =>
    intro st
    rw [List.foldl_cons, List.foldl_cons, ih, movePoint_core]

theorem lineSearchStep_eq_fold (F : List ℚ → ℚ) (m : ℕ) (k : ℕ)
    (domain : VariogramParametersDomain) (L_wMax L_wMin : List ℚ)
    (randSequence : ℕ → ℕ → ℕ → ℚ) (ranges : List (ℤ × ℤ)) :
    ∀ st : LineSearchState,
    lineSearchStep F m ranges k domain L_wMax L_wMin randSequence st =
      (pointsOfRanges ranges).foldl
        (fun st i => movePointAlongLineForLSRS F m i k domain L_wMax L_wMin randSequence st)
        st := by
  induction ranges with
  | nil => intro st; rfl
  | cons r rest ih =>
    intro st
    have := ih (taskMovePointAlongLineForLSRS F m r.1 r.2 k domain L_wMax L_wMin
      randSequence st)
    unfold lineSearchStep at this ⊢
    rw [List.foldl_cons, this, pointsOfRanges, List.foldl_append]
    rfl

theorem lineSearchStep_perm (F : List ℚ → ℚ) (m : ℕ) (k : ℕ)
    (domain : VariogramParametersDomain) (L_wMax L_wMin : List ℚ)
    (randSequence : ℕ → ℕ → ℕ → ℚ) (ranges1 ranges2 : List (ℤ × ℤ))
    (st : LineSearchState) (h : (pointsOfRanges ranges1).Perm (pointsOfRanges ranges2)) :
    (lineSearchStep F m ranges1 k domain L_wMax L_wMin randSequence st).startingPoints =
      (lineSearchStep F m ranges2 k domain L_wMax L_wMin randSequence st).startingPoints ∧
    (lineSearchStep F m ranges1 k domain L_wMax L_wMin randSequence st).fOfBestSolution =
      (lineSearchStep F m ranges2 k domain L_wMax L_wMin randSequence st).fOfBestSolution := by
  have key := List.Perm.foldl_eq' h
    (f := fun c i => movePointCore F m i k domain L_wMax L_wMin randSequence c)
    (fun x _ y _ z => by
      by_cases hxy : x = y
      · subst hxy; rfl
      · exact movePointCore_comm F m x y k domain L_wMax L_wMin randSequence z hxy)
    (st.startingPoints, st.fOfBestSolution)
  rw [← movePoints_core, ← movePoints_core, ← lineSearchStep_eq_fold,
    ← lineSearchStep_eq_fold] at key
  exact ⟨congrArg Prod.fst key, congrArg Prod.snd key⟩

theorem lineSearchStep_congr (F : List ℚ → ℚ) (m : ℕ) (k : ℕ)
    (domain : VariogramParametersDomain) (L_wMax L_wMin : List ℚ)
    (randSequence : ℕ → ℕ → ℕ → ℚ) (ranges1 ranges2 : List (ℤ × ℤ))
    (h : pointsOfRanges ranges1 = pointsOfRanges ranges2) (st : LineSearchState) :
    lineSearchStep F m ranges1 k domain L_wMax L_wMin randSequence st =
      lineSearchStep F m ranges2 k domain L_wMax L_wMin randSequence st := by
  rw [lineSearchStep_eq_fold, lineSearchStep_eq_fold, h]

theorem lineSearchSteps_congr (F : List ℚ → ℚ) (m : ℕ) (domain : VariogramParametersDomain)
    (L_wMax L_wMin : List ℚ) (randSequence : ℕ → ℕ → ℕ → ℚ) (ranges1 ranges2 : List (ℤ × ℤ))
    (h : pointsOfRanges ranges1 = pointsOfRanges ranges2) (remaining : ℕ) :
    ∀ (k : ℕ) (st : LineSearchState × List ℚ),
    lineSearchSteps F m ranges1 domain L_wMax L_wMin randSequence remaining k st =
      lineSearchSteps F m ranges2 domain L_wMax L_wMin randSequence remaining k st := by
  induction remaining with
  | zero => intro k st; rfl
  | succ n ih =>
    intro k st
    unfold lineSearchSteps
    simp only
    rw [lineSearchStep_congr F m k domain L_wMax L_wMin randSequence ranges1 ranges2 h, ih]

theorem processWithLSRS_congr (F : List ℚ → ℚ) (g : DomainInputs) (rnd : ℕ → ℕ)
    (m maxNumberOfOptimizationSteps : ℤ) (epsilon : ℚ) (nStartingPoints nRestarts : ℤ)
    (ranges1 ranges2 : List (ℤ × ℤ)) (h : pointsOfRanges ranges1 = pointsOfRanges ranges2) :
    processWithLSRS F g ranges1 rnd m maxNumberOfOptimizationSteps epsilon nStartingPoints
        nRestarts =
      processWithLSRS F g ranges2 rnd m maxNumberOfOptimizationSteps epsilon nStartingPoints
        nRestarts := by
  have hr : ∀ (domain : VariogramParametersDomain) (vwSize steps : ℕ) (nsp : ℕ)
      (st : RestartState),
      lineSearchRestart F rnd m.toNat ranges1 domain vwSize steps epsilon nsp st =
        lineSearchRestart F rnd m.toNat ranges2 domain vwSize steps epsilon nsp st := by
    intro domain vwSize steps nsp st
    unfold lineSearchRestart
    simp only [lineSearchSteps_congr F m.toNat domain _ _ _ ranges1 ranges2 h]
  unfold processWithLSRS
  simp only [hr]

/-- C7: the line search does not depend on how, or in which order, the point indexes are
distributed among the worker threads.  Within a step, two distributions that give every
point index to the workers the same number of times leave the same starting points and the
same `fOfBestSolution`; and with a single starting point (index `0` handed to exactly one
worker, for any number of workers and of restarts, `nRestarts = 1` included) `processWithLSRS`
returns the same structures and the same collected values. -/
theorem processWithLSRS_independent_of_threads (F : List ℚ → ℚ) (g : DomainInputs)
    (rnd : ℕ → ℕ) (m maxNumberOfOptimizationSteps : ℤ) (epsilon : ℚ) (nRestarts : ℤ)
    (ranges1 ranges2 : List (ℤ × ℤ)) :
    (∀ (mm k : ℕ) (domain : VariogramParametersDomain) (L_wMax L_wMin : List ℚ)
        (randSequence : ℕ → ℕ → ℕ → ℚ) (st : LineSearchState),
      (pointsOfRanges ranges1).Perm (pointsOfRanges ranges2) →
      (lineSearchStep F mm ranges1 k domain L_wMax L_wMin randSequence st).startingPoints =
        (lineSearchStep F mm ranges2 k domain L_wMax L_wMin randSequence st).startingPoints ∧
      (lineSearchStep F mm ranges1 k domain L_wMax L_wMin randSequence st).fOfBestSolution =
        (lineSearchStep F mm ranges2 k domain L_wMax L_wMin randSequence st).fOfBestSolution) ∧
    ((pointsOfRanges ranges1).Perm [0] → (pointsOfRanges ranges2).Perm [0] →
      processWithLSRS F g ranges1 rnd m maxNumberOfOptimizationSteps epsilon 1 nRestarts =
        processWithLSRS F g ranges2 rnd m maxNumberOfOptimizationSteps epsilon 1 nRestarts) := by
  refine ⟨fun mm k domain L_wMax L_wMin randSequence st h =>
    lineSearchStep_perm F mm k domain L_wMax L_wMin randSequence ranges1 ranges2 st h, ?_⟩
  intro h1 h2
  apply processWithLSRS_congr
  rw [List.perm_singleton.mp h1, List.perm_singleton.mp h2]

theorem processWithLSRS_independent_of_threads_witness :
    processWithLSRS (fun v => v.sum) ⟨1, 1, 10, 355 / 113, 100⟩ [(0, 0)] (fun n => n) 1 3
        (1 / 100) 1 1 =
      processWithLSRS (fun v => v.sum) ⟨1, 1, 10, 355 / 113, 100⟩ [(0, -1), (0, 0), (1, 0)]
        (fun n => n) 1 3 (1 / 100) 1 1 :=
  (processWithLSRS_independent_of_threads (fun v => v.sum) ⟨1, 1, 10, 355 / 113, 100⟩
    (fun n => n) 1 3 (1 / 100) 1 [(0, 0)] [(0, -1), (0, 0), (1, 0)]).2
    (by decide) (by decide)

/-! ## The step schedule of the line search -/

theorem alphaReduction_vw (F : List ℚ → ℚ) (L_wMin L_wMax gradient : List ℚ) (budget a : ℚ)
    (vw : List ℚ) (remaining : ℕ) :
    ∀ (i : ℕ) (cF nF : ℚ) (w : Bool),
      (∀ j : ℕ, (j : ℚ) < budget ↔ j < i + remaining) →
      ((∀ j : ℕ, i ≤ j → (j : ℚ) < budget →
          ¬ F (descentCandidate L_wMin L_wMax vw gradient (a / 2 ^ j)) < F vw) →
        (alphaReduction F L_wMin L_wMax gradient budget remaining i (a / 2 ^ i)
          ⟨vw, cF, nF, w⟩).vw = vw) ∧
      (∀ j : ℕ, i ≤ j → (j : ℚ) < budget →
        F (descentCandidate L_wMin L_wMax vw gradient (a / 2 ^ j)) < F vw →
        (∀ j2 : ℕ, i ≤ j2 → j2 < j →
          ¬ F (descentCandidate L_wMin L_wMax vw gradient (a / 2 ^ j2)) < F vw) →
        (alphaReduction F L_wMin L_wMax gradient budget remaining i (a / 2 ^ i)
          ⟨vw, cF, nF, w⟩).vw = descentCandidate L_wMin L_wMax vw gradient (a / 2 ^ j)) := by
  induction remaining with
  | zero =>
    intro i cF nF w hb
    refine ⟨fun _ => rfl, fun j hij hj _ _ => ?_⟩
    have := (hb j).mp hj
    omega
  | succ n ih =>
    intro i cF nF w hb
    have hi : (i : ℚ) < budget := (hb i).mpr (by omega)
    have hstep : a / 2 ^ i / 2 = a / 2 ^ (i + 1) := by
      rw [pow_succ, div_div]
    have hb2 : ∀ j : ℕ, (j : ℚ) < budget ↔ j < (i + 1) + n := by
      intro j; rw [hb j]; omega
    obtain ⟨ih1, ih2⟩ := ih (i + 1) (F vw)
      (F (descentCandidate L_wMin L_wMax vw gradient (a / 2 ^ i))) false hb2
    constructor
    · intro hnone
      unfold alphaReduction
      simp only [hi, if_true]
      have h0 := hnone i (le_refl _) hi
      unfold descentCandidate at h0
      simp only [h0, if_false, hstep]
      exact ih1 (fun j hj hjb => hnone j (by omega) hjb)
    · intro j hij hj himp hleast
      unfold alphaReduction
      simp only [hi, if_true]
      by_cases hji : j = i
      · subst hji
        unfold descentCandidate at himp ⊢
        simp only [himp, if_true]
      · have h0 := hleast i (le_refl _) (by omega)
        unfold descentCandidate at h0
        simp only [h0, if_false, hstep]
        exact ih2 j (by omega) hj himp (fun j2 h1 h2 => hleast j2 (by omega) h2)

theorem lt_budget_iff (budget : ℚ) (j : ℕ) : (j : ℚ) < budget ↔ j < 0 + ⌈budget⌉.toNat := by
  rw [Nat.zero_add, Int.lt_toNat, Int.lt_ceil]
  norm_cast

/-- C13: in one iteration of the gradient descent with initial step `a` and reduction budget
`R`: when for every step number `j < R` the point `vw - (a / 2^j) * gradient`, with the domain
constraints imposed, does not have a strictly lower objective value than `vw`, the iteration
leaves `vw` unchanged; otherwise `vw` becomes that point for the least `j < R` with a strict
improvement. -/
theorem descentIteration_backtracking (F G : List ℚ → ℚ) (nThreads : ℕ)
    (epsilon initialAlpha maxNumberOfAlphaReductionSteps convergenceCriterion : ℚ)
    (L_wMin L_wMax : List ℚ) (st : DescentState) :
    ((∀ j : ℕ, (j : ℚ) < maxNumberOfAlphaReductionSteps →
        ¬ F (descentCandidate L_wMin L_wMax st.vw
            (computeGradient G nThreads st.vw epsilon) (initialAlpha / 2 ^ j)) < F st.vw) →
      (descentIteration F G nThreads epsilon initialAlpha maxNumberOfAlphaReductionSteps
        convergenceCriterion L_wMin L_wMax st).vw = st.vw) ∧
    (∀ j : ℕ, (j : ℚ) < maxNumberOfAlphaReductionSteps →
      F (descentCandidate L_wMin L_wMax st.vw
          (computeGradient G nThreads st.vw epsilon) (initialAlpha / 2 ^ j)) < F st.vw →
      (∀ j2 : ℕ, j2 < j →
        ¬ F (descentCandidate L_wMin L_wMax st.vw
            (computeGradient G nThreads st.vw epsilon) (initialAlpha / 2 ^ j2)) < F st.vw) →
      (descentIteration F G nThreads epsilon initialAlpha maxNumberOfAlphaReductionSteps
        convergenceCriterion L_wMin L_wMax st).vw =
        descentCandidate L_wMin L_wMax st.vw (computeGradient G nThreads st.vw epsilon)
          (initialAlpha / 2 ^ j)) := by
  have key := alphaReduction_vw F L_wMin L_wMax (computeGradient G nThreads st.vw epsilon)
    maxNumberOfAlphaReductionSteps initialAlpha st.vw ⌈maxNumberOfAlphaReductionSteps⌉.toNat
    0 DBL_MAX 1 false (lt_budget_iff maxNumberOfAlphaReductionSteps)
  simp only [pow_zero, div_one] at key
  unfold descentIteration
  simp only
  exact ⟨fun h => key.1 (fun j _ hj => h j hj),
    fun j hj himp hleast => key.2 j (Nat.zero_le _) hj himp (fun j2 _ h2 => hleast j2 h2)⟩

theorem computeGradient_example :
    computeGradient (fun v => (v.map (fun x => x * x)).sum) 1 [1] (1 / 100) = [2] := by
  norm_num [computeGradient, parameterIndexBins, taskOnePartialDerivative, List.range_succ,
    List.replicate, List.modify, List.modifyHead]

theorem descentIteration_backtracking_witness :
    (descentIteration (fun v => (v.map (fun x => x * x)).sum)
      (fun v => (v.map (fun x => x * x)).sum) 1 (1 / 100) 1 3 (1 / 1000) [-5] [5]
      ⟨[1], [], false⟩).vw =
      descentCandidate [-5] [5] [1]
        (computeGradient (fun v => (v.map (fun x => x * x)).sum) 1 [1] (1 / 100))
        (1 / 2 ^ 1) := by
  refine (descentIteration_backtracking (fun v => (v.map (fun x => x * x)).sum)
    (fun v => (v.map (fun x => x * x)).sum) 1 (1 / 100) 1 3 (1 / 1000) [-5] [5]
    ⟨[1], [], false⟩).2 1 (by norm_num) ?_ ?_
  · rw [computeGradient_example]
    norm_num [descentCandidate, imposeDomain, List.range_succ]
  · intro j2 hj2
    have : j2 = 0 := by omega
    subst this
    rw [computeGradient_example]
    norm_num [descentCandidate, imposeDomain, List.range_succ]

/-! ## The gradient computed by the worker tasks -/

theorem parameterIndexBins_spec (nThreads : ℕ) (n : ℕ) :
    (parameterIndexBins nThreads n).length = nThreads ∧
    ∀ b, b < nThreads →
      (parameterIndexBins nThreads n)[b]? =
        some ((List.range n).filter (fun i => decide (i % nThreads = b))) := by
  induction n with
  | zero =>
    refine ⟨by simp [parameterIndexBins], fun b hb => ?_⟩
    simp [parameterIndexBins, List.getElem?_replicate, hb]
  | succ n ih =>
    obtain ⟨hlen, hget⟩ := ih
    have hstep : parameterIndexBins nThreads (n + 1) =
        (parameterIndexBins nThreads n).modify (fun bin => bin ++ [n]) (n % nThreads) := by
      simp only [parameterIndexBins, List.range_succ, List.foldl_append, List.foldl_cons,
        List.foldl_nil]
    rw [hstep]
    refine ⟨by simp [hlen], fun b hb => ?_⟩
    rw [List.getElem?_modify, hget b hb, List.range_succ, List.filter_append]
    by_cases h : n % nThreads = b
    · simp [h]
    · simp [h]

theorem foldl_set_spec (val : ℕ → ℚ) (l : List ℕ) :
    ∀ g : List ℚ,
      (l.foldl (fun g i => g.set i (val i)) g).length = g.length ∧
      ∀ i, i < g.length →
        (l.foldl (fun g i => g.set i (val i)) g).getD i 0 =
          if i ∈ l then val i else g.getD i 0 := by
  induction l with
  | nil => intro g; simp
  | cons a rest ih =>
    intro g
    obtain ⟨h1, h2⟩ := ih (g.set a (val a))
    rw [List.foldl_cons]
    refine ⟨by rw [h1]; simp, fun i hi => ?_⟩
    rw [h2 i (by simpa using hi)]
    by_cases hir : i ∈ rest
    · simp [hir]
    · by_cases hia : i = a
      · subst hia
        simp only [hir, if_false, List.mem_cons, true_or, if_true]
        exact getD_set_eq _ _ _ _ hi
      · simp only [hir, if_false, List.mem_cons, hia, false_or]
        exact getD_set_ne _ _ _ _ _ (Ne.symm hia)

theorem foldl_tasks_eq (val : ℕ → ℚ) (bins : List (List ℕ)) :
    ∀ g : List ℚ,
      bins.foldl (fun g bin => bin.foldl (fun g i => g.set i (val i)) g) g =
        bins.flatten.foldl (fun g i => g.set i (val i)) g := by
  induction bins with
  | nil => intro g; rfl
  | cons b rest ih => intro g; rw [List.foldl_cons, ih, List.flatten_cons, List.foldl_append]

/-- C14: for every number of threads `nThreads >= 1` and every parameter vector `p`, after
the gradient block of one descent iteration every component `i` of the gradient equals
`(F(p + eps*e_i) - F(p - eps*e_i)) / (2*eps)`, `F` being the objective function as the tasks
call it; the round-robin binning makes `nThreads` bins, bin `b` holding exactly the indexes
`i` with `i mod nThreads = b`, each once; and a task writes only the components of its bin. -/
theorem computeGradient_central_differences (G : List ℚ → ℚ) (nThreads : ℕ) (vw : List ℚ)
    (epsilon : ℚ) (hn : 1 ≤ nThreads) :
    (computeGradient G nThreads vw epsilon).length = vw.length ∧
    (∀ i, i < vw.length →
      (computeGradient G nThreads vw epsilon).getD i 0 =
        (G (vw.set i (vw.getD i 0 + epsilon)) - G (vw.set i (vw.getD i 0 - epsilon))) /
          (2 * epsilon)) ∧
    (parameterIndexBins nThreads vw.length).length = nThreads ∧
    (∀ b, b < nThreads →
      (parameterIndexBins nThreads vw.length).getD b [] =
        (List.range vw.length).filter (fun i => decide (i % nThreads = b))) ∧
    (∀ (bin : List ℕ) (gradient : List ℚ) (i : ℕ), i ∉ bin →
      (taskOnePartialDerivative G vw bin epsilon gradient).getD i 0 = gradient.getD i 0) := by
  obtain ⟨hlen, hget⟩ := parameterIndexBins_spec nThreads vw.length
  have hfold := foldl_set_spec
    (fun i => (G (vw.set i (vw.getD i 0 + epsilon)) - G (vw.set i (vw.getD i 0 - epsilon))) /
      (2 * epsilon))
  have hcg : computeGradient G nThreads vw epsilon =
      (parameterIndexBins nThreads vw.length).flatten.foldl
        (fun g i => g.set i ((G (vw.set i (vw.getD i 0 + epsilon)) -
          G (vw.set i (vw.getD i 0 - epsilon))) / (2 * epsilon)))
        (List.replicate vw.length 0) := by
    unfold computeGradient taskOnePartialDerivative
    exact foldl_tasks_eq _ _ _
  refine ⟨?_, ?_, hlen, ?_, ?_⟩
  · rw [hcg, (hfold _ _).1]; simp
  · intro i hi
    rw [hcg, (hfold _ _).2 i (by simpa using hi)]
    have hb : i % nThreads < nThreads := Nat.mod_lt _ (by omega)
    have hmem : i ∈ (parameterIndexBins nThreads vw.length).flatten := by
      rw [List.mem_flatten]
      refine ⟨_, List.getElem?_mem (hget _ hb), ?_⟩
      simp [hi]
    simp only [hmem, if_true]
  · intro b hb
    rw [List.getD_eq_getElem?_getD, hget b hb]
    rfl
  · intro bin gradient i hi
    unfold taskOnePartialDerivative
    by_cases hlt : i < gradient.length
    · rw [(hfold bin gradient).2 i hlt]
      simp only [hi, if_false]
    · rw [List.getD_eq_default _ _ (by rw [(hfold bin gradient).1]; omega),
        List.getD_eq_default _ _ (by omega)]

theorem computeGradient_central_differences_witness :
    (computeGradient (fun v => (v.map (fun x => x * x)).sum) 3 [1, 2, 3, 4] (1 / 100)).getD 3 0
      = ((fun v : List ℚ => (v.map (fun x => x * x)).sum)
            (([1, 2, 3, 4] : List ℚ).set 3 (([1, 2, 3, 4] : List ℚ).getD 3 0 + 1 / 100)) -
          (fun v : List ℚ => (v.map (fun x => x * x)).sum)
            (([1, 2, 3, 4] : List ℚ).set 3 (([1, 2, 3, 4] : List ℚ).getD 3 0 - 1 / 100))) /
          (2 * (1 / 100)) ∧
    (parameterIndexBins 3 4).getD 0 [] =
      (List.range 4).filter (fun i => decide (i % 3 = 0)) :=
  ⟨(computeGradient_central_differences (fun v => (v.map (fun x => x * x)).sum) 3 [1, 2, 3, 4]
      (1 / 100) (by decide)).2.1 3 (by decide),
   (computeGradient_central_differences (fun v => (v.map (fun x => x * x)).sum) 3 [1, 2, 3, 4]
      (1 / 100) (by decide)).2.2.2.1 0 (by decide)⟩

/-! ## Mutation keeps the genes within the boundaries -/

theorem drawInsideDomain_of_good_draw (rnd : ℕ → ℕ) (fs current delta wMin wMax : ℚ)
    (fuel : ℕ) :
    ∀ c, (∃ j, j < fuel ∧
        wMin ≤ randomWithin (rnd (c + j)) (current - fs * delta) (current + fs * delta) ∧
        randomWithin (rnd (c + j)) (current - fs * delta) (current + fs * delta) ≤ wMax) →
      ∃ x c1, drawInsideDomain rnd fs current delta wMin wMax fuel c = some (x, c1) := by
  induction fuel with
  | zero => rintro c ⟨j, hj, _⟩; exact absurd hj (Nat.not_lt_zero _)
  | succ n ih =>
    rintro c ⟨j, hj, hgood⟩
    unfold drawInsideDomain
    simp only
    split_ifs with h
    · exact ⟨_, _, rfl⟩
    · cases j with
      | zero => exact absurd (by simpa using hgood) h
      | succ j =>
        apply ih (c + 1)
        refine ⟨j, by omega, ?_⟩
        rw [show c + 1 + j = c + (j + 1) by omega]
        exact hgood

theorem drawInsideDomain_fair (rnd : ℕ → ℕ) (fs current wMin wMax : ℚ) (fuel : ℕ)
    (hfair : FairDraws rnd fuel) (hfs0 : 0 ≤ fs) (hfs : fs ≤ 1 / 2)
    (h1 : wMin ≤ current) (h2 : current ≤ wMax) (c : ℕ) :
    ∃ x c1, drawInsideDomain rnd fs current (wMax - wMin) wMin wMax fuel c = some (x, c1) := by
  apply drawInsideDomain_of_good_draw
  have hRM : (0 : ℚ) < RAND_MAX := by norm_num [RAND_MAX]
  have hform : ∀ r : ℕ, randomWithin r (current - fs * (wMax - wMin))
      (current + fs * (wMax - wMin)) =
      current + fs * (wMax - wMin) * ((2 * (r : ℚ) - RAND_MAX) / RAND_MAX) := by
    intro r
    unfold randomWithin
    rw [div_div_eq_mul_div]
    field_simp
    ring
  have hd : 0 ≤ fs * (wMax - wMin) := mul_nonneg hfs0 (by linarith)
  have hd2 : fs * (wMax - wMin) ≤ (wMax - wMin) / 2 := by nlinarith
  obtain ⟨⟨jl, hjl, hlow⟩, ⟨jh, hjh, hhigh, hle⟩⟩ := hfair c
  by_cases hmid : current ≤ (wMin + wMax) / 2
  · refine ⟨jh, hjh, ?_⟩
    rw [hform]
    have t0 : 0 ≤ (2 * (rnd (c + jh) : ℚ) - RAND_MAX) / RAND_MAX :=
      div_nonneg (by linarith) hRM.le
    have t1 : (2 * (rnd (c + jh) : ℚ) - RAND_MAX) / RAND_MAX ≤ 1 := by
      rw [div_le_one hRM]; linarith
    constructor
    · nlinarith [mul_nonneg hd t0]
    · nlinarith [mul_nonneg hd t0, mul_le_mul_of_nonneg_left t1 hd]
  · refine ⟨jl, hjl, ?_⟩
    rw [hform]
    have hr0 : (0 : ℚ) ≤ (rnd (c + jl) : ℚ) := by positivity
    have t0 : (2 * (rnd (c + jl) : ℚ) - RAND_MAX) / RAND_MAX ≤ 0 :=
      div_nonpos_of_nonpos_of_nonneg (by linarith) hRM.le
    have t1 : -1 ≤ (2 * (rnd (c + jl) : ℚ) - RAND_MAX) / RAND_MAX := by
      rw [le_div_iff₀ hRM]; linarith
    have hmid2 : (wMin + wMax) / 2 < current := not_le.mp hmid
    constructor
    · nlinarith [mul_le_mul_of_nonneg_left t1 hd]
    · nlinarith [mul_nonpos_of_nonneg_of_nonpos hd t0]

theorem getD_zipWith_sub (a b : List ℚ) (i : ℕ) (ha : i < a.length) (hb : i < b.length) :
    (List.zipWith (fun x y => x - y) a b).getD i 0 = a.getD i 0 - b.getD i 0 := by
  rw [List.getD_eq_getElem _ _ (by simp; omega), List.getD_eq_getElem _ _ ha,
    List.getD_eq_getElem _ _ hb]
  simp

theorem drawNeighbor_fair (rnd : ℕ → ℕ) (fuel : ℕ) (fs : ℚ)
    (L_wCurrent L_wMin L_wMax : List ℚ) (hfair : FairDraws rnd fuel) (hfs0 : 0 ≤ fs)
    (hfs : fs ≤ 1 / 2) (hmin : L_wMin.length = L_wCurrent.length)
    (hmax : L_wMax.length = L_wCurrent.length)
    (hin : WithinDomain L_wMin L_wMax L_wCurrent) (remaining : ℕ) :
    ∀ (i : ℕ) (L_wNew : List ℚ) (c : ℕ), i + remaining ≤ L_wCurrent.length →
      ∃ out c1, drawNeighbor rnd fuel fs L_wCurrent
        (List.zipWith (fun a b => a - b) L_wMax L_wMin) L_wMin L_wMax remaining i L_wNew c
          = some (out, c1) := by
  induction remaining with
  | zero => intro i L_wNew c _; exact ⟨_, _, rfl⟩
  | succ n ih =>
    intro i L_wNew c hi
    have hi2 : i < L_wCurrent.length := by omega
    obtain ⟨x, c1, hx⟩ := drawInsideDomain_fair rnd fs (L_wCurrent.getD i 0)
      (L_wMin.getD i 0) (L_wMax.getD i 0) fuel hfair hfs0 hfs (hin i hi2).1 (hin i hi2).2 c
    unfold drawNeighbor
    rw [getD_zipWith_sub _ _ _ (by omega) (by omega), hx]
    exact ih (i + 1) _ c1 (by omega)

theorem annealingMove_trace (F : List ℚ → ℚ) (f_Tinitial f_Tfinal f_T : ℚ) (L_wNew : List ℚ)
    (r : ℕ) (st : AnnealingState) :
    (annealingMove F f_Tinitial f_Tfinal f_T L_wNew r st).trace.length = st.trace.length + 1 ∧
    ((annealingMove F f_Tinitial f_Tfinal f_T L_wNew r st).L_wCurrent = L_wNew ∨
      (annealingMove F f_Tinitial f_Tfinal f_T L_wNew r st).L_wCurrent = st.L_wCurrent) := by
  unfold annealingMove
  simp only
  split_ifs <;> simp

theorem annealingLoop_trace (F : List ℚ → ℚ) (exp log10 : ℚ → ℚ) (rnd : ℕ → ℕ) (fuel : ℕ)
    (f_Tinitial f_Tfinal f_factorSearch : ℚ) (L_wMin L_wMax : List ℚ) (remaining : ℕ) :
    ∀ (k : ℕ) (st st1 : AnnealingState),
      annealingLoop F exp log10 rnd fuel f_Tinitial f_Tfinal f_factorSearch L_wMin L_wMax
        remaining k st = some st1 →
      st1.trace.length = st.trace.length + remaining := by
  induction remaining with
  | zero =>
    intro k st st1 hs
    simp only [annealingLoop, Option.some.injEq] at hs
    rw [← hs]; rfl
  | succ n ih =>
    intro k st st1 hs
    unfold annealingLoop at hs
    split at hs
    · exact absurd hs (by simp)
    · rename_i st2 hstep
      rw [ih _ _ _ hs]
      unfold annealingStep at hstep
      simp only at hstep
      split at hstep
      · exact absurd hstep (by simp)
      · simp only [Option.some.injEq] at hstep
        rw [← hstep, (annealingMove_trace _ _ _ _ _ _ _).1]
        simp only
        omega

theorem annealingLoop_fair (F : List ℚ → ℚ) (exp log10 : ℚ → ℚ) (rnd : ℕ → ℕ) (fuel : ℕ)
    (f_Tinitial f_Tfinal fs : ℚ) (L_wMin L_wMax : List ℚ) (hfair : FairDraws rnd fuel)
    (hfs0 : 0 ≤ fs) (hfs : fs ≤ 1 / 2) (hlen : L_wMin.length = L_wMax.length)
    (remaining : ℕ) :
    ∀ (k : ℕ) (st : AnnealingState), st.L_wCurrent.length = L_wMin.length →
      WithinDomain L_wMin L_wMax st.L_wCurrent →
      ∃ st1, annealingLoop F exp log10 rnd fuel f_Tinitial f_Tfinal fs L_wMin L_wMax
        remaining k st = some st1 := by
  induction remaining with
  | zero => intro k st _ _; exact ⟨st, rfl⟩
  | succ n ih =>
    intro k st hl hin
    obtain ⟨out, c1, hdraw⟩ := drawNeighbor_fair rnd fuel fs st.L_wCurrent L_wMin L_wMax
      hfair hfs0 hfs hl.symm (by omega) hin st.L_wCurrent.length 0 st.L_wCurrent st.cursor
      (by omega)
    have hn := drawNeighbor_within rnd fuel fs st.L_wCurrent _ L_wMin L_wMax
      st.L_wCurrent.length 0 st.L_wCurrent st.cursor out c1 (by omega)
      (fun j hj => absurd hj (Nat.not_lt_zero _)) hdraw
    unfold annealingLoop
    simp only [annealingStep, hdraw]
    apply ih
    · rcases (annealingMove_trace F f_Tinitial f_Tfinal (temperature exp log10 f_Tinitial k)
        out (rnd c1) { st with cursor := c1 + 1 }).2 with h | h
      · rw [h, hn.1, hl]
      · rw [h]; exact hl
    · rcases (annealingMove_trace F f_Tinitial f_Tfinal (temperature exp log10 f_Tinitial k)
        out (rnd c1) { st with cursor := c1 + 1 }).2 with h | h
      · rw [h]
        intro i hi
        rw [hn.1] at hi
        exact hn.2 i (by omega)
      · rw [h]; exact hin

/-- C12: for every `i_kmax >= 0` and every `f_Tinitial` and `f_Tfinal`, the annealing loop
executes exactly `i_kmax` steps and appends exactly `i_kmax` values to the collected values,
whatever the temperatures are: whenever the loop ends, it has collected `i_kmax` values; and
it does end when the initial parameters lie within the domain, the search factor is between
`0` and `0.5` and the random sequence keeps offering draws in both halves of `[0, RAND_MAX]`
(so that every `while( true )` drawing a parameter of the neighbour comes to an end). -/
theorem simulatedAnnealing_full_budget (F : List ℚ → ℚ) (exp log10 : ℚ → ℚ) (rnd : ℕ → ℕ)
    (fuel : ℕ) (f_Tinitial f_Tfinal : ℚ) (i_kmax : ℤ) (f_factorSearch : ℚ)
    (vw L_wMin L_wMax : List ℚ) :
    (∀ sa, simulatedAnnealing F exp log10 rnd fuel f_Tinitial f_Tfinal i_kmax f_factorSearch
        vw L_wMin L_wMax = some sa → sa.trace.length = i_kmax.toNat) ∧
    (FairDraws rnd fuel → 0 ≤ f_factorSearch → f_factorSearch ≤ 1 / 2 →
      L_wMin.length = vw.length → L_wMax.length = vw.length →
      WithinDomain L_wMin L_wMax vw →
      ∃ sa, simulatedAnnealing F exp log10 rnd fuel f_Tinitial f_Tfinal i_kmax f_factorSearch
        vw L_wMin L_wMax = some sa ∧ sa.trace.length = i_kmax.toNat) := by
  have h1 : ∀ sa, simulatedAnnealing F exp log10 rnd fuel f_Tinitial f_Tfinal i_kmax
      f_factorSearch vw L_wMin L_wMax = some sa → sa.trace.length = i_kmax.toNat := by
    intro sa hsa
    have := annealingLoop_trace F exp log10 rnd fuel f_Tinitial f_Tfinal f_factorSearch
      L_wMin L_wMax i_kmax.toNat 0 _ sa hsa
    simpa using this
  refine ⟨h1, fun hfair hfs0 hfs hmin hmax hin => ?_⟩
  obtain ⟨sa, hsa⟩ := annealingLoop_fair F exp log10 rnd fuel f_Tinitial f_Tfinal
    f_factorSearch L_wMin L_wMax hfair hfs0 hfs (by omega) i_kmax.toNat 0
    ⟨vw, DBL_MAX, DBL_MAX, [], [], 0⟩ hmin.symm hin
  exact ⟨sa, hsa, h1 sa hsa⟩

theorem alternatingDraws_fair : FairDraws alternatingDraws 2 := by
  intro c
  rcases Nat.mod_two_eq_zero_or_one c with h | h
  · refine ⟨⟨0, by norm_num, ?_⟩, ⟨1, by norm_num, ?_⟩⟩
    · simp [alternatingDraws, h, RAND_MAX]
    · have : (c + 1) % 2 = 1 := by omega
      simp [alternatingDraws, this, RAND_MAX]
  · refine ⟨⟨1, by norm_num, ?_⟩, ⟨0, by norm_num, ?_⟩⟩
    · have : (c + 1) % 2 = 0 := by omega
      simp [alternatingDraws, this, RAND_MAX]
    · simp [alternatingDraws, h, RAND_MAX]

theorem simulatedAnnealing_full_budget_witness :
    FairDraws alternatingDraws 2 ∧
    temperature (fun x => 1 + x) (fun _ => 2) 1 0 < 100 ∧
    ∃ sa, simulatedAnnealing (fun v => v.sum) (fun x => 1 + x) (fun _ => 2) alternatingDraws 2
      1 100 3 (1 / 4) [1 / 2] [0] [1] = some sa ∧ sa.trace.length = (3 : ℤ).toNat :=
  ⟨alternatingDraws_fair, by norm_num [temperature],
    (simulatedAnnealing_full_budget (fun v => v.sum) (fun x => 1 + x) (fun _ => 2)
      alternatingDraws 2 1 100 3 (1 / 4) [1 / 2] [0] [1]).2 alternatingDraws_fair
      (by norm_num) (by norm_num) rfl rfl
      (by intro i hi; cases i <;> simp at hi ⊢; norm_num)⟩

/-! ## The state of lowest energy handed over by the annealing -/

/-- One annealing move either accepts the neighbour, and then the record low is the lower of
the previous record and the energy of the neighbour, or it does not, and then the record is
left as it was, whatever the energy of the neighbour. -/
theorem annealingMove_record (F : List ℚ → ℚ) (f_Tinitial f_Tfinal f_T : ℚ) (L_wNew : List ℚ)
    (r : ℕ) (st : AnnealingState) :
    (probAcceptance f_Tinitial f_Tfinal (F st.L_wCurrent) (F L_wNew) f_T ≥ (r : ℚ) / RAND_MAX ∧
      (annealingMove F f_Tinitial f_Tfinal f_T L_wNew r st).L_wCurrent = L_wNew ∧
      (annealingMove F f_Tinitial f_Tfinal f_T L_wNew r st).f_lowestEnergyFound
        = min st.f_lowestEnergyFound (F L_wNew)) ∨
    (probAcceptance f_Tinitial f_Tfinal (F st.L_wCurrent) (F L_wNew) f_T < (r : ℚ) / RAND_MAX ∧
      (annealingMove F f_Tinitial f_Tfinal f_T L_wNew r st).L_wCurrent = st.L_wCurrent ∧
      (annealingMove F f_Tinitial f_Tfinal f_T L_wNew r st).f_lowestEnergyFound
        = st.f_lowestEnergyFound ∧
      (annealingMove F f_Tinitial f_Tfinal f_T L_wNew r st).L_wOfLowestEnergyFound
        = st.L_wOfLowestEnergyFound) := by
  unfold annealingMove
  simp only
  by_cases h : probAcceptance f_Tinitial f_Tfinal (F st.L_wCurrent) (F L_wNew) f_T
      ≥ (r : ℚ) / RAND_MAX
  · left
    rw [if_pos h]
    refine ⟨h, ?_, ?_⟩
    · split_ifs <;> rfl
    · split_ifs with h2
      · exact (min_eq_right (le_of_lt h2)).symm
      · exact (min_eq_left (not_lt.mp h2)).symm
  · right
    rw [if_neg h]
    exact ⟨not_le.mp h, rfl, rfl, rfl⟩

/-- C11, the code at a failing input, a whole annealing of two steps: domain
`L_wMin = [1, 0.001, 0, 1]`, `L_wMax = [5, 1, 355/113, 100]`, initial parameters
`[3, 0.5005, 355/226, 99]`, `f_Tinitial = 100`, `f_Tfinal = 1`, `i_kmax = 2`,
`f_factorSearch = 0.1`, an objective with `F(v) = (v[0] - 2)^2`, and the draws
`RAND_MAX, 0, 0, 0` (neighbour of step `0`), `RAND_MAX` (its acceptance), `0, 0, 0, 0`
(neighbour of step `1`), `RAND_MAX` (its acceptance).  The neighbour proposed at step `0`,
`[3.4, 0.4006, 142/113, 89.1]` of energy `1.96`, is accepted and recorded; the neighbour
proposed at step `1`, `[3, 0.3007, 213/226, 79.2]` of energy `1`, lower than the energy of
the current state, gets from `probAcceptance` a probability below `1`, is not accepted and,
the record being kept on acceptance only, not recorded; the annealing hands over the
neighbour of step `0`, which is not the proposed neighbour of lowest energy (for every `exp`
with `exp 0 = 1` and `exp (-0.003) > 0.01`, as the exponential has, and every `log10` with
`log10 100 = 2`). -/
theorem simulatedAnnealing_misses_lowest_neighbor :
    drawNeighbor (fun n => if n = 0 ∨ n = 4 ∨ n = 9 then 2147483647 else 0) 3 (1 / 10)
        [3, 1001 / 2000, 355 / 226, 99]
        (List.zipWith (fun a b => a - b) [5, 1, 355 / 113, 100] [1, 1 / 1000, 0, 1])
        [1, 1 / 1000, 0, 1] [5, 1, 355 / 113, 100] 4 0 [3, 1001 / 2000, 355 / 226, 99] 0 =
      some ([17 / 5, 2003 / 5000, 142 / 113, 891 / 10], 4) ∧
    drawNeighbor (fun n => if n = 0 ∨ n = 4 ∨ n = 9 then 2147483647 else 0) 3 (1 / 10)
        [17 / 5, 2003 / 5000, 142 / 113, 891 / 10]
        (List.zipWith (fun a b => a - b) [5, 1, 355 / 113, 100] [1, 1 / 1000, 0, 1])
        [1, 1 / 1000, 0, 1] [5, 1, 355 / 113, 100] 4 0
        [17 / 5, 2003 / 5000, 142 / 113, 891 / 10] 5 =
      some ([3, 3007 / 10000, 213 / 226, 396 / 5], 9) ∧
    (fun v : List ℚ => (v.getD 0 0 - 2) ^ 2) [3, 3007 / 10000, 213 / 226, 396 / 5] <
      (fun v : List ℚ => (v.getD 0 0 - 2) ^ 2) [17 / 5, 2003 / 5000, 142 / 113, 891 / 10] ∧
    (∀ exp log10 : ℚ → ℚ, exp 0 = 1 → log10 100 = 2 → 1 / 100 < exp (-3 / 1000) →
      (simulatedAnnealing (fun v => (v.getD 0 0 - 2) ^ 2) exp log10
        (fun n => if n = 0 ∨ n = 4 ∨ n = 9 then 2147483647 else 0) 3 100 1 2 (1 / 10)
        [3, 1001 / 2000, 355 / 226, 99] [1, 1 / 1000, 0, 1] [5, 1, 355 / 113, 100]).map
          (fun s => (s.L_wOfLowestEnergyFound, s.f_lowestEnergyFound, s.trace)) =
      some ([17 / 5, 2003 / 5000, 142 / 113, 891 / 10], 49 / 25, [1, 49 / 25])) := by
  refine ⟨?_, ?_, ?_, ?_⟩
  · norm_num [drawNeighbor, drawInsideDomain, randomWithin, RAND_MAX]
  · norm_num [drawNeighbor, drawInsideDomain, randomWithin, RAND_MAX]
  · norm_num
  · intro exp log10 h0 hlog hexp
    have h2 : (2 : ℤ).toNat = 2 := rfl
    norm_num [simulatedAnnealing, annealingLoop, annealingStep, drawNeighbor, drawInsideDomain,
      randomWithin, annealingMove, probAcceptance, temperature, RAND_MAX, DBL_MAX, h0, hlog, h2]
    have hpos : ¬ (100 * exp (-(3 / 1000)) - 1) / 99 ≤ 0 := by
      rw [not_le]
      have : exp (-(3 / 1000)) = exp (-3 / 1000) := by norm_num
      rw [this]
      apply div_pos _ (by norm_num)
      linarith
    simp only [if_neg hpos, and_self]

theorem annealingMove_lowest (F : List ℚ → ℚ) (f_Tinitial f_Tfinal f_T : ℚ) (L_wNew : List ℚ)
    (r : ℕ) (st : AnnealingState) :
    (probAcceptance f_Tinitial f_Tfinal (F st.L_wCurrent) (F L_wNew) f_T ≥ (r : ℚ) / RAND_MAX ∧
      F L_wNew < st.f_lowestEnergyFound ∧
      (annealingMove F f_Tinitial f_Tfinal f_T L_wNew r st).f_lowestEnergyFound = F L_wNew ∧
      (annealingMove F f_Tinitial f_Tfinal f_T L_wNew r st).L_wOfLowestEnergyFound = L_wNew) ∨
    (probAcceptance f_Tinitial f_Tfinal (F st.L_wCurrent) (F L_wNew) f_T ≥ (r : ℚ) / RAND_MAX ∧
      st.f_lowestEnergyFound ≤ F L_wNew ∧
      (annealingMove F f_Tinitial f_Tfinal f_T L_wNew r st).f_lowestEnergyFound
        = st.f_lowestEnergyFound ∧
      (annealingMove F f_Tinitial f_Tfinal f_T L_wNew r st).L_wOfLowestEnergyFound
        = st.L_wOfLowestEnergyFound) ∨
    (¬ probAcceptance f_Tinitial f_Tfinal (F st.L_wCurrent) (F L_wNew) f_T ≥ (r : ℚ) / RAND_MAX ∧
      (annealingMove F f_Tinitial f_Tfinal f_T L_wNew r st).f_lowestEnergyFound
        = st.f_lowestEnergyFound ∧
      (annealingMove F f_Tinitial f_Tfinal f_T L_wNew r st).L_wOfLowestEnergyFound
        = st.L_wOfLowestEnergyFound) := by
  unfold annealingMove
  simp only
  split_ifs with h1 h2
  · exact Or.inl ⟨h1, h2, rfl, rfl⟩
  · exact Or.inr (Or.inl ⟨h1, not_lt.mp h2, rfl, rfl⟩)
  · exact Or.inr (Or.inr ⟨h1, rfl, rfl⟩)

theorem annealingLoop_lowest (F : List ℚ → ℚ) (exp log10 : ℚ → ℚ) (rnd : ℕ → ℕ) (fuel : ℕ)
    (f_Tinitial f_Tfinal f_factorSearch : ℚ) (L_wMin L_wMax : List ℚ) (remaining : ℕ) :
    ∀ (k : ℕ) (st sa : AnnealingState),
      annealingLoop F exp log10 rnd fuel f_Tinitial f_Tfinal f_factorSearch L_wMin L_wMax
        remaining k st = some sa →
      ∃ proposals, annealingProposals F exp log10 rnd fuel f_Tinitial f_Tfinal f_factorSearch
          L_wMin L_wMax remaining k st = some proposals ∧
        sa.f_lowestEnergyFound ≤ st.f_lowestEnergyFound ∧
        (∀ p, p ∈ proposals → p.2 = true → sa.f_lowestEnergyFound ≤ F p.1) ∧
        ((sa.f_lowestEnergyFound = st.f_lowestEnergyFound ∧
            sa.L_wOfLowestEnergyFound = st.L_wOfLowestEnergyFound) ∨
          ((sa.L_wOfLowestEnergyFound, true) ∈ proposals ∧
            F sa.L_wOfLowestEnergyFound = sa.f_lowestEnergyFound)) := by
  induction remaining with
  | zero =>
    intro k st sa h
    simp only [annealingLoop, Option.some.injEq] at h
    subst h
    exact ⟨[], rfl, le_refl _, fun p hp => absurd hp (List.not_mem_nil _), Or.inl ⟨rfl, rfl⟩⟩
  | succ n ih =>
    intro k st sa h
    unfold annealingLoop at h
    unfold annealingStep at h
    simp only at h
    unfold annealingProposals
    split at h
    · exact absurd h (by simp)
    · rename_i st1 hstep
      split at hstep
      · exact absurd hstep (by simp)
      · rename_i L_wNew c1 hdraw
        simp only [Option.some.injEq] at hstep
        subst hstep
        obtain ⟨rest, hrest, hle, hacc, hrec⟩ := ih _ _ _ h
        simp only [hdraw, hrest]
        refine ⟨_, rfl, ?_, ?_, ?_⟩
        · rcases annealingMove_lowest F f_Tinitial f_Tfinal (temperature exp log10 f_Tinitial k)
            L_wNew (rnd c1) { st with cursor := c1 + 1 } with hm | hm | hm
          · exact le_trans hle (by rw [hm.2.2.1]; exact le_of_lt hm.2.1)
          · exact le_trans hle (by rw [hm.2.2.1])
          · exact le_trans hle (by rw [hm.2.1])
        · intro p hp hp2
          rcases List.mem_cons.mp hp with hp1 | hp1
          · subst hp1
            simp only [decide_eq_true_eq] at hp2
            rcases annealingMove_lowest F f_Tinitial f_Tfinal
              (temperature exp log10 f_Tinitial k) L_wNew (rnd c1)
              { st with cursor := c1 + 1 } with hm | hm | hm
            · exact le_trans hle (by rw [hm.2.2.1])
            · exact le_trans hle (by rw [hm.2.2.1]; exact hm.2.1)
            · exact absurd hp2 hm.1
          · exact hacc p hp1 hp2
        · rcases hrec with hr | hr
          · rcases annealingMove_lowest F f_Tinitial f_Tfinal
              (temperature exp log10 f_Tinitial k) L_wNew (rnd c1)
              { st with cursor := c1 + 1 } with hm | hm | hm
            · right
              rw [hr.2, hm.2.2.2, hr.1, hm.2.2.1]
              refine ⟨List.mem_cons.mpr (Or.inl ?_), rfl⟩
              simp only [Prod.mk.injEq, true_and]
              exact (decide_eq_true hm.1).symm
            · left
              exact ⟨by rw [hr.1, hm.2.2.1], by rw [hr.2, hm.2.2.2]⟩
            · left
              exact ⟨by rw [hr.1, hm.2.1], by rw [hr.2, hm.2.2]⟩
          · right
            exact ⟨List.mem_cons_of_mem _ hr.1, hr.2⟩

/-- What the record of the annealing phase of `processWithSAandGD` ranges over, the accepted
neighbours: when the loop ends, the recorded lowest energy is not above the objective value
of any neighbour accepted during the loop, and, as soon as one accepted neighbour has an
objective value below `DBL_MAX`, the parameter vector handed to phase 2 is an accepted
neighbour whose objective value is that recorded lowest energy, hence the minimum over all
accepted neighbours.  The loop does end when the initial parameters lie within the domain,
the search factor is between `0` and `0.5` and the random sequence keeps offering draws in
both halves of `[0, RAND_MAX]`. -/
theorem simulatedAnnealing_lowest_of_accepted (F : List ℚ → ℚ) (exp log10 : ℚ → ℚ)
    (rnd : ℕ → ℕ) (fuel : ℕ) (f_Tinitial f_Tfinal : ℚ) (i_kmax : ℤ) (f_factorSearch : ℚ)
    (vw L_wMin L_wMax : List ℚ) :
    (∀ sa, simulatedAnnealing F exp log10 rnd fuel f_Tinitial f_Tfinal i_kmax f_factorSearch
        vw L_wMin L_wMax = some sa →
      ∃ proposals, annealingProposals F exp log10 rnd fuel f_Tinitial f_Tfinal f_factorSearch
          L_wMin L_wMax i_kmax.toNat 0 ⟨vw, DBL_MAX, DBL_MAX, [], [], 0⟩ = some proposals ∧
        (∀ p, p ∈ proposals → p.2 = true → sa.f_lowestEnergyFound ≤ F p.1) ∧
        ((∃ p, p ∈ proposals ∧ p.2 = true ∧ F p.1 < DBL_MAX) →
          (sa.L_wOfLowestEnergyFound, true) ∈ proposals ∧
          F sa.L_wOfLowestEnergyFound = sa.f_lowestEnergyFound)) ∧
    (FairDraws rnd fuel → 0 ≤ f_factorSearch → f_factorSearch ≤ 1 / 2 →
      L_wMin.length = vw.length → L_wMax.length = vw.length →
      WithinDomain L_wMin L_wMax vw →
      ∃ sa, simulatedAnnealing F exp log10 rnd fuel f_Tinitial f_Tfinal i_kmax f_factorSearch
        vw L_wMin L_wMax = some sa) := by
  refine ⟨fun sa hsa => ?_, fun hfair hfs0 hfs hmin hmax hin => ?_⟩
  · obtain ⟨proposals, hp, -, hacc, hrec⟩ := annealingLoop_lowest F exp log10 rnd fuel
      f_Tinitial f_Tfinal f_factorSearch L_wMin L_wMax i_kmax.toNat 0 _ sa hsa
    refine ⟨proposals, hp, hacc, ?_⟩
    rintro ⟨p, hp1, hp2, hp3⟩
    rcases hrec with hr | hr
    · have := hacc p hp1 hp2
      rw [hr.1] at this
      exact absurd hp3 (not_lt.mpr this)
    · exact hr
  · exact annealingLoop_fair F exp log10 rnd fuel f_Tinitial f_Tfinal f_factorSearch L_wMin
      L_wMax hfair hfs0 hfs (by omega) i_kmax.toNat 0 ⟨vw, DBL_MAX, DBL_MAX, [], [], 0⟩
      hmin.symm hin

/-! ## The array handed to the gradient tasks -/

/-- Under the strategy `BASED_ON_VARFIT` the value of `objectiveFunction` does not depend on
the data array it is called with. -/
theorem objectiveFunction_varfit_ignores_data (self : AutomaticVariogramFitting)
    (h : self.m_objectiveFunctionType = ObjectiveFunctionType.BASED_ON_VARFIT)
    (st : ObjectiveStatics) (g : GridGeometry) (data1 data2 : SpectralArray) (vw : List ℚ)
    (m : ℕ) :
    self.objectiveFunction st g data1 vw m = self.objectiveFunction st g data2 vw m := by
  unfold AutomaticVariogramFitting.objectiveFunction
  rw [h]
  rfl

theorem fimSession_objectiveValue (d : ℚ) (vw : List ℚ) :
    objectiveValue fimSession ⟨2, 1, 1, 3, 8, 1⟩ 1 (SpectralArray.filled 2 1 1 d) vw
      = 2 * (vw.getD 3 0 - d) ^ 2 := by
  simp [objectiveValue, AutomaticVariogramFitting.objectiveFunction,
    AutomaticVariogramFitting.objectiveFunctionFIM,
    AutomaticVariogramFitting.generateVariographicSurface, fimSession, sumOverCells,
    SpectralArray.filled, readBackOne, zeroStructure, IJVariographicStructure2D.setParameter,
    List.range_succ, getNumberOfParameters]
  ring

/-- C15, the code at a failing input, a whole run of `processWithSAandGD` with the strategy
`BASED_ON_FIM`: grid of `2 x 1 x 1` cells of size `3 x 8 x 1` (diagonal `10`), one structure,
input data `0` in both cells, `inputVarmap` `100` in both cells, so that the objective
function on the input data is `2 * cc^2` and on `inputVarmap` is `2 * (cc - 100)^2`;
`f_Tinitial = 100`, `f_Tfinal = 1`, `i_kmax = 1`, `f_factorSearch = 0.1`, all draws `0`, one
descent iteration with `epsilon = 0.01`, `initialAlpha = 0.1` and two step-halvings.  The
annealing hands over `[3.8, 0.4006, 142/113, 89.1]`.  There the gradient tasks, called with
`inputVarmap`, yield `-43.6` for the contribution, whereas the objective function of the
step-halving, called with the input data, has the derivative `356.4`: both trial steps go
uphill, and the run returns the contribution `89.1` unchanged.  The same run with the input
data handed to the gradient tasks descends to the contribution `53.46`. -/
theorem processWithSAandGD_gradient_of_other_array :
    computeGradient (objectiveValue fimSession ⟨2, 1, 1, 3, 8, 1⟩ 1 (SpectralArray.filled 2 1 1 100))
        1 [19 / 5, 2003 / 5000, 142 / 113, 891 / 10] (1 / 100) = [0, 0, 0, -(218 / 5)] ∧
    computeGradient (objectiveValue fimSession ⟨2, 1, 1, 3, 8, 1⟩ 1 (SpectralArray.filled 2 1 1 0))
        1 [19 / 5, 2003 / 5000, 142 / 113, 891 / 10] (1 / 100) = [0, 0, 0, 1782 / 5] ∧
    (∀ exp log10 : ℚ → ℚ, exp 0 = 1 →
      processWithSAandGD (objectiveValue fimSession ⟨2, 1, 1, 3, 8, 1⟩ 1)
        (SpectralArray.filled 2 1 1 0) (SpectralArray.filled 2 1 1 100)
        ⟨3, 8, 10, 355 / 113, 100⟩ exp log10 (fun _ => 0) 3 1 1 100 1 1 (1 / 10) 1
        (1 / 100) (1 / 10) 2 (1 / 1000) =
      some ([⟨19 / 5, 2003 / 5000, 142 / 113, 891 / 10⟩], [19602, 793881 / 50])) ∧
    (∀ exp log10 : ℚ → ℚ, exp 0 = 1 →
      processWithSAandGD (objectiveValue fimSession ⟨2, 1, 1, 3, 8, 1⟩ 1)
        (SpectralArray.filled 2 1 1 0) (SpectralArray.filled 2 1 1 0)
        ⟨3, 8, 10, 355 / 113, 100⟩ exp log10 (fun _ => 0) 3 1 1 100 1 1 (1 / 10) 1
        (1 / 100) (1 / 10) 2 (1 / 1000) =
      some ([⟨19 / 5, 2003 / 5000, 142 / 113, 2673 / 50⟩], [19602, 793881 / 50])) := by
  have hF : objectiveValue fimSession ⟨2, 1, 1, 3, 8, 1⟩ 1 (SpectralArray.filled 2 1 1 0)
      = fun vw => 2 * (vw.getD 3 0 - 0) ^ 2 := funext (fimSession_objectiveValue 0)
  have hG : objectiveValue fimSession ⟨2, 1, 1, 3, 8, 1⟩ 1 (SpectralArray.filled 2 1 1 100)
      = fun vw => 2 * (vw.getD 3 0 - 100) ^ 2 := funext (fimSession_objectiveValue 100)
  have hbins : parameterIndexBins 1 4 = [[0, 1, 2, 3]] := by decide
  have h1 : (1 : ℤ).toNat = 1 := rfl
  have hd : initDomainAndParameters ⟨3, 8, 10, 355 / 113, 100⟩ 1 =
      ⟨⟨⟨3, 1 / 1000, 0, 1⟩, ⟨5, 1, 355 / 113, 100⟩⟩, [4, 1001 / 2000, 355 / 226, 99],
        [3, 1 / 1000, 0, 1], [5, 1, 355 / 113, 100], [⟨4, 1001 / 2000, 355 / 226, 99⟩]⟩ := by
    norm_num [initDomainAndParameters, flattenStructures, flattenOne, boundsArray,
      IJVariographicStructure2D.getParameter, getNumberOfParameters, List.range_succ,
      List.replicate]
  refine ⟨?_, ?_, ?_, ?_⟩
  · rw [hG]
    norm_num [computeGradient, hbins, taskOnePartialDerivative, List.replicate]
  · rw [hF]
    norm_num [computeGradient, hbins, taskOnePartialDerivative, List.replicate]
  · intro exp log10 h0
    rw [processWithSAandGD, hF, hG]
    simp only [h1, hd]
    norm_num [simulatedAnnealing, annealingLoop, annealingStep, drawNeighbor, drawInsideDomain,
      randomWithin, annealingMove, probAcceptance, temperature, RAND_MAX, DBL_MAX, h0,
      gradientDescent, descentIteration, computeGradient, hbins, taskOnePartialDerivative,
      List.replicate, alphaReduction, imposeDomain, List.range_succ, readBackStructures,
      readBackOne, IJVariographicStructure2D.setParameter, getNumberOfParameters, zeroStructure]
  · intro exp log10 h0
    rw [processWithSAandGD, hF]
    simp only [h1, hd]
    norm_num [simulatedAnnealing, annealingLoop, annealingStep, drawNeighbor, drawInsideDomain,
      randomWithin, annealingMove, probAcceptance, temperature, RAND_MAX, DBL_MAX, h0,
      gradientDescent, descentIteration, computeGradient, hbins, taskOnePartialDerivative,
      List.replicate, alphaReduction, imposeDomain, List.range_succ, readBackStructures,
      readBackOne, IJVariographicStructure2D.setParameter, getNumberOfParameters, zeroStructure]

/-! ## What a pair of parents contributes to the next generation -/

theorem pairContribution_length (rnd : ℕ → ℕ) (probabilityOfCrossOver : ℚ)
    (pointOfCrossover : ℕ) (mutationRate : ℚ) (L_wMin L_wMax : List ℚ)
    (parent1 parent2 : Individual) (c2 : ℕ) :
    (pairContribution rnd probabilityOfCrossOver pointOfCrossover mutationRate L_wMin L_wMax
      parent1 parent2 c2).1.length
      = if (rnd c2 : ℚ) / RAND_MAX < probabilityOfCrossOver then 4 else 2 := by
  unfold pairContribution
  split_ifs <;> rfl

theorem eraseAt_bind_eq_some (selection : List Individual) (p1 p2 : ℕ)
    (selection1 : List Individual) :
    (eraseAt selection p1).bind (fun erased => eraseAt erased p2) = some selection1 ↔
      p1 < selection.length ∧ p2 + 1 < selection.length ∧
        selection1 = (selection.eraseIdx p1).eraseIdx p2 := by
  unfold eraseAt
  by_cases h1 : p1 < selection.length
  · have hlen : (selection.eraseIdx p1).length = selection.length - 1 := by
      rw [List.length_eraseIdx, if_pos h1]
    rw [if_pos h1, Option.some_bind, hlen]
    by_cases h2 : p2 < selection.length - 1
    · rw [if_pos h2]
      constructor
      · intro h
        exact ⟨h1, by omega, (Option.some.inj h).symm⟩
      · intro h
        rw [h.2.2]
    · rw [if_neg h2]
      constructor
      · intro h
        exact absurd h (by simp)
      · intro h
        omega
  · rw [if_neg h1, Option.none_bind]
    constructor
    · intro h
      exact absurd h (by simp)
    · intro h
      exact absurd h.1 h1

theorem crossoverAndMutation_of_empty (rnd : ℕ → ℕ) (fuel : ℕ) (probabilityOfCrossOver : ℚ)
    (pointOfCrossover : ℕ) (mutationRate : ℚ) (L_wMin L_wMax : List ℚ) (rounds : ℕ)
    (nextGen : List Individual) (c : ℕ) :
    crossoverAndMutation rnd fuel probabilityOfCrossOver pointOfCrossover mutationRate
      L_wMin L_wMax rounds [] nextGen c = some (nextGen, c) := by
  cases rounds <;> simp [crossoverAndMutation]

theorem crossoverAndMutation_of_draw_none (rnd : ℕ → ℕ) (fuel : ℕ)
    (probabilityOfCrossOver : ℚ) (pointOfCrossover : ℕ) (mutationRate : ℚ)
    (L_wMin L_wMax : List ℚ) (rounds : ℕ) (selection nextGen : List Individual) (c : ℕ)
    (hs : selection ≠ [])
    (hdraw : drawDifferent rnd selection.length (randomIndex (rnd c) selection.length) fuel
      (c + 1) = none) :
    crossoverAndMutation rnd fuel probabilityOfCrossOver pointOfCrossover mutationRate
      L_wMin L_wMax (rounds + 1) selection nextGen c = none := by
  rw [crossoverAndMutation, if_neg hs]
  simp only [hdraw]

theorem crossoverAndMutation_of_erase_none (rnd : ℕ → ℕ) (fuel : ℕ)
    (probabilityOfCrossOver : ℚ) (pointOfCrossover : ℕ) (mutationRate : ℚ)
    (L_wMin L_wMax : List ℚ) (rounds : ℕ) (selection nextGen : List Individual) (c : ℕ)
    (hs : selection ≠ []) (parentIndex2 c2 : ℕ)
    (hdraw : drawDifferent rnd selection.length (randomIndex (rnd c) selection.length) fuel
      (c + 1) = some (parentIndex2, c2))
    (herase : (eraseAt selection (randomIndex (rnd c) selection.length)).bind
      (fun erased => eraseAt erased parentIndex2) = none) :
    crossoverAndMutation rnd fuel probabilityOfCrossOver pointOfCrossover mutationRate
      L_wMin L_wMax (rounds + 1) selection nextGen c = none := by
  rw [crossoverAndMutation, if_neg hs]
  simp only [hdraw, herase]

theorem crossoverAndMutation_pass (rnd : ℕ → ℕ) (fuel : ℕ) (probabilityOfCrossOver : ℚ)
    (pointOfCrossover : ℕ) (mutationRate : ℚ) (L_wMin L_wMax : List ℚ) (rounds : ℕ)
    (selection nextGen : List Individual) (c : ℕ) (hs : selection ≠ [])
    (parentIndex2 c2 : ℕ)
    (hdraw : drawDifferent rnd selection.length (randomIndex (rnd c) selection.length) fuel
      (c + 1) = some (parentIndex2, c2))
    (selection1 : List Individual)
    (herase : (eraseAt selection (randomIndex (rnd c) selection.length)).bind
      (fun erased => eraseAt erased parentIndex2) = some selection1) :
    crossoverAndMutation rnd fuel probabilityOfCrossOver pointOfCrossover mutationRate
      L_wMin L_wMax (rounds + 1) selection nextGen c =
    crossoverAndMutation rnd fuel probabilityOfCrossOver pointOfCrossover mutationRate
      L_wMin L_wMax rounds selection1
      (nextGen ++ (pairContribution rnd probabilityOfCrossOver pointOfCrossover mutationRate
        L_wMin L_wMax
        (selection.getD (randomIndex (rnd c) selection.length) (Individual.ofSize 0))
        (selection.getD parentIndex2 (Individual.ofSize 0)) c2).1)
      (pairContribution rnd probabilityOfCrossOver pointOfCrossover mutationRate
        L_wMin L_wMax
        (selection.getD (randomIndex (rnd c) selection.length) (Individual.ofSize 0))
        (selection.getD parentIndex2 (Individual.ofSize 0)) c2).2 := by
  rw [crossoverAndMutation, if_neg hs]
  simp only [hdraw, herase]
  unfold pairContribution
  split_ifs <;> rfl

theorem crossoverAndMutation_pairs (rnd : ℕ → ℕ) (fuel : ℕ) (probabilityOfCrossOver : ℚ)
    (pointOfCrossover : ℕ) (mutationRate : ℚ) (L_wMin L_wMax : List ℚ) (rounds : ℕ) :
    ∀ (selection nextGen : List Individual) (c : ℕ) (out : List Individual) (c1 : ℕ),
      crossoverAndMutation rnd fuel probabilityOfCrossOver pointOfCrossover mutationRate
        L_wMin L_wMax rounds selection nextGen c = some (out, c1) →
      ∃ pairs : List (Individual × Individual × ℕ),
        out = nextGen ++ (pairs.map (fun b => (pairContribution rnd probabilityOfCrossOver
          pointOfCrossover mutationRate L_wMin L_wMax b.1 b.2.1 b.2.2).1)).flatten ∧
        pairs.length ≤ rounds ∧ selection.length = 2 * pairs.length := by
  induction rounds with
  | zero =>
    intro selection nextGen c out c1 h
    unfold crossoverAndMutation at h
    split_ifs at h with hs
    simp only [Option.some.injEq, Prod.mk.injEq] at h
    exact ⟨[], by simp [h.1], le_refl _, by simp [hs]⟩
  | succ n ih =>
    intro selection nextGen c out c1 h
    by_cases hs : selection = []
    · rw [hs, crossoverAndMutation_of_empty] at h
      simp only [Option.some.injEq, Prod.mk.injEq] at h
      exact ⟨[], by simp [h.1], Nat.zero_le _, by simp [hs]⟩
    · cases hdraw : drawDifferent rnd selection.length
          (randomIndex (rnd c) selection.length) fuel (c + 1) with
      | none =>
        rw [crossoverAndMutation_of_draw_none _ _ _ _ _ _ _ _ _ _ _ hs hdraw] at h
        exact absurd h (by simp)
      | some d =>
        obtain ⟨parentIndex2, c2⟩ := d
        cases herase : (eraseAt selection (randomIndex (rnd c) selection.length)).bind
            (fun erased => eraseAt erased parentIndex2) with
        | none =>
          rw [crossoverAndMutation_of_erase_none _ _ _ _ _ _ _ _ _ _ _ hs _ _ hdraw herase] at h
          exact absurd h (by simp)
        | some selection1 =>
          rw [crossoverAndMutation_pass _ _ _ _ _ _ _ _ _ _ _ hs _ _ hdraw _ herase] at h
          obtain ⟨pairs, hout, hlen, hsel⟩ := ih _ _ _ _ _ h
          obtain ⟨h1, h2, h3⟩ := (eraseAt_bind_eq_some _ _ _ _).mp herase
          refine ⟨(selection.getD (randomIndex (rnd c) selection.length) (Individual.ofSize 0),
            selection.getD parentIndex2 (Individual.ofSize 0), c2) :: pairs, ?_, ?_, ?_⟩
          · rw [hout]
            simp
          · simp only [List.length_cons]
            omega
          · have hl : selection1.length = selection.length - 2 := by
              rw [h3, List.length_eraseIdx, List.length_eraseIdx, if_pos h1]
              rw [if_pos (by omega)]
              omega
            simp only [List.length_cons]
            omega

theorem binaryTournaments_length (rnd : ℕ → ℕ) (fuel : ℕ) (population : List Individual)
    (iSel : ℕ) :
    ∀ (selection : List Individual) (c : ℕ) (out : List Individual) (c1 : ℕ),
      binaryTournaments rnd fuel population iSel selection c = some (out, c1) →
      out.length = selection.length + iSel := by
  induction iSel with
  | zero =>
    intro selection c out c1 h
    simp only [binaryTournaments, Option.some.injEq, Prod.mk.injEq] at h
    rw [← h.1]; rfl
  | succ n ih =>
    intro selection c out c1 h
    unfold binaryTournaments at h
    simp only at h
    split at h
    · exact absurd h (by simp)
    · rw [ih _ _ _ _ h]
      simp only [List.length_append, List.length_singleton]
      omega

theorem flatten_length_bounds {α : Type} (blocks : List (List α))
    (h : ∀ b, b ∈ blocks → 2 ≤ b.length ∧ b.length ≤ 4) :
    2 * blocks.length ≤ blocks.flatten.length ∧ blocks.flatten.length ≤ 4 * blocks.length := by
  induction blocks with
  | nil => simp
  | cons b rest ih =>
    have hb := h b (List.mem_cons_self _ _)
    have hr := ih (fun x hx => h x (List.mem_cons_of_mem _ hx))
    simp only [List.flatten_cons, List.length_append, List.length_cons]
    omega

/-! ## The drawing loops of the genetic algorithm end -/

theorem randomIndex_zero (size : ℕ) : randomIndex 0 size = 0 := by
  simp [randomIndex]

theorem randomIndex_max (size : ℕ) : randomIndex 2147483647 size = size - 1 := by
  have h : ((2147483647 : ℕ) : ℚ) / RAND_MAX * ((size : ℚ) - 1) = (((size : ℤ) - 1 : ℤ) : ℚ) := by
    simp only [RAND_MAX]
    push_cast
    norm_num
  unfold randomIndex
  rw [h, Int.floor_intCast]
  omega

theorem randomIndex_lt (r size : ℕ) (hr : (r : ℚ) ≤ RAND_MAX) (hsize : 1 ≤ size) :
    randomIndex r size < size := by
  have h1 : (r : ℚ) / RAND_MAX ≤ 1 := (div_le_one (by norm_num [RAND_MAX])).mpr hr
  have h2 : (0 : ℚ) ≤ (size : ℚ) - 1 := by
    have : (1 : ℚ) ≤ (size : ℚ) := by exact_mod_cast hsize
    linarith
  have hx : (r : ℚ) / RAND_MAX * ((size : ℚ) - 1) ≤ (((size : ℤ) - 1 : ℤ) : ℚ) := by
    push_cast
    calc (r : ℚ) / RAND_MAX * ((size : ℚ) - 1) ≤ 1 * ((size : ℚ) - 1) :=
          mul_le_mul_of_nonneg_right h1 h2
      _ = (size : ℚ) - 1 := one_mul _
  have hfl : ⌊(r : ℚ) / RAND_MAX * ((size : ℚ) - 1)⌋ ≤ (size : ℤ) - 1 := by
    have := Int.floor_le_floor hx
    rwa [Int.floor_intCast] at this
  unfold randomIndex
  omega

theorem drawDifferent_of_draw (rnd : ℕ → ℕ) (size first : ℕ) :
    ∀ (fuel c : ℕ), (∃ j, j < fuel ∧ randomIndex (rnd (c + j)) size ≠ first) →
      ∃ p2 c2 k, drawDifferent rnd size first fuel c = some (p2, c2) ∧ p2 ≠ first ∧
        p2 = randomIndex (rnd k) size := by
  intro fuel
  induction fuel with
  | zero =>
    intro c h
    obtain ⟨j, hj, -⟩ := h
    omega
  | succ n ih =>
    intro c h
    obtain ⟨j, hj, hne⟩ := h
    rw [drawDifferent]
    by_cases h : randomIndex (rnd c) size = first
    · rw [if_pos h]
      have hj0 : j ≠ 0 := by
        intro e
        subst e
        exact hne (by simpa using h)
      obtain ⟨j2, rfl⟩ : ∃ j2, j = j2 + 1 := ⟨j - 1, by omega⟩
      exact ih (c + 1) ⟨j2, by omega, by rwa [show c + 1 + j2 = c + (j2 + 1) by omega]⟩
    · rw [if_neg h]
      exact ⟨_, _, c, rfl, h, rfl⟩

theorem drawDifferent_returns (rnd : ℕ → ℕ) (fuel : ℕ) (hfair : ExtremeDraws rnd fuel)
    (size first : ℕ) (hsize : 2 ≤ size) (c : ℕ) :
    ∃ p2 c2 k, drawDifferent rnd size first fuel c = some (p2, c2) ∧ p2 ≠ first ∧
      p2 = randomIndex (rnd k) size := by
  apply drawDifferent_of_draw
  obtain ⟨⟨j0, hj0, h0⟩, ⟨j1, hj1, h1⟩⟩ := hfair c
  by_cases hf : first = 0
  · refine ⟨j1, hj1, ?_⟩
    rw [h1, randomIndex_max]
    omega
  · refine ⟨j0, hj0, ?_⟩
    rw [h0, randomIndex_zero]
    exact fun e => hf e.symm

theorem binaryTournaments_returns (rnd : ℕ → ℕ) (fuel : ℕ) (hfair : ExtremeDraws rnd fuel)
    (population : List Individual) (hpop : 2 ≤ population.length) (iSel : ℕ) :
    ∀ (selection : List Individual) (c : ℕ),
      ∃ out c1, binaryTournaments rnd fuel population iSel selection c = some (out, c1) := by
  induction iSel with
  | zero =>
    intro selection c
    exact ⟨selection, c, by simp [binaryTournaments]⟩
  | succ n ih =>
    intro selection c
    obtain ⟨p2, c2, k, hd, -, -⟩ := drawDifferent_returns rnd fuel hfair population.length
      (randomIndex (rnd c) population.length) hpop (c + 1)
    rw [binaryTournaments]
    simp only [hd]
    exact ih _ _

theorem crossoverAndMutation_returns (rnd : ℕ → ℕ) (fuel : ℕ) (probabilityOfCrossOver : ℚ)
    (pointOfCrossover : ℕ) (mutationRate : ℚ) (L_wMin L_wMax : List ℚ)
    (hrnd : ∀ n, (rnd n : ℚ) ≤ RAND_MAX) (hfair : ExtremeDraws rnd fuel) (rounds : ℕ) :
    ∀ (selection nextGen : List Individual) (c : ℕ),
      selection.length % 2 = 0 → selection.length ≤ 2 * rounds →
      (∀ t, t ∈ pairingPositions rnd fuel probabilityOfCrossOver pointOfCrossover mutationRate
          L_wMin L_wMax rounds selection c → t.2.2 < t.2.1 ∨ t.2.2 + 1 < t.1) →
      ∃ (out : List Individual) (c1 : ℕ) (pairs : List (Individual × Individual × ℕ)),
        crossoverAndMutation rnd fuel probabilityOfCrossOver pointOfCrossover mutationRate
          L_wMin L_wMax rounds selection nextGen c = some (out, c1) ∧
        out = nextGen ++ (pairs.map (fun b => (pairContribution rnd probabilityOfCrossOver
          pointOfCrossover mutationRate L_wMin L_wMax b.1 b.2.1 b.2.2).1)).flatten ∧
        2 * pairs.length = selection.length ∧
        ∀ b, b ∈ pairs → b.1 ∈ selection ∧ b.2.1 ∈ selection := by
  induction rounds with
  | zero =>
    intro selection nextGen c _ hlen _
    have hs : selection = [] := List.eq_nil_of_length_eq_zero (by omega)
    subst hs
    exact ⟨nextGen, c, [], crossoverAndMutation_of_empty _ _ _ _ _ _ _ _ _ _, by simp, rfl,
      by simp⟩
  | succ n ih =>
    intro selection nextGen c heven hlen hvalid
    by_cases hs : selection = []
    · subst hs
      exact ⟨nextGen, c, [], crossoverAndMutation_of_empty _ _ _ _ _ _ _ _ _ _, by simp, rfl,
        by simp⟩
    · have hpos : 0 < selection.length := List.length_pos.mpr hs
      have h2 : 2 ≤ selection.length := by omega
      have hp1 : randomIndex (rnd c) selection.length < selection.length :=
        randomIndex_lt _ _ (hrnd c) (by omega)
      obtain ⟨p2, c2, k, hd, hne, hk⟩ := drawDifferent_returns rnd fuel hfair selection.length
        (randomIndex (rnd c) selection.length) h2 (c + 1)
      have hp2 : p2 < selection.length := by
        rw [hk]
        exact randomIndex_lt _ _ (hrnd k) (by omega)
      rw [pairingPositions, if_neg hs] at hvalid
      simp only [hd] at hvalid
      have hhead := hvalid _ (List.mem_cons_self _ _)
      simp only at hhead
      have herase : (eraseAt selection (randomIndex (rnd c) selection.length)).bind
          (fun erased => eraseAt erased p2) =
          some ((selection.eraseIdx (randomIndex (rnd c) selection.length)).eraseIdx p2) :=
        (eraseAt_bind_eq_some _ _ _ _).mpr ⟨hp1, by omega, rfl⟩
      simp only [herase] at hvalid
      have hl : ((selection.eraseIdx (randomIndex (rnd c) selection.length)).eraseIdx
          p2).length = selection.length - 2 := by
        rw [List.length_eraseIdx, List.length_eraseIdx, if_pos hp1, if_pos (by omega)]
        omega
      obtain ⟨out, c1, pairs, hrun, hout, hcount, hmem⟩ := ih
        ((selection.eraseIdx (randomIndex (rnd c) selection.length)).eraseIdx p2)
        (nextGen ++ (pairContribution rnd probabilityOfCrossOver pointOfCrossover mutationRate
          L_wMin L_wMax
          (selection.getD (randomIndex (rnd c) selection.length) (Individual.ofSize 0))
          (selection.getD p2 (Individual.ofSize 0)) c2).1)
        (pairContribution rnd probabilityOfCrossOver pointOfCrossover mutationRate
          L_wMin L_wMax
          (selection.getD (randomIndex (rnd c) selection.length) (Individual.ofSize 0))
          (selection.getD p2 (Individual.ofSize 0)) c2).2
        (by rw [hl]; omega) (by rw [hl]; omega)
        (fun t ht => hvalid t (List.mem_cons_of_mem _ ht))
      refine ⟨out, c1, (selection.getD (randomIndex (rnd c) selection.length)
        (Individual.ofSize 0), selection.getD p2 (Individual.ofSize 0), c2) :: pairs, ?_, ?_,
        ?_, ?_⟩
      · rw [crossoverAndMutation_pass _ _ _ _ _ _ _ _ _ _ _ hs _ _ hd _ herase]
        exact hrun
      · rw [hout]
        simp
      · simp only [List.length_cons]
        omega
      · intro b hb
        rcases List.mem_cons.mp hb with h | h
        · rw [h]
          simp only
          rw [List.getD_eq_getElem _ _ hp1, List.getD_eq_getElem _ _ hp2]
          exact ⟨List.getElem_mem _, List.getElem_mem _⟩
        · obtain ⟨m1, m2⟩ := hmem b h
          exact ⟨List.mem_of_mem_eraseIdx (List.mem_of_mem_eraseIdx m1),
            List.mem_of_mem_eraseIdx (List.mem_of_mem_eraseIdx m2)⟩

theorem refillPopulation_length (rnd : ℕ → ℕ) (L_wMin L_wMax : List ℚ)
    (totalNumberOfParameters nPopulationSize : ℕ) :
    ∀ (missing : ℕ) (population : List Individual) (c : ℕ),
      nPopulationSize ≤ population.length + missing →
      nPopulationSize ≤ (refillPopulation rnd L_wMin L_wMax totalNumberOfParameters
        nPopulationSize missing population c).1.length := by
  intro missing
  induction missing with
  | zero =>
    intro population c h
    simpa [refillPopulation] using h
  | succ n ih =>
    intro population c h
    rw [refillPopulation]
    split_ifs with hlt
    · apply ih
      simp only [List.length_append, List.length_singleton]
      omega
    · simp only
      omega

theorem taskEvaluate_length (F : List ℚ → ℚ) (iIndividual_initial iIndividual_final : ℤ)
    (population : List Individual) :
    (taskEvaluateObjetiveInRangeOfIndividualsForGenetic F iIndividual_initial iIndividual_final
      population).length = population.length := by
  unfold taskEvaluateObjetiveInRangeOfIndividualsForGenetic
  generalize indexRange iIndividual_initial iIndividual_final = indices
  induction indices generalizing population with
  | nil => rfl
  | cons i rest ih =>
    rw [List.foldl_cons, ih]
    exact List.length_modify _ _ _

theorem populationAtSort_length (F : List ℚ → ℚ) (rnd : ℕ → ℕ)
    (individualsIndexesRanges : List (ℤ × ℤ)) (L_wMin L_wMax : List ℚ)
    (totalNumberOfParameters nPopulationSize : ℕ) (st : GeneticState) :
    nPopulationSize ≤ (populationAtSort F rnd individualsIndexesRanges L_wMin L_wMax
      totalNumberOfParameters nPopulationSize st).length := by
  unfold populationAtSort
  have hfold : ∀ (ranges : List (ℤ × ℤ)) (pop : List Individual),
      (ranges.foldl (fun pop range =>
        taskEvaluateObjetiveInRangeOfIndividualsForGenetic F range.1 range.2 pop) pop).length =
        pop.length := by
    intro ranges
    induction ranges with
    | nil => intro pop; rfl
    | cons r rest ih =>
      intro pop
      rw [List.foldl_cons, ih, taskEvaluate_length]
  rw [hfold]
  exact refillPopulation_length _ _ _ _ _ _ _ _ (by omega)

/-! ## The individuals a generation hands over -/

/-- One generation of `processWithGenetic` on the domain `L_wMin = [1, 0.001, 0, 1]`,
`L_wMax = [5, 1, 355/113, 100]` with `nPopulationSize = 4`, `nSelectionSize = 2`,
`probabilityOfCrossOver = 0.5`, `pointOfCrossover = 2`, `mutationRate = 0`, the objective
`F(v) = sum v[i]` and the draws `geneticDraws`: the population is `[5, 0.001, 0, 1]`,
`[1, 0.001, 0, 100]`, `[5, 0.001, 0, 100]`, `[5, 1, 0, 100]`, the tournaments select the first
two, the pairing takes the second as `parent1` and the first as `parent2` (positions 1 and 0,
both erasures at positions of elements), crossover is due. -/
theorem geneticGeneration_example :
    geneticGeneration (fun v => v.sum) geneticDraws 3 [(0, 3)] [1, 1 / 1000, 0, 1]
      [5, 1, 355 / 113, 100] 4 4 2 (1 / 2) 2 0 ⟨[], [], 0⟩ =
    some ⟨[⟨[1, 1 / 1000, 0, 1], DBL_MAX⟩, ⟨[5, 1 / 1000, 0, 100], DBL_MAX⟩,
      ⟨[1, 1 / 1000, 0, 100], 101001 / 1000⟩, ⟨[5, 1 / 1000, 0, 1], 6001 / 1000⟩],
      [6001 / 1000], 39⟩ := by
  have t0 : (0 : ℤ).toNat = 0 := rfl
  have t1 : (1 : ℤ).toNat = 1 := rfl
  have t3 : (3 : ℤ).toNat = 3 := rfl
  have r1 : randomIndex 0 4 = 0 := by norm_num [randomIndex, RAND_MAX]
  have r2 : randomIndex 2147483647 4 = 3 := by norm_num [randomIndex, RAND_MAX, t3]
  have r3 : randomIndex 1073741824 4 = 1 := by
    have : ⌊(1073741824 : ℚ) / 2147483647 * (4 - 1)⌋ = 1 := by
      rw [Int.floor_eq_iff]; norm_num
    simp only [randomIndex, RAND_MAX, Nat.cast_ofNat]
    rw [this]; rfl
  have r4 : randomIndex 2147483647 2 = 1 := by norm_num [randomIndex, RAND_MAX, t1]
  have r5 : randomIndex 0 2 = 0 := by norm_num [randomIndex, RAND_MAX]
  norm_num [geneticGeneration, refillPopulation, randomVector, randomWithin, geneticDraws,
    taskEvaluateObjetiveInRangeOfIndividualsForGenetic, indexRange, sortIndividuals,
    Individual.le, Individual.ofParameters, Individual.ofSize, binaryTournaments,
    r1, r2, r3, r4, r5, t0, t1, t3,
    drawDifferent, crossoverAndMutation, eraseAt, Individual.crossOver, Individual.mutate,
    mutateGenes, List.range_succ, List.replicate, RAND_MAX, DBL_MAX, List.eraseIdx,
    List.modify, List.insertionSort, List.orderedInsert]
  rw [if_neg (List.cons_ne_nil _ _)]

/-- C19, the claim as stated fails: in the generation of `geneticGeneration_example`, with
`nSelectionSize = 2`, the pair of parents `[1, 0.001, 0, 100]` and `[5, 0.001, 0, 1]`
undergoes crossover and contributes four individuals, its two children and the two parents
themselves: the next generation has four individuals before refilling, not two. -/
theorem geneticGeneration_crossover_contributes_four :
    (geneticGeneration (fun v => v.sum) geneticDraws 3 [(0, 3)] [1, 1 / 1000, 0, 1]
      [5, 1, 355 / 113, 100] 4 4 2 (1 / 2) 2 0 ⟨[], [], 0⟩).map
        (fun s => s.population.map (fun ind => ind.parameters)) =
      some [[1, 1 / 1000, 0, 1], [5, 1 / 1000, 0, 100], [1, 1 / 1000, 0, 100],
        [5, 1 / 1000, 0, 1]] ∧
    (geneticGeneration (fun v => v.sum) geneticDraws 3 [(0, 3)] [1, 1 / 1000, 0, 1]
      [5, 1, 355 / 113, 100] 4 4 2 (1 / 2) 2 0 ⟨[], [], 0⟩).map
        (fun s => s.population.length) = some 4 := by
  rw [geneticGeneration_example]
  exact ⟨rfl, rfl⟩

theorem geneticGeneration_eq_pairing (F : List ℚ → ℚ) (rnd : ℕ → ℕ) (fuel : ℕ)
    (individualsIndexesRanges : List (ℤ × ℤ)) (L_wMin L_wMax : List ℚ)
    (totalNumberOfParameters nPopulationSize nSelectionSize : ℕ) (probabilityOfCrossOver : ℚ)
    (pointOfCrossover : ℕ) (mutationRate : ℚ) (st : GeneticState) :
    geneticGeneration F rnd fuel individualsIndexesRanges L_wMin L_wMax
      totalNumberOfParameters nPopulationSize nSelectionSize probabilityOfCrossOver
      pointOfCrossover mutationRate st =
    match selectionAtPairing F rnd fuel individualsIndexesRanges L_wMin L_wMax
        totalNumberOfParameters nPopulationSize nSelectionSize st with
    | none => none
    | some (selection, c1) =>
      match crossoverAndMutation rnd fuel probabilityOfCrossOver pointOfCrossover mutationRate
          L_wMin L_wMax selection.length selection [] c1 with
      | none => none
      | some (nextGen, c2) =>
        some ⟨nextGen, st.trace ++ [((sortIndividuals (populationAtSort F rnd
          individualsIndexesRanges L_wMin L_wMax totalNumberOfParameters nPopulationSize
          st)).headD (Individual.ofSize 0)).fValue], c2⟩ := rfl

/-- C19: in a generation of `processWithGenetic` with `nSelectionSize < nPopulationSize`, both
even, with draws not above `RAND_MAX` that offer a `0` and a `RAND_MAX` among every `fuel`
consecutive draws, and in which every pass of the pairing loop draws `parent2` at a position
below that of `parent1` or not at the last position of the pool (so that both `erase` calls
are at positions of elements): the generation completes; its selection pool has
`nSelectionSize` individuals and its pairing loop makes `nSelectionSize / 2` passes; every
pass takes its two parents from the selection pool and contributes to the next generation the
two mutated parents, preceded by the two mutated children of the single-point crossover when
crossover is due: four individuals with crossover, two without.  Hence the next generation,
before refilling, has at least `nSelectionSize` and at most `2 * nSelectionSize`
individuals. -/
theorem geneticGeneration_pair_contributions (F : List ℚ → ℚ) (rnd : ℕ → ℕ) (fuel : ℕ)
    (individualsIndexesRanges : List (ℤ × ℤ)) (L_wMin L_wMax : List ℚ)
    (totalNumberOfParameters nPopulationSize nSelectionSize : ℕ) (probabilityOfCrossOver : ℚ)
    (pointOfCrossover : ℕ) (mutationRate : ℚ) (st : GeneticState)
    (hrnd : ∀ n, (rnd n : ℚ) ≤ RAND_MAX) (hfair : ExtremeDraws rnd fuel)
    (hsize : nSelectionSize < nPopulationSize) (hpop : nPopulationSize % 2 = 0)
    (hsel : nSelectionSize % 2 = 0)
    (hvalid : ∀ t, t ∈ generationPositions F rnd fuel individualsIndexesRanges L_wMin L_wMax
        totalNumberOfParameters nPopulationSize nSelectionSize probabilityOfCrossOver
        pointOfCrossover mutationRate st → t.2.2 < t.2.1 ∨ t.2.2 + 1 < t.1) :
    ∃ (st1 : GeneticState) (selection : List Individual)
      (pairs : List (Individual × Individual × ℕ)),
      geneticGeneration F rnd fuel individualsIndexesRanges L_wMin L_wMax
        totalNumberOfParameters nPopulationSize nSelectionSize probabilityOfCrossOver
        pointOfCrossover mutationRate st = some st1 ∧
      (selectionAtPairing F rnd fuel individualsIndexesRanges L_wMin L_wMax
        totalNumberOfParameters nPopulationSize nSelectionSize st).map Prod.fst =
          some selection ∧
      selection.length = nSelectionSize ∧
      2 * pairs.length = nSelectionSize ∧
      (∀ b, b ∈ pairs → b.1 ∈ selection ∧ b.2.1 ∈ selection) ∧
      st1.population = (pairs.map (fun b => (pairContribution rnd probabilityOfCrossOver
        pointOfCrossover mutationRate L_wMin L_wMax b.1 b.2.1 b.2.2).1)).flatten ∧
      (∀ b, b ∈ pairs →
        (pairContribution rnd probabilityOfCrossOver pointOfCrossover mutationRate L_wMin L_wMax
          b.1 b.2.1 b.2.2).1.length
          = if (rnd b.2.2 : ℚ) / RAND_MAX < probabilityOfCrossOver then 4 else 2) ∧
      nSelectionSize ≤ st1.population.length ∧
      st1.population.length ≤ 2 * nSelectionSize := by
  have hpop2 : 2 ≤ ((sortIndividuals (populationAtSort F rnd individualsIndexesRanges L_wMin
      L_wMax totalNumberOfParameters nPopulationSize st)).take nPopulationSize).length := by
    have := populationAtSort_length F rnd individualsIndexesRanges L_wMin L_wMax
      totalNumberOfParameters nPopulationSize st
    rw [List.length_take, sortIndividuals, List.length_insertionSort]
    omega
  obtain ⟨selection, c1, htour⟩ := binaryTournaments_returns rnd fuel hfair _ hpop2
    nSelectionSize [] (refillPopulation rnd L_wMin L_wMax totalNumberOfParameters
      nPopulationSize (nPopulationSize - st.population.length) st.population st.cursor).2
  have hsa : selectionAtPairing F rnd fuel individualsIndexesRanges L_wMin L_wMax
      totalNumberOfParameters nPopulationSize nSelectionSize st = some (selection, c1) := htour
  have hlen := binaryTournaments_length _ _ _ _ _ _ _ _ htour
  simp only [List.length_nil, zero_add] at hlen
  have hpos : generationPositions F rnd fuel individualsIndexesRanges L_wMin L_wMax
      totalNumberOfParameters nPopulationSize nSelectionSize probabilityOfCrossOver
      pointOfCrossover mutationRate st =
      pairingPositions rnd fuel probabilityOfCrossOver pointOfCrossover mutationRate
        L_wMin L_wMax selection.length selection c1 := by
    unfold generationPositions
    rw [hsa]
  rw [hpos] at hvalid
  obtain ⟨out, c2, pairs, hrun, hout, hcount, hmem⟩ := crossoverAndMutation_returns rnd fuel
    probabilityOfCrossOver pointOfCrossover mutationRate L_wMin L_wMax hrnd hfair
    selection.length selection [] c1 (by omega) (by omega) hvalid
  rw [List.nil_append] at hout
  have hb := flatten_length_bounds (pairs.map (fun b => (pairContribution rnd
    probabilityOfCrossOver pointOfCrossover mutationRate L_wMin L_wMax b.1 b.2.1
    b.2.2).1)) (by
      intro b hb
      obtain ⟨x, -, rfl⟩ := List.mem_map.mp hb
      rw [pairContribution_length]
      split_ifs <;> omega)
  rw [List.length_map] at hb
  refine ⟨⟨out, st.trace ++ [((sortIndividuals (populationAtSort F rnd
    individualsIndexesRanges L_wMin L_wMax totalNumberOfParameters nPopulationSize
    st)).headD (Individual.ofSize 0)).fValue], c2⟩, selection, pairs, ?_, ?_, hlen, ?_, hmem,
    hout, ?_, ?_, ?_⟩
  · rw [geneticGeneration_eq_pairing, hsa]
    simp only [hrun]
  · rw [hsa]
    rfl
  · omega
  · intro b _
    exact pairContribution_length _ _ _ _ _ _ _ _ _
  · show nSelectionSize ≤ out.length
    rw [hout]
    omega
  · show out.length ≤ 2 * nSelectionSize
    rw [hout]
    omega

theorem pairedDraws_le (n : ℕ) : (pairedDraws n : ℚ) ≤ RAND_MAX := by
  unfold pairedDraws RAND_MAX
  split_ifs <;> norm_num

theorem pairedDraws_extreme : ExtremeDraws pairedDraws 4 := by
  intro c
  constructor
  · by_cases h : c % 2 = 0
    · refine ⟨1, by norm_num, ?_⟩
      unfold pairedDraws
      rw [if_neg (by omega), if_neg (by omega)]
    · refine ⟨0, by norm_num, ?_⟩
      unfold pairedDraws
      rw [if_neg (by omega), if_neg (by omega)]
  · by_cases h : c % 2 = 0
    · by_cases h22 : c = 22
      · refine ⟨2, by norm_num, ?_⟩
        unfold pairedDraws
        rw [if_neg (by omega), if_pos (by omega)]
      · refine ⟨0, by norm_num, ?_⟩
        unfold pairedDraws
        rw [if_neg (by omega), if_pos (by omega)]
    · by_cases h21 : c = 21
      · refine ⟨3, by norm_num, ?_⟩
        unfold pairedDraws
        rw [if_neg (by omega), if_pos (by omega)]
      · refine ⟨1, by norm_num, ?_⟩
        unfold pairedDraws
        rw [if_neg (by omega), if_pos (by omega)]

theorem generationPositions_paired_example :
    generationPositions (fun v => v.sum) pairedDraws 4 [(0, 3)] [1, 1 / 1000, 0, 1]
      [5, 1, 355 / 113, 100] 4 4 2 (1 / 2) 2 0 ⟨[], [], 0⟩ = [(2, 1, 0)] := by
  have t0 : (0 : ℤ).toNat = 0 := rfl
  have t1 : (1 : ℤ).toNat = 1 := rfl
  have t3 : (3 : ℤ).toNat = 3 := rfl
  have r1 : randomIndex 0 4 = 0 := by norm_num [randomIndex, RAND_MAX]
  have r2 : randomIndex 2147483647 4 = 3 := by norm_num [randomIndex, RAND_MAX, t3]
  have r4 : randomIndex 2147483647 2 = 1 := by norm_num [randomIndex, RAND_MAX, t1]
  have r5 : randomIndex 0 2 = 0 := by norm_num [randomIndex, RAND_MAX]
  norm_num [generationPositions, selectionAtPairing, populationAtSort, refillPopulation,
    randomVector, randomWithin, pairedDraws,
    taskEvaluateObjetiveInRangeOfIndividualsForGenetic, indexRange, sortIndividuals,
    Individual.le, Individual.ofParameters, Individual.ofSize, binaryTournaments,
    r1, r2, r4, r5, t0, t1, t3, drawDifferent, pairingPositions, eraseAt,
    List.range_succ, List.replicate, RAND_MAX, DBL_MAX, List.eraseIdx,
    List.modify, List.insertionSort, List.orderedInsert]
  exact List.cons_ne_nil _ _

theorem geneticGeneration_pair_contributions_witness :
    (∀ n, (pairedDraws n : ℚ) ≤ RAND_MAX) ∧ ExtremeDraws pairedDraws 4 ∧
    (2 : ℕ) < 4 ∧ (4 : ℕ) % 2 = 0 ∧ (2 : ℕ) % 2 = 0 ∧
    (∀ t, t ∈ generationPositions (fun v => v.sum) pairedDraws 4 [(0, 3)] [1, 1 / 1000, 0, 1]
      [5, 1, 355 / 113, 100] 4 4 2 (1 / 2) 2 0 ⟨[], [], 0⟩ → t.2.2 < t.2.1 ∨ t.2.2 + 1 < t.1) ∧
    ∃ (st1 : GeneticState) (selection : List Individual)
      (pairs : List (Individual × Individual × ℕ)),
      geneticGeneration (fun v => v.sum) pairedDraws 4 [(0, 3)] [1, 1 / 1000, 0, 1]
        [5, 1, 355 / 113, 100] 4 4 2 (1 / 2) 2 0 ⟨[], [], 0⟩ = some st1 ∧
      (selectionAtPairing (fun v => v.sum) pairedDraws 4 [(0, 3)] [1, 1 / 1000, 0, 1]
        [5, 1, 355 / 113, 100] 4 4 2 ⟨[], [], 0⟩).map Prod.fst = some selection ∧
      selection.length = 2 ∧
      2 * pairs.length = 2 ∧
      (∀ b, b ∈ pairs → b.1 ∈ selection ∧ b.2.1 ∈ selection) ∧
      st1.population = (pairs.map (fun b => (pairContribution pairedDraws (1 / 2) 2 0
        [1, 1 / 1000, 0, 1] [5, 1, 355 / 113, 100] b.1 b.2.1 b.2.2).1)).flatten ∧
      (∀ b, b ∈ pairs →
        (pairContribution pairedDraws (1 / 2) 2 0 [1, 1 / 1000, 0, 1] [5, 1, 355 / 113, 100]
          b.1 b.2.1 b.2.2).1.length
          = if (pairedDraws b.2.2 : ℚ) / RAND_MAX < 1 / 2 then 4 else 2) ∧
      2 ≤ st1.population.length ∧
      st1.population.length ≤ 2 * 2 :=
  ⟨pairedDraws_le, pairedDraws_extreme, by decide, by decide, by decide,
    by rw [generationPositions_paired_example]; simp,
    geneticGeneration_pair_contributions (fun v => v.sum) pairedDraws 4 [(0, 3)]
      [1, 1 / 1000, 0, 1] [5, 1, 355 / 113, 100] 4 4 2 (1 / 2) 2 0 ⟨[], [], 0⟩
      pairedDraws_le pairedDraws_extreme (by decide) (by decide) (by decide)
      (by rw [generationPositions_paired_example]; simp)⟩

/-! ## The best solution of the line search and the update of the limits -/

theorem initDomainAndParameters_one_structure :
    initDomainAndParameters ⟨1, 1, 10, 355 / 113, 100⟩ 1 =
      ⟨⟨⟨1, 1 / 1000, 0, 1⟩, ⟨5, 1, 355 / 113, 100⟩⟩, [3, 1001 / 2000, 355 / 226, 99],
        [1, 1 / 1000, 0, 1], [5, 1, 355 / 113, 100], [⟨3, 1001 / 2000, 355 / 226, 99⟩]⟩ := by
  norm_num [initDomainAndParameters, flattenStructures, flattenOne, boundsArray,
    IJVariographicStructure2D.getParameter, getNumberOfParameters, List.range_succ,
    List.replicate]

/-- C17, the code at a failing input, the first restart of `processWithLSRS`: one structure,
domain `L_wMin = [1, 0.001, 0, 1]`, `L_wMax = [5, 1, 355/113, 100]`, one starting point, one
step, `epsilon = 0.01`, all draws `0`.  The starting point is drawn at `L_wMin`, its
candidate is brought back to `L_wMin` by the boundaries and does not improve the objective
function, so no best solution is recorded and `vw_bestSolution` still holds the zeros of its
construction when the limits are updated.  With an objective with `F(v) = (v[0] + 1)^2` the
derivative along the first parameter is `2 > 0` and the upper limit becomes `0`, below the
lower limit `1`; with `F(v) = (v[0] - 10)^2` it is `-20 < 0` and the lower limit drops from
`1` to `0`.  The whole run returns the structure `(0, 0, 0, 0)`. -/
theorem lineSearchRestart_limits_from_unrecorded_best :
    (fun r : RestartState => (r.L_wMin, r.L_wMax, r.vw_bestSolution))
      (lineSearchRestart (fun v => (v.getD 0 0 + 1) ^ 2) (fun _ => 0) 1 [(0, 0)]
        (initDomainAndParameters ⟨1, 1, 10, 355 / 113, 100⟩ 1).domain 4 1 (1 / 100) 1
        ⟨[1, 1 / 1000, 0, 1], [5, 1, 355 / 113, 100], List.replicate 4 0, [], 0⟩) =
      ([1, 1 / 1000, 0, 1], [0, 1, 355 / 113, 100], [0, 0, 0, 0]) ∧
    (fun r : RestartState => (r.L_wMin, r.L_wMax, r.vw_bestSolution))
      (lineSearchRestart (fun v => (v.getD 0 0 - 10) ^ 2) (fun _ => 0) 1 [(0, 0)]
        (initDomainAndParameters ⟨1, 1, 10, 355 / 113, 100⟩ 1).domain 4 1 (1 / 100) 1
        ⟨[1, 1 / 1000, 0, 1], [5, 1, 355 / 113, 100], List.replicate 4 0, [], 0⟩) =
      ([0, 1 / 1000, 0, 1], [5, 1, 355 / 113, 100], [0, 0, 0, 0]) ∧
    processWithLSRS (fun v => (v.getD 0 0 + 1) ^ 2) ⟨1, 1, 10, 355 / 113, 100⟩ [(0, 0)]
      (fun _ => 0) 1 1 (1 / 100) 1 1 = ([⟨0, 0, 0, 0⟩], [1]) := by
  have h1 : (1 : ℤ).toNat = 1 := rfl
  have h0 : (0 : ℤ).toNat = 0 := rfl
  refine ⟨?_, ?_, ?_⟩
  · rw [initDomainAndParameters_one_structure]
    norm_num [lineSearchRestart, randomStartingPoints, randomVector, randomWithin,
      makeRandSequence, lineSearchSteps, lineSearchStep, taskMovePointAlongLineForLSRS,
      indexRange, movePointAlongLineForLSRS, lineCandidate, alpha_k, updateLimits,
      IJVariographicStructure2D.getParameter, getNumberOfParameters, List.range_succ,
      List.replicate, RAND_MAX, DBL_MAX, h1, h0]
  · rw [initDomainAndParameters_one_structure]
    norm_num [lineSearchRestart, randomStartingPoints, randomVector, randomWithin,
      makeRandSequence, lineSearchSteps, lineSearchStep, taskMovePointAlongLineForLSRS,
      indexRange, movePointAlongLineForLSRS, lineCandidate, alpha_k, updateLimits,
      IJVariographicStructure2D.getParameter, getNumberOfParameters, List.range_succ,
      List.replicate, RAND_MAX, DBL_MAX, h1, h0]
  · rw [processWithLSRS]
    simp only [h1, initDomainAndParameters_one_structure]
    norm_num [lineSearchRestart, randomStartingPoints, randomVector, randomWithin,
      makeRandSequence, lineSearchSteps, lineSearchStep, taskMovePointAlongLineForLSRS,
      indexRange, movePointAlongLineForLSRS, lineCandidate, alpha_k, updateLimits,
      IJVariographicStructure2D.getParameter, getNumberOfParameters, List.range_succ,
      List.replicate, RAND_MAX, DBL_MAX, h1, h0, readBackStructures, readBackOne,
      IJVariographicStructure2D.setParameter, zeroStructure]

/-- When the best solution lies within the limits, the update of the limits narrows them:
no lower limit decreases, no upper limit increases, and the best solution still lies within
the new limits (which are therefore not crossed). -/
theorem updateLimits_narrows (F : List ℚ → ℚ) (epsilon : ℚ) (vw_bestSolution : List ℚ)
    (size : ℕ) (L_wMin L_wMax : List ℚ) (hmin : size ≤ L_wMin.length)
    (hmax : size ≤ L_wMax.length)
    (hin : ∀ i, i < size → L_wMin.getD i 0 ≤ vw_bestSolution.getD i 0 ∧
      vw_bestSolution.getD i 0 ≤ L_wMax.getD i 0) :
    ∀ i, i < size →
      L_wMin.getD i 0 ≤ (updateLimits F epsilon vw_bestSolution size (L_wMin, L_wMax)).1.getD i 0 ∧
      (updateLimits F epsilon vw_bestSolution size (L_wMin, L_wMax)).2.getD i 0 ≤ L_wMax.getD i 0 ∧
      (updateLimits F epsilon vw_bestSolution size (L_wMin, L_wMax)).1.getD i 0
        ≤ vw_bestSolution.getD i 0 ∧
      vw_bestSolution.getD i 0
        ≤ (updateLimits F epsilon vw_bestSolution size (L_wMin, L_wMax)).2.getD i 0 := by
  have key : ∀ n, n ≤ size →
      (updateLimits F epsilon vw_bestSolution n (L_wMin, L_wMax)).1.length = L_wMin.length ∧
      (updateLimits F epsilon vw_bestSolution n (L_wMin, L_wMax)).2.length = L_wMax.length ∧
      ∀ i, i < size →
        ((updateLimits F epsilon vw_bestSolution n (L_wMin, L_wMax)).1.getD i 0
            = L_wMin.getD i 0 ∨
          (updateLimits F epsilon vw_bestSolution n (L_wMin, L_wMax)).1.getD i 0
            = vw_bestSolution.getD i 0) ∧
        ((updateLimits F epsilon vw_bestSolution n (L_wMin, L_wMax)).2.getD i 0
            = L_wMax.getD i 0 ∨
          (updateLimits F epsilon vw_bestSolution n (L_wMin, L_wMax)).2.getD i 0
            = vw_bestSolution.getD i 0) := by
    intro n
    induction n with
    | zero =>
      intro _
      exact ⟨rfl, rfl, fun i _ => ⟨Or.inl rfl, Or.inl rfl⟩⟩
    | succ n ih =>
      intro hn
      obtain ⟨h1, h2, h3⟩ := ih (by omega)
      unfold updateLimits at h1 h2 h3 ⊢
      rw [List.range_succ, List.foldl_append]
      simp only [List.foldl_cons, List.foldl_nil]
      generalize (List.range n).foldl _ (L_wMin, L_wMax) = lim at h1 h2 h3 ⊢
      split_ifs
      · refine ⟨h1, by simpa using h2, fun i hi => ⟨(h3 i hi).1, ?_⟩⟩
        by_cases hi2 : n = i
        · subst hi2
          right
          exact getD_set_eq _ _ _ _ (by omega)
        · simp only
          rw [getD_set_ne _ _ _ _ _ hi2]
          exact (h3 i hi).2
      · refine ⟨by simpa using h1, h2, fun i hi => ⟨?_, (h3 i hi).2⟩⟩
        by_cases hi2 : n = i
        · subst hi2
          right
          exact getD_set_eq _ _ _ _ (by omega)
        · simp only
          rw [getD_set_ne _ _ _ _ _ hi2]
          exact (h3 i hi).1
      · exact ⟨h1, h2, h3⟩
  intro i hi
  obtain ⟨-, -, h3⟩ := key size (le_refl _)
  obtain ⟨ha, hb⟩ := h3 i hi
  have hi1 := (hin i hi).1
  have hi2 := (hin i hi).2
  refine ⟨?_, ?_, ?_, ?_⟩
  · rcases ha with h | h <;> rw [h]
    exact hi1
  · rcases hb with h | h <;> rw [h]
    exact hi2
  · rcases ha with h | h <;> rw [h]
    exact hi1
  · rcases hb with h | h <;> rw [h]
    exact hi2

/-- What a move of `movePointAlongLineForLSRS` keeps: the recorded value never increases;
a point that is replaced has a value not below the recorded one afterwards; and the recorded
best solution is either left as it was, with its recorded value, or a position whose
objective value is the recorded value.  A point that is not replaced is not compared with
the recorded value. -/
theorem movePointAlongLineForLSRS_record (F : List ℚ → ℚ) (m : ℕ) (i k : ℕ)
    (domain : VariogramParametersDomain) (L_wMax L_wMin : List ℚ)
    (randSequence : ℕ → ℕ → ℕ → ℚ) (st : LineSearchState) :
    (movePointAlongLineForLSRS F m i k domain L_wMax L_wMin randSequence st).fOfBestSolution
      ≤ st.fOfBestSolution ∧
    ((movePointAlongLineForLSRS F m i k domain L_wMax L_wMin randSequence st).startingPoints
        = st.startingPoints ∨
      (i < st.startingPoints.length →
        (movePointAlongLineForLSRS F m i k domain L_wMax L_wMin randSequence st).fOfBestSolution
          ≤ F ((movePointAlongLineForLSRS F m i k domain L_wMax L_wMin randSequence
            st).startingPoints.getD i []))) ∧
    (((movePointAlongLineForLSRS F m i k domain L_wMax L_wMin randSequence st).fOfBestSolution
        = st.fOfBestSolution ∧
      (movePointAlongLineForLSRS F m i k domain L_wMax L_wMin randSequence st).vw_bestSolution
        = st.vw_bestSolution) ∨
      F (movePointAlongLineForLSRS F m i k domain L_wMax L_wMin randSequence st).vw_bestSolution
        = (movePointAlongLineForLSRS F m i k domain L_wMax L_wMin randSequence
          st).fOfBestSolution) := by
  unfold movePointAlongLineForLSRS
  simp only
  split_ifs with h1 h2
  · refine ⟨le_of_lt h2, Or.inr (fun h => ?_), Or.inr rfl⟩
    simp only
    rw [getD_set_eq _ _ _ _ h]
  · refine ⟨le_refl _, Or.inr (fun h => ?_), Or.inl ⟨rfl, rfl⟩⟩
    simp only
    rw [getD_set_eq _ _ _ _ h]
    exact not_lt.mp h2
  · exact ⟨le_refl _, Or.inl rfl, Or.inl ⟨rfl, rfl⟩⟩

/-- C18, the code at a failing input, a whole run of `processWithLSRS`: one structure,
domain `L_wMin = [1, 0.001, 0, 1]`, `L_wMax = [5, 1, 355/113, 100]`, two starting points in
one range of indexes, one step, one restart, `epsilon = 0.01`, an objective with
`F(v) = (v[0] - 1)^2 + (v[3] - 1)^2`, and the draws `0, 0, 0, 0` (first point),
`RAND_MAX, 0, 0, RAND_MAX` (second point), `0, 0, 0, 0` and `0, 0, 0, RAND_MAX` (the random walk
of the step).  The first point starts at `[1, 0.001, 0, 1]`, of value `0`, and cannot
improve; the second starts at `[5, 0.001, 0, 100]`, of value `9817`, and moves to
`[1, 0.001, 0, 100]`, of value `9801`.  After the step the recorded `fOfBestSolution` is
`9801`, above the value `0` at the current position of the first point, and the run returns
the structure `(1, 0.001, 0, 100)`. -/
theorem processWithLSRS_best_ignores_unmoved_point :
    lineSearchStep (fun v => (v.getD 0 0 - 1) ^ 2 + (v.getD 3 0 - 1) ^ 2) 1 [(0, 1)] 1
        (initDomainAndParameters ⟨1, 1, 10, 355 / 113, 100⟩ 1).domain [5, 1, 355 / 113, 100]
        [1, 1 / 1000, 0, 1]
        (makeRandSequence (fun n => if n = 4 ∨ n = 7 ∨ n = 15 then 2147483647 else 0) 8 4 2)
        ⟨[[1, 1 / 1000, 0, 1], [5, 1 / 1000, 0, 100]], DBL_MAX, [0, 0, 0, 0]⟩ =
      ⟨[[1, 1 / 1000, 0, 1], [1, 1 / 1000, 0, 100]], 9801, [1, 1 / 1000, 0, 100]⟩ ∧
    (fun v : List ℚ => (v.getD 0 0 - 1) ^ 2 + (v.getD 3 0 - 1) ^ 2) [1, 1 / 1000, 0, 1] = 0 ∧
    processWithLSRS (fun v => (v.getD 0 0 - 1) ^ 2 + (v.getD 3 0 - 1) ^ 2)
      ⟨1, 1, 10, 355 / 113, 100⟩ [(0, 1)]
      (fun n => if n = 4 ∨ n = 7 ∨ n = 15 then 2147483647 else 0) 1 1 (1 / 100) 2 1 =
      ([⟨1, 1 / 1000, 0, 100⟩], [9801]) := by
  have h1 : (1 : ℤ).toNat = 1 := rfl
  have h2 : (2 : ℤ).toNat = 2 := rfl
  have h0 : (0 : ℤ).toNat = 0 := rfl
  have hsp : randomStartingPoints (fun n => if n = 4 ∨ n = 7 ∨ n = 15 then 2147483647 else 0)
      [1, 1 / 1000, 0, 1] [5, 1, 355 / 113, 100] 4 2 [] 0 =
      ([[1, 1 / 1000, 0, 1], [5, 1 / 1000, 0, 100]], 8) := by
    norm_num [randomStartingPoints, randomVector, randomWithin, List.range_succ, RAND_MAX]
  have hstep : lineSearchStep (fun v => (v.getD 0 0 - 1) ^ 2 + (v.getD 3 0 - 1) ^ 2) 1 [(0, 1)] 1
      ⟨⟨1, 1 / 1000, 0, 1⟩, ⟨5, 1, 355 / 113, 100⟩⟩ [5, 1, 355 / 113, 100]
      [1, 1 / 1000, 0, 1]
      (makeRandSequence (fun n => if n = 4 ∨ n = 7 ∨ n = 15 then 2147483647 else 0) 8 4 2)
      ⟨[[1, 1 / 1000, 0, 1], [5, 1 / 1000, 0, 100]], DBL_MAX, [0, 0, 0, 0]⟩ =
      ⟨[[1, 1 / 1000, 0, 1], [1, 1 / 1000, 0, 100]], 9801, [1, 1 / 1000, 0, 100]⟩ := by
    norm_num [makeRandSequence, lineSearchStep, taskMovePointAlongLineForLSRS,
      indexRange, movePointAlongLineForLSRS, lineCandidate, alpha_k,
      IJVariographicStructure2D.getParameter, getNumberOfParameters, List.range_succ,
      RAND_MAX, DBL_MAX, h1, h0, h2]
  have hlim : updateLimits (fun v => (v.getD 0 0 - 1) ^ 2 + (v.getD 3 0 - 1) ^ 2) (1 / 100)
      [1, 1 / 1000, 0, 100] 4 ([1, 1 / 1000, 0, 1], [5, 1, 355 / 113, 100]) =
      ([1, 1 / 1000, 0, 1], [5, 1, 355 / 113, 100]) := by
    norm_num [updateLimits, List.range_succ]
  refine ⟨?_, ?_, ?_⟩
  · rw [initDomainAndParameters_one_structure]
    exact hstep
  · norm_num
  · rw [processWithLSRS]
    simp only [h1, h2, initDomainAndParameters_one_structure, List.range_succ, List.range_zero,
      List.nil_append, List.foldl_cons,
      List.foldl_nil, lineSearchRestart, getNumberOfParameters, one_mul, List.replicate, hsp,
      lineSearchSteps, List.length_cons, List.length_nil, hstep, hlim, List.nil_append]
    norm_num [readBackStructures, readBackOne, IJVariographicStructure2D.setParameter,
      zeroStructure, getNumberOfParameters, List.range_succ]

/-! ## Single-point crossover -/

theorem crossOver_fold (a b : Individual) (c : ℤ) (n : ℕ) :
    ∀ k, k ≤ n →
      ∀ ch : Individual × Individual,
        ch.1.parameters.length = n → ch.2.parameters.length = n →
        (((List.range k).foldl
          (fun (ch : Individual × Individual) (iParameter : ℕ) =>
            if (iParameter : ℤ) < c then
              ({ ch.1 with parameters :=
                    ch.1.parameters.set iParameter (a.parameters.getD iParameter 0) },
               { ch.2 with parameters :=
                    ch.2.parameters.set iParameter (b.parameters.getD iParameter 0) })
            else
              ({ ch.1 with parameters :=
                    ch.1.parameters.set iParameter (b.parameters.getD iParameter 0) },
               { ch.2 with parameters :=
                    ch.2.parameters.set iParameter (a.parameters.getD iParameter 0) }))
          ch).1.parameters.length = n ∧
        ((List.range k).foldl
          (fun (ch : Individual × Individual) (iParameter : ℕ) =>
            if (iParameter : ℤ) < c then
              ({ ch.1 with parameters :=
                    ch.1.parameters.set iParameter (a.parameters.getD iParameter 0) },
               { ch.2 with parameters :=
                    ch.2.parameters.set iParameter (b.parameters.getD iParameter 0) })
            else
              ({ ch.1 with parameters :=
                    ch.1.parameters.set iParameter (b.parameters.getD iParameter 0) },
               { ch.2 with parameters :=
                    ch.2.parameters.set iParameter (a.parameters.getD iParameter 0) }))
          ch).2.parameters.length = n ∧
        ((List.range k).foldl
          (fun (ch : Individual × Individual) (iParameter : ℕ) =>
            if (iParameter : ℤ) < c then
              ({ ch.1 with parameters :=
                    ch.1.parameters.set iParameter (a.parameters.getD iParameter 0) },
               { ch.2 with parameters :=
                    ch.2.parameters.set iParameter (b.parameters.getD iParameter 0) })
            else
              ({ ch.1 with parameters :=
                    ch.1.parameters.set iParameter (b.parameters.getD iParameter 0) },
               { ch.2 with parameters :=
                    ch.2.parameters.set iParameter (a.parameters.getD iParameter 0) }))
          ch).1.fValue = ch.1.fValue ∧
        ((List.range k).foldl
          (fun (ch : Individual × Individual) (iParameter : ℕ) =>
            if (iParameter : ℤ) < c then
              ({ ch.1 with parameters :=
                    ch.1.parameters.set iParameter (a.parameters.getD iParameter 0) },
               { ch.2 with parameters :=
                    ch.2.parameters.set iParameter (b.parameters.getD iParameter 0) })
            else
              ({ ch.1 with parameters :=
                    ch.1.parameters.set iParameter (b.parameters.getD iParameter 0) },
               { ch.2 with parameters :=
                    ch.2.parameters.set iParameter (a.parameters.getD iParameter 0) }))
          ch).2.fValue = ch.2.fValue ∧
        ∀ i, i < k →
          (((List.range k).foldl
            (fun (ch : Individual × Individual) (iParameter : ℕ) =>
              if (iParameter : ℤ) < c then
                ({ ch.1 with parameters :=
                      ch.1.parameters.set iParameter (a.parameters.getD iParameter 0) },
                 { ch.2 with parameters :=
                      ch.2.parameters.set iParameter (b.parameters.getD iParameter 0) })
              else
                ({ ch.1 with parameters :=
                      ch.1.parameters.set iParameter (b.parameters.getD iParameter 0) },
                 { ch.2 with parameters :=
                      ch.2.parameters.set iParameter (a.parameters.getD iParameter 0) }))
            ch).1.parameters.getD i 0 =
              if (i : ℤ) < c then a.parameters.getD i 0 else b.parameters.getD i 0) ∧
          (((List.range k).foldl
            (fun (ch : Individual × Individual) (iParameter : ℕ) =>
              if (iParameter : ℤ) < c then
                ({ ch.1 with parameters :=
                      ch.1.parameters.set iParameter (a.parameters.getD iParameter 0) },
                 { ch.2 with parameters :=
                      ch.2.parameters.set iParameter (b.parameters.getD iParameter 0) })
              else
                ({ ch.1 with parameters :=
                      ch.1.parameters.set iParameter (b.parameters.getD iParameter 0) },
                 { ch.2 with parameters :=
                      ch.2.parameters.set iParameter (a.parameters.getD iParameter 0) }))
            ch).2.parameters.getD i 0 =
              if (i : ℤ) < c then b.parameters.getD i 0 else a.parameters.getD i 0)) := by
  intro k
  induction k with
  | zero =>
    intro _ ch h1 h2
    exact ⟨h1, h2, rfl, rfl, fun i hi => absurd hi (Nat.not_lt_zero _)⟩
  | succ k ih =>
    intro hk ch h1 h2
    obtain ⟨l1, l2, f1, f2, hel⟩ := ih (by omega) ch h1 h2
    rw [List.range_succ, List.foldl_append]
    simp only [List.foldl_cons, List.foldl_nil]
    generalize (List.range k).foldl _ ch = r at l1 l2 f1 f2 hel ⊢
    split_ifs with hc
    · refine ⟨by simpa using l1, by simpa using l2, f1, f2, fun i hi => ?_⟩
      by_cases hik : i = k
      · subst hik
        simp only [hc, if_true]
        exact ⟨getD_set_eq _ _ _ _ (by omega), getD_set_eq _ _ _ _ (by omega)⟩
      · simp only
        rw [getD_set_ne _ _ _ _ _ (Ne.symm hik), getD_set_ne _ _ _ _ _ (Ne.symm hik)]
        exact hel i (by omega)
    · refine ⟨by simpa using l1, by simpa using l2, f1, f2, fun i hi => ?_⟩
      by_cases hik : i = k
      · subst hik
        simp only [hc, if_false]
        exact ⟨getD_set_eq _ _ _ _ (by omega), getD_set_eq _ _ _ _ (by omega)⟩
      · simp only
        rw [getD_set_ne _ _ _ _ _ (Ne.symm hik), getD_set_ne _ _ _ _ _ (Ne.symm hik)]
        exact hel i (by omega)

/-- C24: for every two individuals `a` and `b` with `n >= 1` genes each and every crossover
point `c`, `a.crossOver(b, c)` returns children `(c1, c2)` with `c1[i] = a[i]` and
`c2[i] = b[i]` for `i < c`, and `c1[i] = b[i]` and `c2[i] = a[i]` for `i >= c`; both children
have `n` genes and an unevaluated fitness (the largest `double`), and at every index the pair
of child genes is the pair of parent genes. -/
theorem crossOver_single_point (a b : Individual) (c : ℤ) (n : ℕ) (_hn : 1 ≤ n)
    (ha : a.parameters.length = n) (_hb : b.parameters.length = n) :
    (a.crossOver b c).1.parameters.length = n ∧
    (a.crossOver b c).2.parameters.length = n ∧
    (a.crossOver b c).1.fValue = DBL_MAX ∧
    (a.crossOver b c).2.fValue = DBL_MAX ∧
    ∀ i, i < n →
      ((i : ℤ) < c → (a.crossOver b c).1.parameters.getD i 0 = a.parameters.getD i 0 ∧
        (a.crossOver b c).2.parameters.getD i 0 = b.parameters.getD i 0) ∧
      (c ≤ (i : ℤ) → (a.crossOver b c).1.parameters.getD i 0 = b.parameters.getD i 0 ∧
        (a.crossOver b c).2.parameters.getD i 0 = a.parameters.getD i 0) ∧
      (((a.crossOver b c).1.parameters.getD i 0 = a.parameters.getD i 0 ∧
          (a.crossOver b c).2.parameters.getD i 0 = b.parameters.getD i 0) ∨
        ((a.crossOver b c).1.parameters.getD i 0 = b.parameters.getD i 0 ∧
          (a.crossOver b c).2.parameters.getD i 0 = a.parameters.getD i 0)) := by
  obtain ⟨l1, l2, f1, f2, hel⟩ := crossOver_fold a b c n n (le_refl _)
    (Individual.ofSize n, Individual.ofSize n) (by simp [Individual.ofSize])
    (by simp [Individual.ofSize])
  unfold Individual.crossOver
  rw [ha]
  refine ⟨l1, l2, f1, f2, fun i hi => ?_⟩
  obtain ⟨e1, e2⟩ := hel i hi
  rw [e1, e2]
  by_cases hc : (i : ℤ) < c
  · rw [if_pos hc, if_pos hc]
    exact ⟨fun _ => ⟨rfl, rfl⟩, fun h => absurd hc (not_lt.mpr h), Or.inl ⟨rfl, rfl⟩⟩
  · rw [if_neg hc, if_neg hc]
    exact ⟨fun h => absurd h hc, fun _ => ⟨rfl, rfl⟩, Or.inr ⟨rfl, rfl⟩⟩

theorem crossOver_single_point_witness :
    (1 : ℕ) ≤ 4 ∧
    (Individual.crossOver ⟨[1, 2, 3, 4], 7⟩ ⟨[5, 6, 7, 8], 9⟩ 2).1.parameters.length = 4 ∧
    (Individual.crossOver ⟨[1, 2, 3, 4], 7⟩ ⟨[5, 6, 7, 8], 9⟩ 2).1.fValue = DBL_MAX ∧
    (Individual.crossOver ⟨[1, 2, 3, 4], 7⟩ ⟨[5, 6, 7, 8], 9⟩ 2).1.parameters.getD 1 0 =
      ([1, 2, 3, 4] : List ℚ).getD 1 0 ∧
    (Individual.crossOver ⟨[1, 2, 3, 4], 7⟩ ⟨[5, 6, 7, 8], 9⟩ 2).1.parameters.getD 2 0 =
      ([5, 6, 7, 8] : List ℚ).getD 2 0 :=
  ⟨by decide,
   (crossOver_single_point ⟨[1, 2, 3, 4], 7⟩ ⟨[5, 6, 7, 8], 9⟩ 2 4 (by decide) rfl rfl).1,
   (crossOver_single_point ⟨[1, 2, 3, 4], 7⟩ ⟨[5, 6, 7, 8], 9⟩ 2 4 (by decide) rfl rfl).2.2.1,
   (((crossOver_single_point ⟨[1, 2, 3, 4], 7⟩ ⟨[5, 6, 7, 8], 9⟩ 2 4 (by decide) rfl
      rfl).2.2.2.2 1 (by decide)).1 (by decide)).1,
   (((crossOver_single_point ⟨[1, 2, 3, 4], 7⟩ ⟨[5, 6, 7, 8], 9⟩ 2 4 (by decide) rfl
      rfl).2.2.2.2 2 (by decide)).2.1 (by decide)).1⟩

/-! ## A failed step-halving ends the gradient descent -/

theorem alphaReduction_failed (F : List ℚ → ℚ) (L_wMin L_wMax gradient : List ℚ)
    (budget a : ℚ) (vw : List ℚ) (remaining : ℕ) :
    ∀ (i : ℕ) (cF nF : ℚ) (w : Bool),
      (∀ j : ℕ, (j : ℚ) < budget ↔ j < i + remaining) →
      (∀ j : ℕ, i ≤ j → (j : ℚ) < budget →
        ¬ F (descentCandidate L_wMin L_wMax vw gradient (a / 2 ^ j)) < F vw) →
      (1 ≤ remaining ∨ (cF = F vw ∧ F vw ≤ nF)) →
      (alphaReduction F L_wMin L_wMax gradient budget remaining i (a / 2 ^ i)
        ⟨vw, cF, nF, w⟩).currentF = F vw ∧
      F vw ≤ (alphaReduction F L_wMin L_wMax gradient budget remaining i (a / 2 ^ i)
        ⟨vw, cF, nF, w⟩).nextF := by
  induction remaining with
  | zero =>
    intro i cF nF w _ _ h
    rcases h with h | h
    · omega
    · exact h
  | succ n ih =>
    intro i cF nF w hb hnone _
    have hi : (i : ℚ) < budget := (hb i).mpr (by omega)
    have hstep : a / 2 ^ i / 2 = a / 2 ^ (i + 1) := by
      rw [pow_succ, div_div]
    have hb2 : ∀ j : ℕ, (j : ℚ) < budget ↔ j < (i + 1) + n := by
      intro j; rw [hb j]; omega
    have h0 := hnone i (le_refl _) hi
    unfold alphaReduction
    simp only [hi, if_true]
    unfold descentCandidate at h0
    simp only [h0, if_false, hstep]
    exact ih (i + 1) (F vw) _ false hb2 (fun j hj hjb => hnone j (by omega) hjb)
      (Or.inr ⟨rfl, not_lt.mp h0⟩)

/-- C28: in phase 2 of `processWithSAandGD`, with `convergenceCriterion > 0`, a reduction
budget `>= 1` and positive objective values: when the step-halving of an iteration finds no
improving step, the values it leaves satisfy `currentF / nextF <= 1 < 1 + convergenceCriterion`,
the iteration keeps `vw`, collects `F(vw)` and meets the convergence test, and the
gradient-descent loop ends with that iteration, however many iterations remain. -/
theorem gradientDescent_failed_backtracking_ends (F G : List ℚ → ℚ) (nThreads : ℕ)
    (epsilon initialAlpha maxNumberOfAlphaReductionSteps convergenceCriterion : ℚ)
    (L_wMin L_wMax : List ℚ) (st : DescentState)
    (hconv : 0 < convergenceCriterion) (hbudget : 1 ≤ maxNumberOfAlphaReductionSteps)
    (hpos : ∀ v, 0 < F v)
    (hnone : ∀ j : ℕ, (j : ℚ) < maxNumberOfAlphaReductionSteps →
      ¬ F (descentCandidate L_wMin L_wMax st.vw
          (computeGradient G nThreads st.vw epsilon) (initialAlpha / 2 ^ j)) < F st.vw) :
    (alphaReduction F L_wMin L_wMax (computeGradient G nThreads st.vw epsilon)
        maxNumberOfAlphaReductionSteps ⌈maxNumberOfAlphaReductionSteps⌉.toNat 0 initialAlpha
        ⟨st.vw, DBL_MAX, 1, false⟩).currentF /
      (alphaReduction F L_wMin L_wMax (computeGradient G nThreads st.vw epsilon)
        maxNumberOfAlphaReductionSteps ⌈maxNumberOfAlphaReductionSteps⌉.toNat 0 initialAlpha
        ⟨st.vw, DBL_MAX, 1, false⟩).nextF ≤ 1 ∧
    1 < 1 + convergenceCriterion ∧
    descentIteration F G nThreads epsilon initialAlpha maxNumberOfAlphaReductionSteps
        convergenceCriterion L_wMin L_wMax st = ⟨st.vw, st.trace ++ [F st.vw], true⟩ ∧
    ∀ remaining : ℕ,
      gradientDescent F G nThreads epsilon initialAlpha maxNumberOfAlphaReductionSteps
        convergenceCriterion L_wMin L_wMax (remaining + 1) st =
      ⟨st.vw, st.trace ++ [F st.vw], true⟩ := by
  have hrem : 1 ≤ ⌈maxNumberOfAlphaReductionSteps⌉.toNat := by
    have : (0 : ℕ) < 0 + ⌈maxNumberOfAlphaReductionSteps⌉.toNat :=
      (lt_budget_iff maxNumberOfAlphaReductionSteps 0).mp (by push_cast; linarith)
    omega
  have hvw := (alphaReduction_vw F L_wMin L_wMax (computeGradient G nThreads st.vw epsilon)
    maxNumberOfAlphaReductionSteps initialAlpha st.vw ⌈maxNumberOfAlphaReductionSteps⌉.toNat
    0 DBL_MAX 1 false (lt_budget_iff maxNumberOfAlphaReductionSteps)).1
    (fun j _ hj => hnone j hj)
  have hF := alphaReduction_failed F L_wMin L_wMax (computeGradient G nThreads st.vw epsilon)
    maxNumberOfAlphaReductionSteps initialAlpha st.vw ⌈maxNumberOfAlphaReductionSteps⌉.toNat
    0 DBL_MAX 1 false (lt_budget_iff maxNumberOfAlphaReductionSteps)
    (fun j _ hj => hnone j hj) (Or.inl hrem)
  simp only [pow_zero, div_one] at hvw hF
  obtain ⟨hc, hnx⟩ := hF
  have hratio : (alphaReduction F L_wMin L_wMax (computeGradient G nThreads st.vw epsilon)
        maxNumberOfAlphaReductionSteps ⌈maxNumberOfAlphaReductionSteps⌉.toNat 0 initialAlpha
        ⟨st.vw, DBL_MAX, 1, false⟩).currentF /
      (alphaReduction F L_wMin L_wMax (computeGradient G nThreads st.vw epsilon)
        maxNumberOfAlphaReductionSteps ⌈maxNumberOfAlphaReductionSteps⌉.toNat 0 initialAlpha
        ⟨st.vw, DBL_MAX, 1, false⟩).nextF ≤ 1 := by
    rw [hc]
    exact (div_le_one (lt_of_lt_of_le (hpos st.vw) hnx)).mpr hnx
  have hit : descentIteration F G nThreads epsilon initialAlpha
      maxNumberOfAlphaReductionSteps convergenceCriterion L_wMin L_wMax st =
      ⟨st.vw, st.trace ++ [F st.vw], true⟩ := by
    unfold descentIteration
    simp only [hvw, hc]
    congr 1
    rw [decide_eq_true_eq, ← hc]
    linarith
  refine ⟨hratio, by linarith, hit, fun remaining => ?_⟩
  unfold gradientDescent
  simp only [hit, if_true]

theorem gradientDescent_failed_backtracking_ends_witness :
    (0 : ℚ) < 1 / 1000 ∧ (1 : ℚ) ≤ 3 ∧
    descentIteration (fun v => 1 + (v.map (fun x => x * x)).sum)
      (fun v => 1 + (v.map (fun x => x * x)).sum) 1 (1 / 100) 1 3 (1 / 1000) [-5] [5]
      ⟨[0], [], false⟩ = ⟨[0], [1], true⟩ ∧
    gradientDescent (fun v => 1 + (v.map (fun x => x * x)).sum)
      (fun v => 1 + (v.map (fun x => x * x)).sum) 1 (1 / 100) 1 3 (1 / 1000) [-5] [5]
      (9 + 1) ⟨[0], [], false⟩ = ⟨[0], [1], true⟩ := by
  have hg : computeGradient (fun v => 1 + (v.map (fun x => x * x)).sum) 1 [0] (1 / 100)
      = [0] := by
    norm_num [computeGradient, parameterIndexBins, taskOnePartialDerivative, List.range_succ,
      List.replicate, List.modify, List.modifyHead]
  have hpos : ∀ v : List ℚ, 0 < (fun v : List ℚ => 1 + (v.map (fun x => x * x)).sum) v := by
    intro v
    have : 0 ≤ (v.map (fun x => x * x)).sum :=
      List.sum_nonneg (fun x hx => by
        obtain ⟨y, -, rfl⟩ := List.mem_map.mp hx
        exact mul_self_nonneg y)
    simp only
    linarith
  have h := gradientDescent_failed_backtracking_ends
    (fun v => 1 + (v.map (fun x => x * x)).sum) (fun v => 1 + (v.map (fun x => x * x)).sum)
    1 (1 / 100) 1 3 (1 / 1000) [-5] [5] ⟨[0], [], false⟩ (by norm_num) (by norm_num) hpos
    (by
      intro j _
      rw [hg]
      norm_num [descentCandidate, imposeDomain, List.range_succ])
  refine ⟨by norm_num, by norm_num, ?_, ?_⟩
  · have := h.2.2.1
    simpa using this
  · have := h.2.2.2 9
    simpa using this

/-! ## The weight of a cell of the experimental map -/

/-- C22, the claim as stated fails: at the distance `d = 1` with a mean cell spacing of `1`
the weight is `1 / 6.28 = 25/157`, which is above `1 / (d * 2*pi*d / meanCellSpacing)`, since
`6.28 < 2*pi`. -/
theorem cellWeight_not_two_pi :
    cellWeight 1 1 = 25 / 157 ∧
    (1 : ℝ) / (1 * (2 * Real.pi) * 1 / 1) < ((cellWeight 1 1 : ℚ) : ℝ) := by
  have h : cellWeight 1 1 = 25 / 157 := by norm_num [cellWeight]
  refine ⟨h, ?_⟩
  rw [h]
  have hpi := Real.pi_gt_d2
  have hpos : (0 : ℝ) < 2 * Real.pi := by positivity
  have hform : (1 : ℝ) / (1 * (2 * Real.pi) * 1 / 1) = 1 / (2 * Real.pi) := by
    rw [one_mul, mul_one, div_one]
  rw [hform, div_lt_iff₀ hpos]
  push_cast
  nlinarith

/-- C22: in the surface-distance strategy, the weight of a cell at distance `d` from the grid
centre is exactly `0` when `d < 0.0001` and is `1 / (d * 6.28 * d / meanCellSpacing)`
otherwise; in the latter case the divisor `d` is not zero, and neither is the divisor
`6.28 * d / meanCellSpacing` when the mean cell spacing is not zero; a zero distance gets the
weight `0`, whatever the mean cell spacing; and these are the weights the weight map holds
for the cells of the grid. -/
theorem cellWeight_zero_weight_policy (d meanSampleSpacing : ℚ) :
    (d < 1 / 10000 → cellWeight d meanSampleSpacing = 0) ∧
    (1 / 10000 ≤ d →
      cellWeight d meanSampleSpacing = 1 / (d * (628 / 100) * d / meanSampleSpacing) ∧
      d ≠ 0 ∧ (meanSampleSpacing ≠ 0 → 628 / 100 * d / meanSampleSpacing ≠ 0)) ∧
    cellWeight 0 meanSampleSpacing = 0 ∧
    (∀ (self : AutomaticVariogramFitting) (g : GridGeometry) (i j k : ℕ),
      i < g.nI → j < g.nJ → k < g.nK →
      (computeWeights self g).cell i j k =
        cellWeight (self.distanceToCenter i j k) g.meanSampleSpacing) := by
  refine ⟨fun h => ?_, fun h => ?_, ?_, fun self g i j k hi hj hk => ?_⟩
  · unfold cellWeight
    rw [if_pos h]
  · have hd : 0 < d := lt_of_lt_of_le (by norm_num) h
    refine ⟨?_, ne_of_gt hd, fun hm => ?_⟩
    · unfold cellWeight
      rw [if_neg (not_lt.mpr h), div_div]
      congr 1
      ring
    · exact div_ne_zero (mul_ne_zero (by norm_num) (ne_of_gt hd)) hm
  · unfold cellWeight
    rw [if_pos (by norm_num)]
  · unfold computeWeights
    simp only [hi, hj, hk, and_self, if_true]

theorem cellWeight_zero_weight_policy_witness :
    (1 : ℚ) / 10000 ≤ 2 ∧
    cellWeight 2 3 = 1 / (2 * (628 / 100) * 2 / 3) ∧ (2 : ℚ) ≠ 0 ∧
    ((3 : ℚ) ≠ 0 → 628 / 100 * (2 : ℚ) / 3 ≠ 0) :=
  ⟨by norm_num, (cellWeight_zero_weight_policy 2 3).2.1 (by norm_num)⟩

/-! ## The memoized quantities of the objective function -/

theorem objectiveFunction_statics (self : AutomaticVariogramFitting) (st : ObjectiveStatics)
    (g : GridGeometry) (data : SpectralArray) (vw : List ℚ) (m : ℕ) :
    (self.objectiveFunction st g data vw m).2 =
      ⟨if (recomputes self st).1 then self.computeVarmap else st.inputVarmap,
       if (recomputes self st).1 then some self.m_at else st.currentAttribute,
       if (recomputes self st).2.1 then computeWeights self g else st.weights,
       if (recomputes self st).2.1 then some self.m_at else st.currentAttribute2,
       if (recomputes self st).2.2 then self.getInputPhaseMap else st.inputFFTphases,
       if (recomputes self st).2.2 then some self.m_at else st.currentAttribute3⟩ := by
  unfold AutomaticVariogramFitting.objectiveFunction recomputes
  cases h : self.m_objectiveFunctionType
  · simp only [AutomaticVariogramFitting.objectiveFunctionFIM]
    by_cases h3 : st.inputFFTphases.dataEmpty = true ∨ st.currentAttribute3 ≠ some self.m_at
    · simp [h3]
    · simp [h3]
  · simp only [AutomaticVariogramFitting.objectiveFunctionVARFIT]
    by_cases h1 : st.inputVarmap.dataEmpty = true ∨ st.currentAttribute ≠ some self.m_at
    · by_cases h2 : st.weights.dataEmpty = true ∨ st.currentAttribute2 ≠ some self.m_at
      · simp [h1, h2]
      · simp [h1, h2]
    · by_cases h2 : st.weights.dataEmpty = true ∨ st.currentAttribute2 ≠ some self.m_at
      · simp [h1, h2]
      · simp [h1, h2]

theorem computationLog_same_variable (a : ℕ) (t : ObjectiveFunctionType) :
    ∀ (rest : List ObjectiveCall) (st : ObjectiveStatics),
      (∀ c, c ∈ rest → c.self.m_at = a ∧ c.self.m_objectiveFunctionType = t) →
      (t = ObjectiveFunctionType.BASED_ON_VARFIT →
        st.inputVarmap.dataEmpty = false ∧ st.currentAttribute = some a ∧
        st.weights.dataEmpty = false ∧ st.currentAttribute2 = some a) →
      (t = ObjectiveFunctionType.BASED_ON_FIM →
        st.inputFFTphases.dataEmpty = false ∧ st.currentAttribute3 = some a) →
      computationLog st rest = List.replicate rest.length (a, false, false, false) := by
  intro rest
  induction rest with
  | nil => intro st _ _ _; rfl
  | cons c rest ih =>
    intro st hall hv hf
    obtain ⟨ha, ht⟩ := hall c (List.mem_cons_self _ _)
    have hflags : recomputes c.self st = (false, false, false) := by
      unfold recomputes
      rw [ht]
      cases t with
      | BASED_ON_FIM =>
        obtain ⟨h1, h2⟩ := hf rfl
        simp [h1, h2, ha]
      | BASED_ON_VARFIT =>
        obtain ⟨h1, h2, h3, h4⟩ := hv rfl
        simp [h1, h2, h3, h4, ha]
    have hst : (c.self.objectiveFunction st c.gridWithGeometry c.inputGridData
        c.vectorOfParameters c.m).2 = st := by
      rw [objectiveFunction_statics, hflags]
      rfl
    unfold computationLog
    rw [hst, hflags, ih st (fun c' hc' => hall c' (List.mem_cons_of_mem _ hc')) hv hf, ha]
    rfl

theorem objectiveFunction_sets_attribute (self : AutomaticVariogramFitting)
    (st : ObjectiveStatics) (g : GridGeometry) (data : SpectralArray) (vw : List ℚ) (m : ℕ) :
    (self.m_objectiveFunctionType = ObjectiveFunctionType.BASED_ON_VARFIT →
      (self.objectiveFunction st g data vw m).2.currentAttribute = some self.m_at ∧
      (self.objectiveFunction st g data vw m).2.currentAttribute2 = some self.m_at) ∧
    (self.m_objectiveFunctionType = ObjectiveFunctionType.BASED_ON_FIM →
      (self.objectiveFunction st g data vw m).2.currentAttribute3 = some self.m_at) := by
  rw [objectiveFunction_statics]
  unfold recomputes
  constructor
  · intro h
    rw [h]
    simp only
    constructor
    · by_cases h1 : st.inputVarmap.dataEmpty = true ∨ st.currentAttribute ≠ some self.m_at
      · simp [h1]
      · have := not_or.mp h1
        simp only [ne_eq, not_not] at this
        simp [h1, this.2]
    · by_cases h2 : st.weights.dataEmpty = true ∨ st.currentAttribute2 ≠ some self.m_at
      · simp [h2]
      · have := not_or.mp h2
        simp only [ne_eq, not_not] at this
        simp [h2, this.2]
  · intro h
    rw [h]
    simp only
    by_cases h3 : st.inputFFTphases.dataEmpty = true ∨ st.currentAttribute3 ≠ some self.m_at
    · simp [h3]
    · have := not_or.mp h3
      simp only [ne_eq, not_not] at this
      simp [h3, this.2]

/-- C23, the claim as stated fails: three calls with the surface-distance strategy made since
the program was loaded, for the input variables `1`, `2` and `1` again: each of the three
calls computes the experimental map and the weight map, so both are computed twice for the
variable `1`. -/
theorem computationLog_recomputes_after_other_variable :
    computationLog ObjectiveStatics.initial
      [⟨varfitSession 1, ⟨1, 1, 1, 1, 1, 1⟩, SpectralArray.filled 1 1 1 0, [2, 1, 0, 3], 1⟩,
       ⟨varfitSession 2, ⟨1, 1, 1, 1, 1, 1⟩, SpectralArray.filled 1 1 1 0, [2, 1, 0, 3], 1⟩,
       ⟨varfitSession 1, ⟨1, 1, 1, 1, 1, 1⟩, SpectralArray.filled 1 1 1 0, [2, 1, 0, 3], 1⟩] =
      [(1, true, true, false), (2, true, true, false), (1, true, true, false)] := by
  simp [computationLog, objectiveFunction_statics, recomputes, varfitSession,
    ObjectiveStatics.initial, SpectralArray.empty, SpectralArray.dataEmpty,
    SpectralArray.filled, computeWeights]

/-- C23: for every sequence of objective-function calls, each memoized quantity (experimental
map, weight map, phase map) is kept for one input variable at a time: a call computes a
quantity of its strategy exactly when that quantity is empty or was last computed for another
input variable, and then records its own input variable; a quantity that is not computed is
left as it was.  Hence in a run of consecutive calls for one input variable with one
strategy, once the first call has left the quantities of the strategy non-empty, no later call
of the run computes any of them. -/
theorem objectiveFunction_memo_one_variable_at_a_time :
    (∀ (self : AutomaticVariogramFitting) (st : ObjectiveStatics) (g : GridGeometry)
        (data : SpectralArray) (vw : List ℚ) (m : ℕ),
      (self.objectiveFunction st g data vw m).2 =
        ⟨if (recomputes self st).1 then self.computeVarmap else st.inputVarmap,
         if (recomputes self st).1 then some self.m_at else st.currentAttribute,
         if (recomputes self st).2.1 then computeWeights self g else st.weights,
         if (recomputes self st).2.1 then some self.m_at else st.currentAttribute2,
         if (recomputes self st).2.2 then self.getInputPhaseMap else st.inputFFTphases,
         if (recomputes self st).2.2 then some self.m_at else st.currentAttribute3⟩) ∧
    (∀ (c : ObjectiveCall) (rest : List ObjectiveCall) (st : ObjectiveStatics),
      (∀ c2, c2 ∈ rest → c2.self.m_at = c.self.m_at ∧
        c2.self.m_objectiveFunctionType = c.self.m_objectiveFunctionType) →
      (c.self.m_objectiveFunctionType = ObjectiveFunctionType.BASED_ON_VARFIT →
        (c.self.objectiveFunction st c.gridWithGeometry c.inputGridData
          c.vectorOfParameters c.m).2.inputVarmap.dataEmpty = false ∧
        (c.self.objectiveFunction st c.gridWithGeometry c.inputGridData
          c.vectorOfParameters c.m).2.weights.dataEmpty = false) →
      (c.self.m_objectiveFunctionType = ObjectiveFunctionType.BASED_ON_FIM →
        (c.self.objectiveFunction st c.gridWithGeometry c.inputGridData
          c.vectorOfParameters c.m).2.inputFFTphases.dataEmpty = false) →
      computationLog st (c :: rest) =
        (c.self.m_at, recomputes c.self st) ::
          List.replicate rest.length (c.self.m_at, false, false, false)) := by
  refine ⟨objectiveFunction_statics, fun c rest st hall hv hf => ?_⟩
  have hattr := objectiveFunction_sets_attribute c.self st c.gridWithGeometry c.inputGridData
    c.vectorOfParameters c.m
  rw [computationLog]
  rw [computationLog_same_variable c.self.m_at c.self.m_objectiveFunctionType rest _ hall
    (fun h => ⟨(hv h).1, (hattr.1 h).1, (hv h).2, (hattr.1 h).2⟩)
    (fun h => ⟨hf h, hattr.2 h⟩)]

theorem objectiveFunction_memo_one_variable_at_a_time_witness :
    computationLog ObjectiveStatics.initial
      [⟨varfitSession 1, ⟨1, 1, 1, 1, 1, 1⟩, SpectralArray.filled 1 1 1 0, [2, 1, 0, 3], 1⟩,
       ⟨varfitSession 1, ⟨1, 1, 1, 1, 1, 1⟩, SpectralArray.filled 1 1 1 5, [4, 1, 0, 3], 1⟩,
       ⟨varfitSession 1, ⟨1, 1, 1, 1, 1, 1⟩, SpectralArray.filled 1 1 1 0, [2, 1, 0, 3], 1⟩] =
      (1, recomputes (varfitSession 1) ObjectiveStatics.initial) ::
        List.replicate 2 (1, false, false, false) :=
  objectiveFunction_memo_one_variable_at_a_time.2
    ⟨varfitSession 1, ⟨1, 1, 1, 1, 1, 1⟩, SpectralArray.filled 1 1 1 0, [2, 1, 0, 3], 1⟩
    [⟨varfitSession 1, ⟨1, 1, 1, 1, 1, 1⟩, SpectralArray.filled 1 1 1 5, [4, 1, 0, 3], 1⟩,
     ⟨varfitSession 1, ⟨1, 1, 1, 1, 1, 1⟩, SpectralArray.filled 1 1 1 0, [2, 1, 0, 3], 1⟩]
    ObjectiveStatics.initial
    (by intro c2 hc2; simp at hc2; rcases hc2 with h | h <;> subst h <;> exact ⟨rfl, rfl⟩)
    (by
      intro _
      simp [objectiveFunction_statics, recomputes, varfitSession, ObjectiveStatics.initial,
        SpectralArray.empty, SpectralArray.dataEmpty, SpectralArray.filled, computeWeights])
    (by intro h; simp [varfitSession] at h)

/-! ## The global best of the swarm after the initialisation -/

/-- C27, the code at a failing input, a whole run of `processWithPSO`: one structure, domain
`L_wMin = [1, 0.001, 0, 1]`, `L_wMax = [5, 1, 355/113, 100]`, two particles, one step, inertia
`0.5`, acceleration constants `2` and `0.5`, an objective with `F(v) = (v[0] - 1)^2`, and the
draws `RAND_MAX, 0, 0, 0` (first particle, at `[5, 0.001, 0, 1]`, value `16`), `0, 0, 0, 0`
(second particle, at `[1, 0.001, 0, 1]`, value `0`), then `0, 0` and `0, RAND_MAX` for the
random scalars of the step.  The initialisation finds the second particle as global best, but
leaves `fOfgbest` at the largest `double`; the candidate of the first particle, its own
position of value `16`, replaces the global best, and then the candidate of the second
particle, `[3, 0.001, 0, 1]` of value `4`, replaces it again.  The run returns the structure
`(3, 0.001, 0, 1)`, whose value `4` is above the value `0` of the initial position of the
second particle. -/
theorem processWithPSO_forgets_initial_best :
    (initGlobalBest (fun v => (v.getD 0 0 - 1) ^ 2)
      [⟨[5, 1 / 1000, 0, 1], [0, 0, 0, 0], [5, 1 / 1000, 0, 1], DBL_MAX⟩,
       ⟨[1, 1 / 1000, 0, 1], [0, 0, 0, 0], [1, 1 / 1000, 0, 1], DBL_MAX⟩]) =
      ([1, 1 / 1000, 0, 1], 0) ∧
    processWithPSO (fun v => (v.getD 0 0 - 1) ^ 2) ⟨1, 1, 10, 355 / 113, 100⟩
      (fun n => if n = 0 ∨ n = 11 then 2147483647 else 0) 1 1 2 (1 / 2) 2 (1 / 2) =
      ([⟨3, 1 / 1000, 0, 1⟩], [4]) ∧
    (fun v : List ℚ => (v.getD 0 0 - 1) ^ 2) [1, 1 / 1000, 0, 1] <
      (fun v : List ℚ => (v.getD 0 0 - 1) ^ 2) [3, 1 / 1000, 0, 1] := by
  have h1 : (1 : ℤ).toNat = 1 := rfl
  have h2 : (2 : ℤ).toNat = 2 := rfl
  refine ⟨?_, ?_, by norm_num⟩
  · norm_num [initGlobalBest, DBL_MAX]
  · simp only [processWithPSO, h1, h2, initDomainAndParameters_example]
    norm_num [initParticles, randomVector, randomWithin, RAND_MAX, List.range_succ,
      getNumberOfParameters, initGlobalBest, DBL_MAX, swarmStep, moveParticle,
      candidateParticle, candidateVelocity, bounce, List.replicate, readBackStructures,
      readBackOne, IJVariographicStructure2D.setParameter]

/-! ## The individual returned by the genetic algorithm -/

theorem sortIndividuals_head (v : List Individual) (hv : v ≠ []) (d : Individual) :
    (sortIndividuals v).headD d ∈ v ∧
    ∀ x, x ∈ v → ((sortIndividuals v).headD d).fValue ≤ x.fValue := by
  unfold sortIndividuals
  have hperm := List.perm_insertionSort Individual.le v
  have hsorted := List.sorted_insertionSort Individual.le v
  cases hs : v.insertionSort Individual.le with
  | nil =>
    rw [hs] at hperm
    exact absurd hperm.symm.eq_nil hv
  | cons a rest =>
    rw [hs] at hperm hsorted
    simp only [List.headD_cons]
    refine ⟨hperm.mem_iff.mp (List.mem_cons_self _ _), fun x hx => ?_⟩
    rcases List.mem_cons.mp (hperm.mem_iff.mpr hx) with h | h
    · rw [h]
    · exact List.rel_of_sorted_cons hsorted x h

theorem geneticGeneration_population_ge (F : List ℚ → ℚ) (rnd : ℕ → ℕ) (fuel : ℕ)
    (individualsIndexesRanges : List (ℤ × ℤ)) (L_wMin L_wMax : List ℚ)
    (totalNumberOfParameters nPopulationSize nSelectionSize : ℕ) (probabilityOfCrossOver : ℚ)
    (pointOfCrossover : ℕ) (mutationRate : ℚ) (st st1 : GeneticState)
    (h : geneticGeneration F rnd fuel individualsIndexesRanges L_wMin L_wMax
      totalNumberOfParameters nPopulationSize nSelectionSize probabilityOfCrossOver
      pointOfCrossover mutationRate st = some st1) :
    nSelectionSize ≤ st1.population.length := by
  unfold geneticGeneration at h
  simp only at h
  split at h
  · exact absurd h (by simp)
  · rename_i selection c1 hsel
    split at h
    · exact absurd h (by simp)
    · rename_i nextGen c2 hnext
      simp only [Option.some.injEq] at h
      have hlen := binaryTournaments_length _ _ _ _ _ _ _ _ hsel
      simp only [List.length_nil, zero_add] at hlen
      obtain ⟨pairs, hout, -, hp2⟩ := crossoverAndMutation_pairs _ _ _ _ _ _ _ _ _ _ _ _ _ hnext
      rw [List.nil_append] at hout
      rw [hlen] at hp2
      have hb := flatten_length_bounds (pairs.map (fun b => (pairContribution rnd
        probabilityOfCrossOver pointOfCrossover mutationRate L_wMin L_wMax b.1 b.2.1
        b.2.2).1)) (by
          intro b hb
          obtain ⟨x, -, rfl⟩ := List.mem_map.mp hb
          rw [pairContribution_length]
          split_ifs <;> omega)
      rw [List.length_map] at hb
      rw [← h]
      simp only
      rw [hout]
      omega

theorem geneticGenerations_population_ge (F : List ℚ → ℚ) (rnd : ℕ → ℕ) (fuel : ℕ)
    (individualsIndexesRanges : List (ℤ × ℤ)) (L_wMin L_wMax : List ℚ)
    (totalNumberOfParameters nPopulationSize nSelectionSize : ℕ) (probabilityOfCrossOver : ℚ)
    (pointOfCrossover : ℕ) (mutationRate : ℚ) (n : ℕ) :
    ∀ st st1 : GeneticState,
      geneticGenerations F rnd fuel individualsIndexesRanges L_wMin L_wMax
        totalNumberOfParameters nPopulationSize nSelectionSize probabilityOfCrossOver
        pointOfCrossover mutationRate (n + 1) st = some st1 →
      nSelectionSize ≤ st1.population.length := by
  induction n with
  | zero =>
    intro st st1 h
    unfold geneticGenerations at h
    split at h
    · exact absurd h (by simp)
    · rename_i st2 hgen
      simp only [geneticGenerations, Option.some.injEq] at h
      rw [← h]
      exact geneticGeneration_population_ge _ _ _ _ _ _ _ _ _ _ _ _ _ _ hgen
  | succ n ih =>
    intro st st1 h
    unfold geneticGenerations at h
    split at h
    · exact absurd h (by simp)
    · rename_i st2 hgen
      exact ih st2 st1 h

/-- What a run of `processWithGenetic` returns when it returns (all the `erase` calls of its
pairing loops at positions of elements, the drawing loops within their fuel), for a
configuration that passes the sanity checks, with at least one generation and
`nSelectionSize >= 2`: the structures decode the parameter vector of an individual of the
final population (structure `s` holds the elements `4s .. 4s+3` of that vector) whose
re-evaluated objective value is `<=` the re-evaluated objective value of every individual of
that final population. -/
theorem processWithGenetic_returns_best (F : List ℚ → ℚ) (g : DomainInputs)
    (generateSubRanges : ℤ → ℤ → ℤ → List (ℤ × ℤ)) (rnd : ℕ → ℕ) (fuel : ℕ)
    (nThreads m maxNumberOfGenerations : ℤ) (nPopulationSize nSelectionSize : ℕ)
    (probabilityOfCrossOver : ℚ) (pointOfCrossover : ℕ) (mutationRate : ℚ)
    (structures : List IJVariographicStructure2D) (trace : List ℚ)
    (hvalid : geneticSanityChecksReject m nPopulationSize nSelectionSize pointOfCrossover
      = false)
    (hgen : 1 ≤ maxNumberOfGenerations) (hsel : 2 ≤ nSelectionSize)
    (hrun : processWithGenetic F g generateSubRanges rnd fuel nThreads m
      maxNumberOfGenerations nPopulationSize nSelectionSize probabilityOfCrossOver
      pointOfCrossover mutationRate = some (structures, trace)) :
    ∃ (final : GeneticState) (ind : Individual),
      geneticGenerations F rnd fuel (generateSubRanges 0 ((nPopulationSize : ℤ) - 1) nThreads)
        (initDomainAndParameters g m.toNat).L_wMin (initDomainAndParameters g m.toNat).L_wMax
        (totalNumberOfParameters m) nPopulationSize nSelectionSize probabilityOfCrossOver
        pointOfCrossover mutationRate maxNumberOfGenerations.toNat ⟨[], [], 0⟩ = some final ∧
      ind ∈ final.population ∧
      (∀ other, other ∈ final.population → F ind.parameters ≤ F other.parameters) ∧
      structures = readBackStructures ind.parameters
        (initDomainAndParameters g m.toNat).variogramStructures m.toNat ∧
      ∀ s, s < m.toNat → structures.getD s zeroStructure = quadAt ind.parameters s := by
  unfold processWithGenetic at hrun
  rw [hvalid] at hrun
  simp only [Bool.false_eq_true, if_false] at hrun
  split at hrun
  · exact absurd hrun (by simp)
  · rename_i final hfinal
    simp only [Option.some.injEq, Prod.mk.injEq] at hrun
    obtain ⟨hstruct, -⟩ := hrun
    obtain ⟨n, hn⟩ : ∃ n, maxNumberOfGenerations.toNat = n + 1 :=
      ⟨maxNumberOfGenerations.toNat - 1, by omega⟩
    have hpop : nSelectionSize ≤ final.population.length := by
      rw [hn] at hfinal
      exact geneticGenerations_population_ge _ _ _ _ _ _ _ _ _ _ _ _ n _ _ hfinal
    have hne : final.population.map (fun ind => { ind with fValue := F ind.parameters }) ≠ [] := by
      intro h
      have := congrArg List.length h
      simp only [List.length_map, List.length_nil] at this
      omega
    obtain ⟨hmem, hmin⟩ := sortIndividuals_head _ hne (Individual.ofSize 0)
    obtain ⟨ind, hind, hhead⟩ := List.mem_map.mp hmem
    have hpar : ((sortIndividuals (final.population.map
        (fun ind => { ind with fValue := F ind.parameters }))).headD
          (Individual.ofSize 0)).parameters = ind.parameters := by
      rw [← hhead]
    have hfv : ((sortIndividuals (final.population.map
        (fun ind => { ind with fValue := F ind.parameters }))).headD
          (Individual.ofSize 0)).fValue = F ind.parameters := by
      rw [← hhead]
    refine ⟨final, ind, hfinal, hind, fun other ho => ?_, ?_, ?_⟩
    · have := hmin { other with fValue := F other.parameters }
        (List.mem_map.mpr ⟨other, ho, rfl⟩)
      rw [hfv] at this
      exact this
    · rw [← hstruct, hpar]
    · intro s hs
      obtain ⟨out, hout, -, hget⟩ := readBack_fold ind.parameters
        (initDomainAndParameters g m.toNat).variogramStructures m.toNat
        (by rw [(initDomainAndParameters_lengths g m.toNat).2.2.2])
      rw [← hstruct, hpar]
      unfold readBackStructures
      rw [hout]
      exact hget s hs

theorem processWithGenetic_example :
    processWithGenetic (fun v => v.sum) ⟨1, 1, 10, 355 / 113, 100⟩ (fun a b _ => [(a, b)])
      geneticDraws 3 1 1 1 4 2 (1 / 2) 2 0 = some ([⟨1, 1 / 1000, 0, 1⟩], [6001 / 1000]) := by
  have h1 : (1 : ℤ).toNat = 1 := rfl
  have hr : ((4 : ℕ) : ℤ) - 1 = 3 := by norm_num
  have ht : totalNumberOfParameters 1 = 4 := by decide
  have hs : geneticSanityChecksReject 1 4 2 2 = false := by decide
  unfold processWithGenetic
  rw [hs]
  simp only [Bool.false_eq_true, if_false, h1, hr, ht, initDomainAndParameters_one_structure,
    geneticGenerations, geneticGeneration_example]
  norm_num [sortIndividuals, Individual.le, readBackStructures, readBackOne,
    IJVariographicStructure2D.setParameter, zeroStructure, getNumberOfParameters,
    List.range_succ, DBL_MAX, List.insertionSort, List.orderedInsert, Individual.ofSize]

theorem processWithGenetic_returns_best_witness :
    geneticSanityChecksReject 1 4 2 2 = false ∧ (1 : ℤ) ≤ 1 ∧ (2 : ℕ) ≤ 2 ∧
    ∃ (final : GeneticState) (ind : Individual),
      geneticGenerations (fun v => v.sum) geneticDraws 3
        ((fun (a b _ : ℤ) => [(a, b)]) 0 (((4 : ℕ) : ℤ) - 1) 1)
        (initDomainAndParameters ⟨1, 1, 10, 355 / 113, 100⟩ (1 : ℤ).toNat).L_wMin
        (initDomainAndParameters ⟨1, 1, 10, 355 / 113, 100⟩ (1 : ℤ).toNat).L_wMax
        (totalNumberOfParameters 1) 4 2 (1 / 2) 2 0 (1 : ℤ).toNat ⟨[], [], 0⟩ = some final ∧
      ind ∈ final.population ∧
      (∀ other, other ∈ final.population →
        (fun v : List ℚ => v.sum) ind.parameters ≤ (fun v : List ℚ => v.sum) other.parameters) ∧
      ([⟨1, 1 / 1000, 0, 1⟩] : List IJVariographicStructure2D) =
        readBackStructures ind.parameters
          (initDomainAndParameters ⟨1, 1, 10, 355 / 113, 100⟩
            (1 : ℤ).toNat).variogramStructures (1 : ℤ).toNat ∧
      ∀ s, s < (1 : ℤ).toNat →
        ([⟨1, 1 / 1000, 0, 1⟩] : List IJVariographicStructure2D).getD s zeroStructure =
          quadAt ind.parameters s :=
  ⟨by decide, by decide, by decide,
    processWithGenetic_returns_best (fun v => v.sum) ⟨1, 1, 10, 355 / 113, 100⟩
      (fun a b _ => [(a, b)]) geneticDraws 3 1 1 1 4 2 (1 / 2) 2 0 _ _ (by decide) (by decide)
      (by decide) processWithGenetic_example⟩

/-- C21, the code at a failing input, a whole run of `processWithGenetic` of one generation:
one structure, the domain `L_wMin = [1, 0.001, 0, 1]`, `L_wMax = [5, 1, 355/113, 100]`,
`nPopulationSize = 4`, `nSelectionSize = 2`, `probabilityOfCrossOver = 0.5`,
`pointOfCrossover = 2`, `mutationRate = 0`, the objective `F(v) = sum v[i]` and the draws
`alternatingDraws` (`0` at the even positions, `RAND_MAX` at the odd ones).  The configuration
passes the sanity checks.  The four individuals are `[1, 1, 0, 100]` (value `102`) and the
tournaments put two of them into the selection pool.  The pairing loop draws
`parentIndex1 = 0` and `parentIndex2 = 1`; the first `erase` leaves a pool of one individual
and the second `erase`, at position `1`, is at its `end()`: there is no element there, the
call has no defined behaviour and the run returns no structures, whatever the number of draws
allowed to the drawing loops. -/
theorem processWithGenetic_erases_at_end :
    geneticSanityChecksReject 1 4 2 2 = false ∧
    selectionAtPairing (fun v => v.sum) alternatingDraws 3 [(0, 3)] [1, 1 / 1000, 0, 1]
      [5, 1, 355 / 113, 100] 4 4 2 ⟨[], [], 0⟩ =
      some ([⟨[1, 1, 0, 100], 102⟩, ⟨[1, 1, 0, 100], 102⟩], 20) ∧
    randomIndex (alternatingDraws 20) 2 = 0 ∧
    drawDifferent alternatingDraws 2 0 3 21 = some (1, 22) ∧
    eraseAt [⟨[1, 1, 0, 100], 102⟩, ⟨[1, 1, 0, 100], 102⟩] 0 = some [⟨[1, 1, 0, 100], 102⟩] ∧
    eraseAt [⟨[1, 1, 0, 100], 102⟩] 1 = none ∧
    ∀ fuel, processWithGenetic (fun v => v.sum) ⟨1, 1, 10, 355 / 113, 100⟩
      (fun a b _ => [(a, b)]) alternatingDraws fuel 1 1 1 4 2 (1 / 2) 2 0 = none := by
  have t0 : (0 : ℤ).toNat = 0 := rfl
  have t1 : (1 : ℤ).toNat = 1 := rfl
  have t3 : (3 : ℤ).toNat = 3 := rfl
  have r1 : randomIndex 0 4 = 0 := by norm_num [randomIndex, RAND_MAX]
  have r2 : randomIndex 2147483647 4 = 3 := by norm_num [randomIndex, RAND_MAX, t3]
  have r4 : randomIndex 2147483647 2 = 1 := by norm_num [randomIndex, RAND_MAX, t1]
  have r5 : randomIndex 0 2 = 0 := by norm_num [randomIndex, RAND_MAX]
  have h1 : (1 : ℤ).toNat = 1 := rfl
  have hr : ((4 : ℕ) : ℤ) - 1 = 3 := by norm_num
  have ht : totalNumberOfParameters 1 = 4 := by decide
  have hs : geneticSanityChecksReject 1 4 2 2 = false := by decide
  refine ⟨hs, ?_, ?_, ?_, ?_, ?_, ?_⟩
  · norm_num [selectionAtPairing, populationAtSort, refillPopulation, randomVector,
      randomWithin, alternatingDraws, taskEvaluateObjetiveInRangeOfIndividualsForGenetic,
      indexRange, sortIndividuals, Individual.le, Individual.ofParameters, Individual.ofSize,
      binaryTournaments, r1, r2, r4, r5, t0, t1, t3, drawDifferent, List.range_succ,
      List.replicate, RAND_MAX, DBL_MAX, List.modify, List.insertionSort, List.orderedInsert]
  · norm_num [alternatingDraws, r5]
  · norm_num [drawDifferent, alternatingDraws, r4]
  · simp [eraseAt]
  · simp [eraseAt]
  · intro fuel
    cases fuel with
    | zero =>
      unfold processWithGenetic
      rw [hs]
      simp only [Bool.false_eq_true, if_false, h1, hr, ht, initDomainAndParameters_one_structure,
        geneticGenerations]
      norm_num [geneticGeneration, binaryTournaments, drawDifferent]
    | succ f =>
      unfold processWithGenetic
      rw [hs]
      simp only [Bool.false_eq_true, if_false, h1, hr, ht, initDomainAndParameters_one_structure,
        geneticGenerations]
      norm_num [geneticGeneration, refillPopulation, randomVector, randomWithin,
        alternatingDraws, taskEvaluateObjetiveInRangeOfIndividualsForGenetic, indexRange,
        sortIndividuals, Individual.le, Individual.ofParameters, Individual.ofSize,
        binaryTournaments, r1, r2, r4, r5, t0, t1, t3, drawDifferent, crossoverAndMutation,
        eraseAt, List.range_succ, List.replicate, RAND_MAX, DBL_MAX, List.eraseIdx,
        List.modify, List.insertionSort, List.orderedInsert]
      rw [if_neg (List.cons_ne_nil _ _)]

/-! ## The pairing loop and the evaluation of the population -/

theorem refillPopulation_pairing_example :
    refillPopulation pairingDraws [1, 1 / 1000, 0, 1] [5, 1, 355 / 113, 100] 4 6 6 [] 0 =
      ([⟨[1, 1 / 1000, 0, 1], DBL_MAX⟩, ⟨[1, 1, 0, 1], DBL_MAX⟩, ⟨[5, 1 / 1000, 0, 1], DBL_MAX⟩,
        ⟨[5, 1, 0, 1], DBL_MAX⟩, ⟨[1, 1 / 1000, 0, 100], DBL_MAX⟩,
        ⟨[5, 1, 0, 100], DBL_MAX⟩], 24) := by
  norm_num [refillPopulation, randomVector, randomWithin, pairingDraws, Individual.ofParameters,
    List.range_succ, RAND_MAX]

theorem binaryTournaments_pairing_example :
    binaryTournaments pairingDraws 3
      [⟨[1, 1 / 1000, 0, 1], 2001 / 1000⟩, ⟨[1, 1, 0, 1], 3⟩, ⟨[5, 1 / 1000, 0, 1], 6001 / 1000⟩,
        ⟨[5, 1, 0, 1], 7⟩, ⟨[1, 1 / 1000, 0, 100], 101001 / 1000⟩, ⟨[5, 1, 0, 100], 106⟩]
      4 [] 24 =
    some ([⟨[1, 1 / 1000, 0, 1], 2001 / 1000⟩, ⟨[1, 1, 0, 1], 3⟩,
      ⟨[5, 1 / 1000, 0, 1], 6001 / 1000⟩, ⟨[1, 1 / 1000, 0, 100], 101001 / 1000⟩], 32) := by
  have t5 : (5 : ℤ).toNat = 5 := rfl
  have r0 : randomIndex 0 6 = 0 := by norm_num [randomIndex, RAND_MAX]
  have r5 : randomIndex 2147483647 6 = 5 := by norm_num [randomIndex, RAND_MAX, t5]
  have r1 : randomIndex 644245095 6 = 1 := by
    have : ⌊(644245095 : ℚ) / 2147483647 * (6 - 1)⌋ = 1 := by
      rw [Int.floor_eq_iff]; norm_num
    simp only [randomIndex, RAND_MAX, Nat.cast_ofNat]
    rw [this]; rfl
  have r2 : randomIndex 1073741824 6 = 2 := by
    have : ⌊(1073741824 : ℚ) / 2147483647 * (6 - 1)⌋ = 2 := by
      rw [Int.floor_eq_iff]; norm_num
    simp only [randomIndex, RAND_MAX, Nat.cast_ofNat]
    rw [this]; rfl
  have r4 : randomIndex 1932735283 6 = 4 := by
    have : ⌊(1932735283 : ℚ) / 2147483647 * (6 - 1)⌋ = 4 := by
      rw [Int.floor_eq_iff]; norm_num
    simp only [randomIndex, RAND_MAX, Nat.cast_ofNat]
    rw [this]; rfl
  norm_num [binaryTournaments, drawDifferent, pairingDraws, r0, r1, r2, r4, r5,
    sortIndividuals, Individual.le, Individual.ofSize, List.insertionSort, List.orderedInsert,
    DBL_MAX]

theorem crossoverAndMutation_pairing_first_round :
    crossoverAndMutation pairingDraws 3 (1 / 2) 2 1 [1, 1 / 1000, 0, 1] [5, 1, 355 / 113, 100] 4
      [⟨[1, 1 / 1000, 0, 1], 2001 / 1000⟩, ⟨[1, 1, 0, 1], 3⟩,
        ⟨[5, 1 / 1000, 0, 1], 6001 / 1000⟩, ⟨[1, 1 / 1000, 0, 100], 101001 / 1000⟩] [] 32 =
    crossoverAndMutation pairingDraws 3 (1 / 2) 2 1 [1, 1 / 1000, 0, 1] [5, 1, 355 / 113, 100] 3
      [⟨[1, 1, 0, 1], 3⟩, ⟨[1, 1 / 1000, 0, 100], 101001 / 1000⟩]
      [⟨[1, 1 / 1000, 0, 1], DBL_MAX⟩, ⟨[1, 1, 0, 1], DBL_MAX⟩,
        ⟨[1, 1 / 1000, 0, 1], 2001 / 1000⟩, ⟨[1, 1, 0, 1], 3⟩] 51 := by
  have t1 : (1 : ℤ).toNat = 1 := rfl
  have r0 : randomIndex 0 4 = 0 := by norm_num [randomIndex, RAND_MAX]
  have r1 : randomIndex 1073741824 4 = 1 := by
    have : ⌊(1073741824 : ℚ) / 2147483647 * (4 - 1)⌋ = 1 := by
      rw [Int.floor_eq_iff]; norm_num
    simp only [randomIndex, RAND_MAX, Nat.cast_ofNat]
    rw [this]; rfl
  rw [crossoverAndMutation, if_neg (List.cons_ne_nil _ _)]
  norm_num [drawDifferent, pairingDraws, r0, r1, eraseAt, Individual.crossOver,
    Individual.mutate, mutateGenes, Individual.ofSize, List.range_succ, List.replicate,
    RAND_MAX, DBL_MAX, List.eraseIdx]

set_option maxHeartbeats 2000000 in
theorem crossoverAndMutation_pairing_second_round :
    crossoverAndMutation pairingDraws 3 (1 / 2) 2 1 [1, 1 / 1000, 0, 1] [5, 1, 355 / 113, 100] 3
      [⟨[1, 1, 0, 1], 3⟩, ⟨[1, 1 / 1000, 0, 100], 101001 / 1000⟩]
      [⟨[1, 1 / 1000, 0, 1], DBL_MAX⟩, ⟨[1, 1, 0, 1], DBL_MAX⟩,
        ⟨[1, 1 / 1000, 0, 1], 2001 / 1000⟩, ⟨[1, 1, 0, 1], 3⟩] 51 =
    some ([⟨[1, 1 / 1000, 0, 1], DBL_MAX⟩, ⟨[1, 1, 0, 1], DBL_MAX⟩,
        ⟨[1, 1 / 1000, 0, 1], 2001 / 1000⟩, ⟨[1, 1, 0, 1], 3⟩,
        ⟨[1, 1 / 1000, 0, 1], DBL_MAX⟩, ⟨[1, 1, 0, 100], DBL_MAX⟩,
        ⟨[1, 1 / 1000, 0, 1], 101001 / 1000⟩, ⟨[1, 1, 0, 1], 3⟩], 71) := by
  have t1 : (1 : ℤ).toNat = 1 := rfl
  have r0 : randomIndex 0 2 = 0 := by norm_num [randomIndex, RAND_MAX]
  have r1 : randomIndex 2147483647 2 = 1 := by norm_num [randomIndex, RAND_MAX, t1]
  rw [crossoverAndMutation, if_neg (List.cons_ne_nil _ _)]
  norm_num [drawDifferent, pairingDraws, r0, r1, eraseAt, Individual.crossOver,
    Individual.mutate, mutateGenes, Individual.ofSize, List.range_succ, List.replicate,
    RAND_MAX, DBL_MAX, List.eraseIdx, randomWithin]
  rw [crossoverAndMutation, if_pos rfl]

theorem geneticGeneration_sorts_populationAtSort (F : List ℚ → ℚ) (rnd : ℕ → ℕ) (fuel : ℕ)
    (individualsIndexesRanges : List (ℤ × ℤ)) (L_wMin L_wMax : List ℚ)
    (totalNumberOfParameters nPopulationSize nSelectionSize : ℕ) (probabilityOfCrossOver : ℚ)
    (pointOfCrossover : ℕ) (mutationRate : ℚ) (st : GeneticState) :
    geneticGeneration F rnd fuel individualsIndexesRanges L_wMin L_wMax
      totalNumberOfParameters nPopulationSize nSelectionSize probabilityOfCrossOver
      pointOfCrossover mutationRate st =
    match binaryTournaments rnd fuel
        ((sortIndividuals (populationAtSort F rnd individualsIndexesRanges L_wMin L_wMax
          totalNumberOfParameters nPopulationSize st)).take nPopulationSize) nSelectionSize []
        (refillPopulation rnd L_wMin L_wMax totalNumberOfParameters nPopulationSize
          (nPopulationSize - st.population.length) st.population st.cursor).2 with
    | none => none
    | some (selection, c1) =>
      match crossoverAndMutation rnd fuel probabilityOfCrossOver pointOfCrossover mutationRate
          L_wMin L_wMax selection.length selection [] c1 with
      | none => none
      | some (nextGen, c2) =>
        some ⟨nextGen, st.trace ++ [((sortIndividuals (populationAtSort F rnd
          individualsIndexesRanges L_wMin L_wMax totalNumberOfParameters nPopulationSize
          st)).headD (Individual.ofSize 0)).fValue], c2⟩ := rfl

theorem populationAtSort_pairing_first :
    populationAtSort (fun v => v.sum) pairingDraws [(0, 5)] [1, 1 / 1000, 0, 1]
      [5, 1, 355 / 113, 100] 4 6 ⟨[], [], 0⟩ =
      [⟨[1, 1 / 1000, 0, 1], 2001 / 1000⟩, ⟨[1, 1, 0, 1], 3⟩, ⟨[5, 1 / 1000, 0, 1], 6001 / 1000⟩,
        ⟨[5, 1, 0, 1], 7⟩, ⟨[1, 1 / 1000, 0, 100], 101001 / 1000⟩, ⟨[5, 1, 0, 100], 106⟩] := by
  unfold populationAtSort
  simp only [List.length_nil, Nat.sub_zero]
  rw [refillPopulation_pairing_example]
  have hr : indexRange 0 5 = [0, 1, 2, 3, 4, 5] := by decide
  simp only [List.foldl_cons, List.foldl_nil,
    taskEvaluateObjetiveInRangeOfIndividualsForGenetic, hr]
  norm_num [List.modify, List.modifyHead, List.modifyTailIdx]

theorem sortIndividuals_pairing_first :
    sortIndividuals
      [⟨[1, 1 / 1000, 0, 1], 2001 / 1000⟩, ⟨[1, 1, 0, 1], 3⟩, ⟨[5, 1 / 1000, 0, 1], 6001 / 1000⟩,
        ⟨[5, 1, 0, 1], 7⟩, ⟨[1, 1 / 1000, 0, 100], 101001 / 1000⟩, ⟨[5, 1, 0, 100], 106⟩] =
      [⟨[1, 1 / 1000, 0, 1], 2001 / 1000⟩, ⟨[1, 1, 0, 1], 3⟩, ⟨[5, 1 / 1000, 0, 1], 6001 / 1000⟩,
        ⟨[5, 1, 0, 1], 7⟩, ⟨[1, 1 / 1000, 0, 100], 101001 / 1000⟩, ⟨[5, 1, 0, 100], 106⟩] := by
  norm_num [sortIndividuals, Individual.le, List.insertionSort, List.orderedInsert]

theorem geneticGeneration_pairing_example :
    geneticGeneration (fun v => v.sum) pairingDraws 3 [(0, 5)] [1, 1 / 1000, 0, 1]
      [5, 1, 355 / 113, 100] 4 6 4 (1 / 2) 2 1 ⟨[], [], 0⟩ =
    some ⟨[⟨[1, 1 / 1000, 0, 1], DBL_MAX⟩, ⟨[1, 1, 0, 1], DBL_MAX⟩,
        ⟨[1, 1 / 1000, 0, 1], 2001 / 1000⟩, ⟨[1, 1, 0, 1], 3⟩,
        ⟨[1, 1 / 1000, 0, 1], DBL_MAX⟩, ⟨[1, 1, 0, 100], DBL_MAX⟩,
        ⟨[1, 1 / 1000, 0, 1], 101001 / 1000⟩, ⟨[1, 1, 0, 1], 3⟩], [2001 / 1000], 71⟩ := by
  rw [geneticGeneration_sorts_populationAtSort, populationAtSort_pairing_first,
    sortIndividuals_pairing_first]
  simp only [List.length_nil, Nat.sub_zero, refillPopulation_pairing_example, List.take,
    binaryTournaments_pairing_example, List.length_cons, List.headD_cons, List.nil_append]
  simp only [show (0 + 1 + 1 + 1 + 1 : ℕ) = 4 from rfl,
    crossoverAndMutation_pairing_first_round, crossoverAndMutation_pairing_second_round]
theorem populationAtSort_pairing_second :
    populationAtSort (fun v => v.sum) pairingDraws [(0, 5)] [1, 1 / 1000, 0, 1]
      [5, 1, 355 / 113, 100] 4 6
      ⟨[⟨[1, 1 / 1000, 0, 1], DBL_MAX⟩, ⟨[1, 1, 0, 1], DBL_MAX⟩,
        ⟨[1, 1 / 1000, 0, 1], 2001 / 1000⟩, ⟨[1, 1, 0, 1], 3⟩,
        ⟨[1, 1 / 1000, 0, 1], DBL_MAX⟩, ⟨[1, 1, 0, 100], DBL_MAX⟩,
        ⟨[1, 1 / 1000, 0, 1], 101001 / 1000⟩, ⟨[1, 1, 0, 1], 3⟩], [2001 / 1000], 71⟩ =
      [⟨[1, 1 / 1000, 0, 1], 2001 / 1000⟩, ⟨[1, 1, 0, 1], 3⟩,
        ⟨[1, 1 / 1000, 0, 1], 2001 / 1000⟩, ⟨[1, 1, 0, 1], 3⟩,
        ⟨[1, 1 / 1000, 0, 1], 2001 / 1000⟩, ⟨[1, 1, 0, 100], 102⟩,
        ⟨[1, 1 / 1000, 0, 1], 101001 / 1000⟩, ⟨[1, 1, 0, 1], 3⟩] := by
  have hr : indexRange 0 5 = [0, 1, 2, 3, 4, 5] := by decide
  unfold populationAtSort
  simp only [List.length_cons, List.length_nil, refillPopulation, List.foldl_cons,
    List.foldl_nil, taskEvaluateObjetiveInRangeOfIndividualsForGenetic, hr]
  norm_num [List.modify, List.modifyHead, List.modifyTailIdx, refillPopulation]

theorem sortIndividuals_pairing_second :
    sortIndividuals
      [⟨[1, 1 / 1000, 0, 1], 2001 / 1000⟩, ⟨[1, 1, 0, 1], 3⟩,
        ⟨[1, 1 / 1000, 0, 1], 2001 / 1000⟩, ⟨[1, 1, 0, 1], 3⟩,
        ⟨[1, 1 / 1000, 0, 1], 2001 / 1000⟩, ⟨[1, 1, 0, 100], 102⟩,
        ⟨[1, 1 / 1000, 0, 1], 101001 / 1000⟩, ⟨[1, 1, 0, 1], 3⟩] =
      [⟨[1, 1 / 1000, 0, 1], 2001 / 1000⟩, ⟨[1, 1 / 1000, 0, 1], 2001 / 1000⟩,
        ⟨[1, 1 / 1000, 0, 1], 2001 / 1000⟩, ⟨[1, 1, 0, 1], 3⟩, ⟨[1, 1, 0, 1], 3⟩,
        ⟨[1, 1, 0, 1], 3⟩, ⟨[1, 1 / 1000, 0, 1], 101001 / 1000⟩, ⟨[1, 1, 0, 100], 102⟩] := by
  norm_num [sortIndividuals, Individual.le, List.insertionSort, List.orderedInsert]

/-- C29, the code at a failing input, one generation of `processWithGenetic` on the domain
`L_wMin = [1, 0.001, 0, 1]`, `L_wMax = [5, 1, 355/113, 100]` with `nPopulationSize = 6`,
`nSelectionSize = 4`, `probabilityOfCrossOver = 0.5`, `pointOfCrossover = 2`,
`mutationRate = 1`, the objective `F(v) = sum v[i]` and the draws `pairingDraws`.  The
tournaments select `[1, 0.001, 0, 1]` (value `2.001`), `[1, 1, 0, 1]` (`3`),
`[5, 0.001, 0, 1]` (`6.001`) and `[1, 0.001, 0, 100]` (`101.001`), in this order.  The first
pass draws `parentIndex1 = 0` and `parentIndex2 = 1`, so the parents are the first and the
second of the pool; the first `erase` removes the first, and the second `erase`, at position
`1` of the shortened pool, removes the third: the pool is left with the second and the fourth.
The second pass takes the fourth and the second as parents.  The second individual is a
parent twice, the third one never is, and no individual of the next generation has its
range `5`. -/
theorem crossoverAndMutation_erases_other_individual :
    binaryTournaments pairingDraws 3
      [⟨[1, 1 / 1000, 0, 1], 2001 / 1000⟩, ⟨[1, 1, 0, 1], 3⟩, ⟨[5, 1 / 1000, 0, 1], 6001 / 1000⟩,
        ⟨[5, 1, 0, 1], 7⟩, ⟨[1, 1 / 1000, 0, 100], 101001 / 1000⟩, ⟨[5, 1, 0, 100], 106⟩]
      4 [] 24 =
    some ([⟨[1, 1 / 1000, 0, 1], 2001 / 1000⟩, ⟨[1, 1, 0, 1], 3⟩,
      ⟨[5, 1 / 1000, 0, 1], 6001 / 1000⟩, ⟨[1, 1 / 1000, 0, 100], 101001 / 1000⟩], 32) ∧
    randomIndex (pairingDraws 32) 4 = 0 ∧
    drawDifferent pairingDraws 4 0 3 33 = some (1, 34) ∧
    crossoverAndMutation pairingDraws 3 (1 / 2) 2 1 [1, 1 / 1000, 0, 1] [5, 1, 355 / 113, 100] 4
      [⟨[1, 1 / 1000, 0, 1], 2001 / 1000⟩, ⟨[1, 1, 0, 1], 3⟩,
        ⟨[5, 1 / 1000, 0, 1], 6001 / 1000⟩, ⟨[1, 1 / 1000, 0, 100], 101001 / 1000⟩] [] 32 =
    crossoverAndMutation pairingDraws 3 (1 / 2) 2 1 [1, 1 / 1000, 0, 1] [5, 1, 355 / 113, 100] 3
      [⟨[1, 1, 0, 1], 3⟩, ⟨[1, 1 / 1000, 0, 100], 101001 / 1000⟩]
      [⟨[1, 1 / 1000, 0, 1], DBL_MAX⟩, ⟨[1, 1, 0, 1], DBL_MAX⟩,
        ⟨[1, 1 / 1000, 0, 1], 2001 / 1000⟩, ⟨[1, 1, 0, 1], 3⟩] 51 ∧
    randomIndex (pairingDraws 51) 2 = 1 ∧
    drawDifferent pairingDraws 2 1 3 52 = some (0, 53) ∧
    geneticGeneration (fun v => v.sum) pairingDraws 3 [(0, 5)] [1, 1 / 1000, 0, 1]
      [5, 1, 355 / 113, 100] 4 6 4 (1 / 2) 2 1 ⟨[], [], 0⟩ =
    some ⟨[⟨[1, 1 / 1000, 0, 1], DBL_MAX⟩, ⟨[1, 1, 0, 1], DBL_MAX⟩,
        ⟨[1, 1 / 1000, 0, 1], 2001 / 1000⟩, ⟨[1, 1, 0, 1], 3⟩,
        ⟨[1, 1 / 1000, 0, 1], DBL_MAX⟩, ⟨[1, 1, 0, 100], DBL_MAX⟩,
        ⟨[1, 1 / 1000, 0, 1], 101001 / 1000⟩, ⟨[1, 1, 0, 1], 3⟩], [2001 / 1000], 71⟩ := by
  have t1 : (1 : ℤ).toNat = 1 := rfl
  have d32 : pairingDraws 32 = 0 := rfl
  have d33 : pairingDraws 33 = 1073741824 := rfl
  have d51 : pairingDraws 51 = 2147483647 := rfl
  have d52 : pairingDraws 52 = 0 := rfl
  have r0 : randomIndex 0 4 = 0 := by norm_num [randomIndex, RAND_MAX]
  have r1 : randomIndex 1073741824 4 = 1 := by
    have : ⌊(1073741824 : ℚ) / 2147483647 * (4 - 1)⌋ = 1 := by
      rw [Int.floor_eq_iff]; norm_num
    simp only [randomIndex, RAND_MAX, Nat.cast_ofNat]
    rw [this]; rfl
  have s0 : randomIndex 0 2 = 0 := by norm_num [randomIndex, RAND_MAX]
  have s1 : randomIndex 2147483647 2 = 1 := by norm_num [randomIndex, RAND_MAX, t1]
  refine ⟨binaryTournaments_pairing_example, ?_, ?_,
    crossoverAndMutation_pairing_first_round, ?_, ?_, geneticGeneration_pairing_example⟩
  · rw [d32, r0]
  · simp [drawDifferent, d33, r1]
  · rw [d51, s1]
  · simp [drawDifferent, d52, s0]

/-- C30, the code at a failing input, the second generation of the run of
`geneticGeneration_pairing_example` (`nPopulationSize = 6`, `nSelectionSize = 4`, both pairs
with crossover): the first generation hands over eight individuals, the evaluation tasks
cover the positions `0 .. 5` only, and at the moment the population is sorted the individual
at position `6`, the parent `[1, 0.001, 0, 100]` mutated into `[1, 0.001, 0, 1]`, still
carries the value `101.001` of its former genes, whereas the objective function of its
genes is `2.001`.  The sort puts it seventh, and the truncation to six individuals drops it
and keeps individuals of value `3`. -/
theorem populationAtSort_keeps_stale_value :
    geneticGeneration (fun v => v.sum) pairingDraws 3 [(0, 5)] [1, 1 / 1000, 0, 1]
      [5, 1, 355 / 113, 100] 4 6 4 (1 / 2) 2 1 ⟨[], [], 0⟩ =
    some ⟨[⟨[1, 1 / 1000, 0, 1], DBL_MAX⟩, ⟨[1, 1, 0, 1], DBL_MAX⟩,
        ⟨[1, 1 / 1000, 0, 1], 2001 / 1000⟩, ⟨[1, 1, 0, 1], 3⟩,
        ⟨[1, 1 / 1000, 0, 1], DBL_MAX⟩, ⟨[1, 1, 0, 100], DBL_MAX⟩,
        ⟨[1, 1 / 1000, 0, 1], 101001 / 1000⟩, ⟨[1, 1, 0, 1], 3⟩], [2001 / 1000], 71⟩ ∧
    populationAtSort (fun v => v.sum) pairingDraws [(0, 5)] [1, 1 / 1000, 0, 1]
      [5, 1, 355 / 113, 100] 4 6
      ⟨[⟨[1, 1 / 1000, 0, 1], DBL_MAX⟩, ⟨[1, 1, 0, 1], DBL_MAX⟩,
        ⟨[1, 1 / 1000, 0, 1], 2001 / 1000⟩, ⟨[1, 1, 0, 1], 3⟩,
        ⟨[1, 1 / 1000, 0, 1], DBL_MAX⟩, ⟨[1, 1, 0, 100], DBL_MAX⟩,
        ⟨[1, 1 / 1000, 0, 1], 101001 / 1000⟩, ⟨[1, 1, 0, 1], 3⟩], [2001 / 1000], 71⟩ =
      [⟨[1, 1 / 1000, 0, 1], 2001 / 1000⟩, ⟨[1, 1, 0, 1], 3⟩,
        ⟨[1, 1 / 1000, 0, 1], 2001 / 1000⟩, ⟨[1, 1, 0, 1], 3⟩,
        ⟨[1, 1 / 1000, 0, 1], 2001 / 1000⟩, ⟨[1, 1, 0, 100], 102⟩,
        ⟨[1, 1 / 1000, 0, 1], 101001 / 1000⟩, ⟨[1, 1, 0, 1], 3⟩] ∧
    (fun v : List ℚ => v.sum) [1, 1 / 1000, 0, 1] = 2001 / 1000 ∧
    (sortIndividuals (populationAtSort (fun v => v.sum) pairingDraws [(0, 5)]
      [1, 1 / 1000, 0, 1] [5, 1, 355 / 113, 100] 4 6
      ⟨[⟨[1, 1 / 1000, 0, 1], DBL_MAX⟩, ⟨[1, 1, 0, 1], DBL_MAX⟩,
        ⟨[1, 1 / 1000, 0, 1], 2001 / 1000⟩, ⟨[1, 1, 0, 1], 3⟩,
        ⟨[1, 1 / 1000, 0, 1], DBL_MAX⟩, ⟨[1, 1, 0, 100], DBL_MAX⟩,
        ⟨[1, 1 / 1000, 0, 1], 101001 / 1000⟩, ⟨[1, 1, 0, 1], 3⟩], [2001 / 1000], 71⟩)).take 6 =
      [⟨[1, 1 / 1000, 0, 1], 2001 / 1000⟩, ⟨[1, 1 / 1000, 0, 1], 2001 / 1000⟩,
        ⟨[1, 1 / 1000, 0, 1], 2001 / 1000⟩, ⟨[1, 1, 0, 1], 3⟩, ⟨[1, 1, 0, 1], 3⟩,
        ⟨[1, 1, 0, 1], 3⟩] := by
  refine ⟨geneticGeneration_pairing_example, populationAtSort_pairing_second, by norm_num, ?_⟩
  rw [populationAtSort_pairing_second, sortIndividuals_pairing_second]
  rfl

/-! ## The random forest classifier -/

theorem count_append_singleton_ne (p : List ℤ) (x c : ℤ) (hc : c ≠ x) :
    (p ++ [x]).count c = p.count c := by
  have h0 : [x].count c = 0 := List.count_eq_zero_of_not_mem (by simpa using hc)
  rw [List.count_append, h0, add_zero]

theorem count_append_singleton_self (p : List ℤ) (x : ℤ) :
    (p ++ [x]).count x = p.count x + 1 := by
  simp

theorem countVote_counted (s : VoteCount) (p : List ℤ) (x : ℤ) (h : s.Counted p)
    (hx : ∀ y ∈ p, y ≤ x) : (RandomForest.countVote s x).Counted (p ++ [x]) := by
  obtain ⟨h1, h2, h3, h4⟩ := h
  have hk := h4 x hx
  have hlast : ∀ x2, (∀ y ∈ p ++ [x], y ≤ x2) →
      (if x2 ≠ x then 0 else p.count x + 1) = (p ++ [x]).count x2 := by
    intro x2 hx2
    by_cases hxx : x2 = x
    · subst hxx
      simp
    · have hle : x ≤ x2 := hx2 x (by simp)
      have hlt : x < x2 := lt_of_le_of_ne hle (Ne.symm hxx)
      have hnot : x2 ∉ p := fun hm => absurd (hx x2 hm) (not_le.mpr hlt)
      rw [if_pos hxx, count_append_singleton_ne p x x2 hxx,
        List.count_eq_zero_of_not_mem hnot]
  unfold RandomForest.countVote
  simp only [hk]
  split_ifs with hgt
  · simp only [gt_iff_lt] at hgt
    refine ⟨(count_append_singleton_self p x).symm, ?_, ?_, hlast⟩
    · intro c
      by_cases hc : c = x
      · subst hc
        exact le_of_eq (count_append_singleton_self p c)
      · have := h2 c
        rw [count_append_singleton_ne p x c hc]
        show List.count c p ≤ List.count x p + 1
        omega
    · intro c _ hcount
      by_cases hc : c = x
      · exact le_of_eq hc.symm
      · exfalso
        have := h2 c
        rw [count_append_singleton_ne p x c hc] at hcount
        have hcount2 : List.count c p = List.count x p + 1 := hcount
        omega
  · simp only [gt_iff_lt, not_lt] at hgt
    have hne : s.mostVotedClass ≠ x := by
      intro he
      rw [he] at h1
      omega
    have hmem : s.mostVotedClass ∈ p := by
      apply List.count_pos_iff.mp
      omega
    refine ⟨?_, ?_, ?_, hlast⟩
    · show s.mostVotedClassCount = List.count s.mostVotedClass (p ++ [x])
      rw [count_append_singleton_ne p x _ hne]
      exact h1
    · intro c
      show List.count c (p ++ [x]) ≤ s.mostVotedClassCount
      by_cases hc : c = x
      · subst hc
        rw [count_append_singleton_self]
        exact hgt
      · rw [count_append_singleton_ne p x c hc]
        exact h2 c
    · intro c hcm hcount
      show s.mostVotedClass ≤ c
      by_cases hc : c = x
      · subst hc
        exact hx _ hmem
      · have hcp : c ∈ p := by
          rcases List.mem_append.mp hcm with h | h
          · exact h
          · exact absurd (by simpa using h) hc
        rw [count_append_singleton_ne p x c hc] at hcount
        exact h3 c hcp hcount

theorem countVote_foldl_counted (q : List ℤ) : ∀ (p : List ℤ) (s : VoteCount), s.Counted p →
    (p ++ q).Sorted (· ≤ ·) → (q.foldl RandomForest.countVote s).Counted (p ++ q) := by
  induction q with
  | nil => intro p s h _; simpa using h
  | cons x q ih =>
    intro p s h hs
    have hx : ∀ y ∈ p, y ≤ x := by
      intro y hy
      have := List.pairwise_append.mp hs
      exact this.2.2 y hy x (by simp)
    have := ih (p ++ [x]) _ (countVote_counted s p x h hx) (by simpa using hs)
    simpa using this

theorem countVote_sorted_counted (l : List ℤ) (hs : l.Sorted (· ≤ ·)) :
    (l.foldl RandomForest.countVote
      { mostVotedClass := -999999999, mostVotedClassCount := 0, currentCount := 0,
        previousClass := -999999999 }).Counted l := by
  have h0 : VoteCount.Counted
      { mostVotedClass := -999999999, mostVotedClassCount := 0, currentCount := 0,
        previousClass := -999999999 } [] := by
    simp [VoteCount.Counted]
  have := countVote_foldl_counted l [] _ h0 (by simpa using hs)
  simpa using this

/-- C25: when at least one tree votes, `RandomForest::classify` returns a class that occurs among
the votes and has at least as many votes as any class; among the classes with as many votes it
is the smallest class code; and the uncertainty returned is one minus the share of the votes of
the returned class, a number in `[0, 1)`. -/
theorem classify_most_voted (localResults : List (List (ℤ × ℤ)))
    (h : RandomForest.classesFound localResults ≠ []) :
    (RandomForest.classify localResults).1 ∈ RandomForest.classesFound localResults ∧
    (∀ c, (RandomForest.classesFound localResults).count c ≤
      (RandomForest.classesFound localResults).count (RandomForest.classify localResults).1) ∧
    (∀ c, (RandomForest.classesFound localResults).count c =
        (RandomForest.classesFound localResults).count (RandomForest.classify localResults).1 →
      (RandomForest.classify localResults).1 ≤ c) ∧
    (RandomForest.classify localResults).2 =
      1 - ((RandomForest.classesFound localResults).count
            (RandomForest.classify localResults).1 : ℚ) /
          ((RandomForest.classesFound localResults).length : ℚ) ∧
    0 ≤ (RandomForest.classify localResults).2 ∧ (RandomForest.classify localResults).2 < 1 := by
  set votes := RandomForest.classesFound localResults with hvotes
  have hperm : (votes.insertionSort (· ≤ ·)).Perm votes := List.perm_insertionSort _ _
  have hsorted : (votes.insertionSort (· ≤ ·)).Sorted (· ≤ ·) := List.sorted_insertionSort _ _
  obtain ⟨h1, h2, h3, -⟩ := countVote_sorted_counted _ hsorted
  have hcount : ∀ c, (votes.insertionSort (· ≤ ·)).count c = votes.count c :=
    fun c => hperm.count_eq c
  have hlen : (votes.insertionSort (· ≤ ·)).length = votes.length := hperm.length_eq
  simp only [hcount] at h1 h2 h3
  have hfst : (RandomForest.classify localResults).1 =
      ((votes.insertionSort (· ≤ ·)).foldl RandomForest.countVote
        { mostVotedClass := -999999999, mostVotedClassCount := 0, currentCount := 0,
          previousClass := -999999999 }).mostVotedClass := rfl
  have hsnd : (RandomForest.classify localResults).2 =
      1 - ((((votes.insertionSort (· ≤ ·)).foldl RandomForest.countVote
        { mostVotedClass := -999999999, mostVotedClassCount := 0, currentCount := 0,
          previousClass := -999999999 }).mostVotedClassCount : ℕ) : ℚ) /
        ((votes.insertionSort (· ≤ ·)).length : ℚ) := rfl
  rw [hsnd, hfst, hlen, h1]
  set mv := ((votes.insertionSort (· ≤ ·)).foldl RandomForest.countVote
        { mostVotedClass := -999999999, mostVotedClassCount := 0, currentCount := 0,
          previousClass := -999999999 }).mostVotedClass with hmv
  rw [h1] at h2 h3
  obtain ⟨v, vs, hv⟩ := List.exists_cons_of_ne_nil h
  have hpos : 0 < votes.count mv := by
    have := h2 v
    have hv1 : 0 < votes.count v := List.count_pos_iff.mpr (by rw [hv]; simp)
    omega
  have hmem : mv ∈ votes := List.count_pos_iff.mp hpos
  have hle : votes.count mv ≤ votes.length := List.count_le_length _ _
  have hlenpos : (0 : ℚ) < (votes.length : ℚ) := by
    have : 0 < votes.length := by omega
    exact_mod_cast this
  have hq : (0 : ℚ) < (votes.count mv : ℚ) := by exact_mod_cast hpos
  have hqle : (votes.count mv : ℚ) ≤ (votes.length : ℚ) := by exact_mod_cast hle
  refine ⟨hmem, h2, ?_, rfl, ?_, ?_⟩
  · intro c hc
    have hcm : c ∈ votes := List.count_pos_iff.mp (by omega)
    exact h3 c ((hperm.mem_iff).mpr hcm) hc
  · have : (votes.count mv : ℚ) / (votes.length : ℚ) ≤ 1 := (div_le_one hlenpos).mpr hqle
    linarith
  · have : 0 < (votes.count mv : ℚ) / (votes.length : ℚ) := div_pos hq hlenpos
    linarith

theorem classify_most_voted_witness :
    RandomForest.classesFound [[(3, 10)], [], [(1, 4), (3, 2)], [(3, 1)], [(1, 7)]] ≠ [] ∧
    (RandomForest.classify [[(3, 10)], [], [(1, 4), (3, 2)], [(3, 1)], [(1, 7)]]).1 = 1 ∧
    (RandomForest.classify [[(3, 10)], [], [(1, 4), (3, 2)], [(3, 1)], [(1, 7)]]).1 ≤ 3 :=
  ⟨by decide, by decide,
    (classify_most_voted [[(3, 10)], [], [(1, 4), (3, 2)], [(3, 1)], [(1, 7)]] (by decide)).2.2.1
      3 (by decide)⟩

/-! ## Gauss-Jordan inversion -/

theorem setElement_apply {n : ℕ} (a : Fin n → Fin n → ℚ) (i j : Fin n) (v : ℚ)
    (r c : Fin n) :
    MatrixNXM.setElement a i j v r c = if r = i ∧ c = j then v else a r c := by
  unfold MatrixNXM.setElement
  by_cases hr : r = i
  · subst hr
    by_cases hc : c = j
    · subst hc
      simp
    · simp [hc]
  · simp [hr]

theorem swapElements_rows {n : ℕ} (a : Fin n → Fin n → ℚ) (irow icol l r c : Fin n) :
    MatrixNXM.swapElements a irow l icol l r c =
      if c = l then a (Equiv.swap irow icol r) c else a r c := by
  unfold MatrixNXM.swapElements
  simp only [setElement_apply]
  by_cases hc : c = l
  · subst hc
    by_cases h1 : r = icol
    · subst h1
      simp
    · by_cases h2 : r = irow
      · subst h2
        simp [h1]
      · simp [h1, h2, Equiv.swap_apply_of_ne_of_ne h2 h1]
  · simp [hc]

theorem swapElements_cols {n : ℕ} (a : Fin n → Fin n → ℚ) (p q k r c : Fin n) :
    MatrixNXM.swapElements a k p k q r c =
      if r = k then a r (Equiv.swap p q c) else a r c := by
  unfold MatrixNXM.swapElements
  simp only [setElement_apply]
  by_cases hr : r = k
  · subst hr
    by_cases h1 : c = q
    · subst h1
      simp
    · by_cases h2 : c = p
      · subst h2
        simp [h1]
      · simp [h1, h2, Equiv.swap_apply_of_ne_of_ne h2 h1]
  · simp [hr]

theorem swapRows_foldl {n : ℕ} (irow icol : Fin n) :
    ∀ (L : List (Fin n)) (a : Fin n → Fin n → ℚ), L.Nodup →
      L.foldl (fun a l => MatrixNXM.swapElements a irow l icol l) a =
        fun i j => if j ∈ L then a (Equiv.swap irow icol i) j else a i j := by
  intro L
  induction L with
  | nil => intro a _; simp
  | cons l L ih =>
    intro a hnd
    rw [List.foldl_cons, ih _ (List.nodup_cons.mp hnd).2]
    funext i j
    simp only [swapElements_rows, List.mem_cons]
    by_cases hj : j = l
    · subst hj
      simp [(List.nodup_cons.mp hnd).1]
    · simp [hj]

theorem swapRows_apply {n : ℕ} (a : Fin n → Fin n → ℚ) (irow icol i j : Fin n) :
    MatrixNXM.swapRows a irow icol i j = a (Equiv.swap irow icol i) j := by
  unfold MatrixNXM.swapRows
  rw [swapRows_foldl irow icol _ a (List.nodup_finRange n)]
  simp

theorem swapCols_foldl {n : ℕ} (p q : Fin n) :
    ∀ (L : List (Fin n)) (a : Fin n → Fin n → ℚ), L.Nodup →
      L.foldl (fun a k => MatrixNXM.swapElements a k p k q) a =
        fun i j => if i ∈ L then a i (Equiv.swap p q j) else a i j := by
  intro L
  induction L with
  | nil => intro a _; simp
  | cons l L ih =>
    intro a hnd
    rw [List.foldl_cons, ih _ (List.nodup_cons.mp hnd).2]
    funext i j
    simp only [swapElements_cols, List.mem_cons]
    by_cases hi : i = l
    · subst hi
      simp [(List.nodup_cons.mp hnd).1]
    · simp [hi]

theorem scaleRow_foldl {n : ℕ} (icol : Fin n) (pivinv : ℚ) :
    ∀ (L : List (Fin n)) (a : Fin n → Fin n → ℚ), L.Nodup →
      L.foldl (fun a l => MatrixNXM.setElement a icol l (a icol l * pivinv)) a =
        fun i j => if i = icol ∧ j ∈ L then a i j * pivinv else a i j := by
  intro L
  induction L with
  | nil => intro a _; simp
  | cons l L ih =>
    intro a hnd
    rw [List.foldl_cons, ih _ (List.nodup_cons.mp hnd).2]
    funext i j
    simp only [setElement_apply, List.mem_cons]
    by_cases hi : i = icol
    · subst hi
      by_cases hj : j = l
      · subst hj
        simp [(List.nodup_cons.mp hnd).1]
      · simp [hj]
    · simp [hi]

theorem scaleRow_apply {n : ℕ} (a : Fin n → Fin n → ℚ) (icol : Fin n) (pivinv : ℚ)
    (i j : Fin n) :
    MatrixNXM.scaleRow a icol pivinv i j =
      if i = icol then (if j = icol then 1 else a i j) * pivinv else a i j := by
  unfold MatrixNXM.scaleRow
  rw [scaleRow_foldl icol pivinv _ _ (List.nodup_finRange n)]
  simp only [setElement_apply, List.mem_finRange, and_true]
  by_cases hi : i = icol
  · subst hi
    simp
  · simp [hi]

theorem reduceRow_foldl {n : ℕ} (icol ll : Fin n) (dum : ℚ) (hll : ll ≠ icol) :
    ∀ (L : List (Fin n)) (a : Fin n → Fin n → ℚ), L.Nodup →
      L.foldl (fun a l => MatrixNXM.setElement a ll l (a ll l - a icol l * dum)) a =
        fun i j => if i = ll ∧ j ∈ L then a i j - a icol j * dum else a i j := by
  intro L
  induction L with
  | nil => intro a _; simp
  | cons l L ih =>
    intro a hnd
    rw [List.foldl_cons, ih _ (List.nodup_cons.mp hnd).2]
    funext i j
    simp only [setElement_apply, List.mem_cons]
    by_cases hi : i = ll
    · subst hi
      by_cases hj : j = l
      · subst hj
        simp [(List.nodup_cons.mp hnd).1]
      · simp [hj, hll.symm]
    · simp [hi]

theorem reduceRow_apply {n : ℕ} (a : Fin n → Fin n → ℚ) (icol ll : Fin n) (hll : ll ≠ icol)
    (i j : Fin n) :
    MatrixNXM.reduceRow a icol ll i j =
      if i = ll then (if j = icol then 0 else a i j) - a icol j * a ll icol else a i j := by
  unfold MatrixNXM.reduceRow
  rw [reduceRow_foldl icol ll _ hll _ _ (List.nodup_finRange n)]
  simp only [setElement_apply, List.mem_finRange, and_true]
  by_cases hi : i = ll
  · subst hi
    simp [hll.symm]
  · simp [hi]

theorem reduceRows_foldl {n : ℕ} (icol : Fin n) :
    ∀ (L : List (Fin n)) (a : Fin n → Fin n → ℚ), L.Nodup →
      L.foldl (fun a ll => if ll ≠ icol then MatrixNXM.reduceRow a icol ll else a) a =
        fun i j => if i ∈ L ∧ i ≠ icol then
          (if j = icol then 0 else a i j) - a icol j * a i icol else a i j := by
  intro L
  induction L with
  | nil => intro a _; simp
  | cons l L ih =>
    intro a hnd
    rw [List.foldl_cons, ih _ (List.nodup_cons.mp hnd).2]
    funext i j
    by_cases hl : l = icol
    · subst hl
      simp only [ne_eq, not_true_eq_false, if_false, List.mem_cons]
      by_cases hi : i = l
      · subst hi
        simp
      · simp [hi]
    · simp only [ne_eq, hl, not_false_eq_true, if_true, List.mem_cons,
        reduceRow_apply a icol l hl]
      by_cases hi : i = l
      · subst hi
        simp [(List.nodup_cons.mp hnd).1, hl]
      · by_cases hic : i = icol
        · subst hic
          simp [hi]
        · simp [hi, hic, Ne.symm hl]

theorem reduceRows_apply {n : ℕ} (a : Fin n → Fin n → ℚ) (icol i j : Fin n) :
    MatrixNXM.reduceRows a icol i j =
      if i ≠ icol then (if j = icol then 0 else a i j) - a icol j * a i icol else a i j := by
  unfold MatrixNXM.reduceRows
  rw [reduceRows_foldl icol _ a (List.nodup_finRange n)]
  simp

theorem searchPivot_columns {n : ℕ} (a : Fin n → Fin n → ℚ) (ipiv : Fin n → ℤ) (j : Fin n)
    (hj : ipiv j ≠ 1) :
    ∀ (K : List (Fin n)) (s : ℚ × Fin n × Fin n),
      0 ≤ s.1 → (0 < s.1 → PivotFound a ipiv s) →
      0 ≤ (K.foldl (fun s k => if ipiv k = 0 then
            if |a j k| ≥ s.1 then (|a j k|, j, k) else s else s) s).1 ∧
      s.1 ≤ (K.foldl (fun s k => if ipiv k = 0 then
            if |a j k| ≥ s.1 then (|a j k|, j, k) else s else s) s).1 ∧
      (PivotFound a ipiv s → PivotFound a ipiv (K.foldl (fun s k => if ipiv k = 0 then
            if |a j k| ≥ s.1 then (|a j k|, j, k) else s else s) s)) ∧
      (0 < (K.foldl (fun s k => if ipiv k = 0 then
            if |a j k| ≥ s.1 then (|a j k|, j, k) else s else s) s).1 →
        PivotFound a ipiv (K.foldl (fun s k => if ipiv k = 0 then
            if |a j k| ≥ s.1 then (|a j k|, j, k) else s else s) s)) ∧
      (∀ k ∈ K, ipiv k = 0 →
        |a j k| ≤ (K.foldl (fun s k => if ipiv k = 0 then
            if |a j k| ≥ s.1 then (|a j k|, j, k) else s else s) s).1 ∧
        PivotFound a ipiv (K.foldl (fun s k => if ipiv k = 0 then
            if |a j k| ≥ s.1 then (|a j k|, j, k) else s else s) s)) := by
  intro K
  induction K with
  | nil =>
    intro s h0 hq
    exact ⟨h0, le_refl _, id, hq, by simp⟩
  | cons k K ih =>
    intro s h0 hq
    rw [List.foldl_cons]
    by_cases hk : ipiv k = 0
    · by_cases hge : |a j k| ≥ s.1
      · rw [if_pos hk, if_pos hge]
        have hf : PivotFound a ipiv (|a j k|, j, k) := ⟨hj, hk, rfl⟩
        obtain ⟨i1, i2, i3, i4, i5⟩ := ih (|a j k|, j, k) (abs_nonneg _) (fun _ => hf)
        refine ⟨i1, le_trans hge i2, fun _ => i3 hf, i4, ?_⟩
        intro k2 hk2 hk20
        rcases List.mem_cons.mp hk2 with h | h
        · subst h
          exact ⟨i2, i3 hf⟩
        · exact i5 k2 h hk20
      · rw [if_pos hk, if_neg hge]
        have hlt : |a j k| < s.1 := not_le.mp hge
        have hpos : 0 < s.1 := lt_of_le_of_lt (abs_nonneg _) hlt
        obtain ⟨i1, i2, i3, i4, i5⟩ := ih s h0 hq
        refine ⟨i1, i2, i3, i4, ?_⟩
        intro k2 hk2 hk20
        rcases List.mem_cons.mp hk2 with h | h
        · subst h
          exact ⟨le_trans (le_of_lt hlt) i2, i3 (hq hpos)⟩
        · exact i5 k2 h hk20
    · rw [if_neg hk]
      obtain ⟨i1, i2, i3, i4, i5⟩ := ih s h0 hq
      refine ⟨i1, i2, i3, i4, ?_⟩
      intro k2 hk2 hk20
      rcases List.mem_cons.mp hk2 with h | h
      · subst h
        exact absurd hk20 hk
      · exact i5 k2 h hk20

theorem searchPivot_rows {n : ℕ} (a : Fin n → Fin n → ℚ) (ipiv : Fin n → ℤ)
    (K : List (Fin n)) :
    ∀ (J : List (Fin n)) (s : ℚ × Fin n × Fin n),
      0 ≤ s.1 → (0 < s.1 → PivotFound a ipiv s) →
      0 ≤ (J.foldl (fun s j => if ipiv j ≠ 1 then
            K.foldl (fun s k => if ipiv k = 0 then
              if |a j k| ≥ s.1 then (|a j k|, j, k) else s else s) s else s) s).1 ∧
      s.1 ≤ (J.foldl (fun s j => if ipiv j ≠ 1 then
            K.foldl (fun s k => if ipiv k = 0 then
              if |a j k| ≥ s.1 then (|a j k|, j, k) else s else s) s else s) s).1 ∧
      (PivotFound a ipiv s → PivotFound a ipiv (J.foldl (fun s j => if ipiv j ≠ 1 then
            K.foldl (fun s k => if ipiv k = 0 then
              if |a j k| ≥ s.1 then (|a j k|, j, k) else s else s) s else s) s)) ∧
      (0 < (J.foldl (fun s j => if ipiv j ≠ 1 then
            K.foldl (fun s k => if ipiv k = 0 then
              if |a j k| ≥ s.1 then (|a j k|, j, k) else s else s) s else s) s).1 →
        PivotFound a ipiv (J.foldl (fun s j => if ipiv j ≠ 1 then
            K.foldl (fun s k => if ipiv k = 0 then
              if |a j k| ≥ s.1 then (|a j k|, j, k) else s else s) s else s) s)) ∧
      (∀ j ∈ J, ipiv j ≠ 1 → ∀ k ∈ K, ipiv k = 0 →
        |a j k| ≤ (J.foldl (fun s j => if ipiv j ≠ 1 then
            K.foldl (fun s k => if ipiv k = 0 then
              if |a j k| ≥ s.1 then (|a j k|, j, k) else s else s) s else s) s).1 ∧
        PivotFound a ipiv (J.foldl (fun s j => if ipiv j ≠ 1 then
            K.foldl (fun s k => if ipiv k = 0 then
              if |a j k| ≥ s.1 then (|a j k|, j, k) else s else s) s else s) s)) := by
  intro J
  induction J with
  | nil =>
    intro s h0 hq
    exact ⟨h0, le_refl _, id, hq, by simp⟩
  | cons j J ih =>
    intro s h0 hq
    rw [List.foldl_cons]
    by_cases hj : ipiv j ≠ 1
    · rw [if_pos hj]
      obtain ⟨c1, c2, c3, c4, c5⟩ := searchPivot_columns a ipiv j hj K s h0 hq
      obtain ⟨i1, i2, i3, i4, i5⟩ := ih _ c1 c4
      refine ⟨i1, le_trans c2 i2, fun h => i3 (c3 h), i4, ?_⟩
      intro j2 hj2 hj21 k hk hk0
      rcases List.mem_cons.mp hj2 with h | h
      · subst h
        obtain ⟨d1, d2⟩ := c5 k hk hk0
        exact ⟨le_trans d1 i2, i3 d2⟩
      · exact i5 j2 h hj21 k hk hk0
    · rw [if_neg hj]
      obtain ⟨i1, i2, i3, i4, i5⟩ := ih s h0 hq
      refine ⟨i1, i2, i3, i4, ?_⟩
      intro j2 hj2 hj21 k hk hk0
      rcases List.mem_cons.mp hj2 with h | h
      · subst h
        exact absurd hj21 hj
      · exact i5 j2 h hj21 k hk hk0

theorem searchPivot_found {n : ℕ} (a : Fin n → Fin n → ℚ) (ipiv : Fin n → ℤ)
    (irow icol j0 k0 : Fin n) (hj0 : ipiv j0 ≠ 1) (hk0 : ipiv k0 = 0) :
    PivotFound a ipiv (MatrixNXM.searchPivot a ipiv irow icol) ∧
    ∀ j k, ipiv j ≠ 1 → ipiv k = 0 →
      |a j k| ≤ (MatrixNXM.searchPivot a ipiv irow icol).1 := by
  obtain ⟨-, -, -, -, h5⟩ := searchPivot_rows a ipiv (List.finRange n) (List.finRange n)
    (0, irow, icol) (le_refl _) (fun h => absurd h (lt_irrefl _))
  refine ⟨(h5 j0 (List.mem_finRange _) hj0 k0 (List.mem_finRange _) hk0).2, ?_⟩
  intro j k hj hk
  exact (h5 j (List.mem_finRange _) hj k (List.mem_finRange _) hk).1

theorem pivoted_swapRows {n : ℕ} (a : Fin n → Fin n → ℚ) (ipiv : Fin n → ℤ)
    (A : Matrix (Fin n) (Fin n) ℚ) (p q : Fin n) (hp : ipiv p = 0) (hq : ipiv q = 0)
    (h : pivotedColumns a ipiv * A = pendingColumns a ipiv) :
    pivotedColumns (fun i j => a (Equiv.swap p q i) j) ipiv * A.submatrix (Equiv.swap p q) id =
      pendingColumns (fun i j => a (Equiv.swap p q i) j) ipiv := by
  have hfix : ∀ j, ipiv j = 1 → Equiv.swap p q j = j := by
    intro j hj
    apply Equiv.swap_apply_of_ne_of_ne
    · intro e
      rw [e, hp] at hj
      exact absurd hj (by decide)
    · intro e
      rw [e, hq] at hj
      exact absurd hj (by decide)
  have hnot : ∀ j, ipiv j ≠ 1 → ipiv (Equiv.swap p q j) ≠ 1 := by
    intro j hj e
    have h2 := hfix _ e
    rw [Equiv.swap_apply_self] at h2
    rw [← h2] at e
    exact hj e
  have hM : pivotedColumns (fun i j => a (Equiv.swap p q i) j) ipiv =
      (pivotedColumns a ipiv).submatrix (Equiv.swap p q) (Equiv.swap p q) := by
    ext i j
    simp only [pivotedColumns, Matrix.submatrix_apply]
    by_cases hj : ipiv j = 1
    · rw [if_pos hj, hfix j hj, if_pos hj]
    · rw [if_neg hj, if_neg (hnot j hj)]
      simp only [(Equiv.swap p q).injective.eq_iff]
  have hN : pendingColumns (fun i j => a (Equiv.swap p q i) j) ipiv =
      (pendingColumns a ipiv).submatrix (Equiv.swap p q) id := by
    ext i j
    simp only [pendingColumns, Matrix.submatrix_apply, id]
    by_cases hj : ipiv j = 1
    · rw [if_pos hj, if_pos hj]
      have : (Equiv.swap p q i = j) ↔ (i = j) := by
        constructor
        · intro e
          have e2 := congrArg (Equiv.swap p q) e
          rw [Equiv.swap_apply_self, hfix j hj] at e2
          exact e2
        · intro e
          rw [e]
          exact hfix j hj
      simp only [this]
    · rw [if_neg hj, if_neg hj]
  rw [hM, hN, ← Matrix.submatrix_mul _ _ _ _ _ (Equiv.swap p q).bijective, h]

theorem pivoted_reduce {n : ℕ} (a : Fin n → Fin n → ℚ) (ipiv : Fin n → ℤ)
    (A : Matrix (Fin n) (Fin n) ℚ) (c : Fin n) (h01 : ∀ k, ipiv k = 0 ∨ ipiv k = 1)
    (hc : ipiv c = 0) (hpiv : a c c ≠ 0)
    (h : pivotedColumns a ipiv * A = pendingColumns a ipiv) :
    pivotedColumns (MatrixNXM.reduceRows (MatrixNXM.scaleRow a c (1 / a c c)) c)
        (Function.update ipiv c (ipiv c + 1)) * A =
      pendingColumns (MatrixNXM.reduceRows (MatrixNXM.scaleRow a c (1 / a c c)) c)
        (Function.update ipiv c (ipiv c + 1)) := by
  have hM : ∀ i j, pivotedColumns (MatrixNXM.reduceRows (MatrixNXM.scaleRow a c (1 / a c c)) c)
        (Function.update ipiv c (ipiv c + 1)) i j =
      pivotedColumns a ipiv i j +
        (if i = c then 1 / a c c - 1 else -(a i c) * (1 / a c c)) * pivotedColumns a ipiv c j := by
    intro i j
    simp only [pivotedColumns, reduceRows_apply, scaleRow_apply, Function.update_apply, hc]
    by_cases hj : j = c
    · subst hj
      by_cases hi : i = j
      · subst hi
        simp [hc]
      · simp [hc, hi]
        ring
    · rcases h01 j with h0 | h1
      · by_cases hi : i = c
        · subst hi
          simp [hj, h0, Ne.symm hj]
        · simp [hj, h0, hi, Ne.symm hj]
      · by_cases hi : i = c
        · subst hi
          simp [hj, h1]
          try field_simp
          try ring
        · simp [hj, h1, hi]
          try field_simp
          try ring
  have hN : ∀ i j, pendingColumns (MatrixNXM.reduceRows (MatrixNXM.scaleRow a c (1 / a c c)) c)
        (Function.update ipiv c (ipiv c + 1)) i j =
      pendingColumns a ipiv i j +
        (if i = c then 1 / a c c - 1 else -(a i c) * (1 / a c c)) * pendingColumns a ipiv c j := by
    intro i j
    simp only [pendingColumns, reduceRows_apply, scaleRow_apply, Function.update_apply, hc]
    by_cases hj : j = c
    · subst hj
      by_cases hi : i = j
      · subst hi
        simp [hc]
        try field_simp
        try ring
      · simp [hc, hi]
        try field_simp
        try ring
    · rcases h01 j with h0 | h1
      · by_cases hi : i = c
        · subst hi
          simp [hj, h0]
          try field_simp
          try ring
        · simp [hj, h0, hi]
          try field_simp
          try ring
      · by_cases hi : i = c
        · subst hi
          simp [hj, h1, Ne.symm hj]
        · simp [hj, h1, hi, Ne.symm hj]
  ext i k
  rw [Matrix.mul_apply]
  simp only [hM]
  rw [hN]
  simp only [add_mul, Finset.sum_add_distrib, mul_assoc, ← Finset.mul_sum]
  rw [← Matrix.mul_apply, ← Matrix.mul_apply, h]

theorem pivotPass_inverting {n : ℕ} (A : Matrix (Fin n) (Fin n) ℚ) (hA : IsUnit A.det)
    (s : GaussJordan n) (done : List (Fin n)) (i : Fin n) (hi : i ∉ done)
    (hlen : done.length < n) (h : s.Inverting A done) :
    ∃ s2, MatrixNXM.pivotPass s i = some s2 ∧ s2.Inverting A (done ++ [i]) := by
  obtain ⟨h01, hcard, hMN⟩ := h
  have hex : ∃ k0, s.ipiv k0 = 0 := by
    by_contra hne
    push_neg at hne
    have hall : (Finset.univ.filter fun k => s.ipiv k = 1) = Finset.univ := by
      apply Finset.filter_true_of_mem
      intro k _
      exact (h01 k).resolve_left (hne k)
    rw [hall, Finset.card_univ, Fintype.card_fin] at hcard
    omega
  obtain ⟨k0, hk0⟩ := hex
  have hk1 : s.ipiv k0 ≠ 1 := by
    rw [hk0]
    decide
  obtain ⟨⟨hr, hc, hbig⟩, hmax⟩ := searchPivot_found s.a s.ipiv s.irow s.icol k0 k0 hk1 hk0
  unfold MatrixNXM.pivotPass
  simp only []
  generalize MatrixNXM.searchPivot s.a s.ipiv s.irow s.icol = found at hr hc hbig hmax
  obtain ⟨big, irow, icol⟩ := found
  simp only at hr hc hbig hmax
  have hr0 : s.ipiv irow = 0 := (h01 irow).resolve_right hr
  have hc1 : s.ipiv icol ≠ 1 := by
    rw [hc]
    decide
  have ha1 : (if irow ≠ icol then MatrixNXM.swapRows s.a irow icol else s.a) =
      fun i j => s.a (Equiv.swap irow icol i) j := by
    split_ifs with hne
    · funext i j
      exact swapRows_apply s.a irow icol i j
    · have he : irow = icol := not_not.mp hne
      rw [he, Equiv.swap_self]
      rfl
  rw [ha1]
  have hdet : IsUnit (A.submatrix (s.recordedSwaps done) id).det := by
    rw [Matrix.det_permute]
    rcases Int.units_eq_one_or (Equiv.Perm.sign (s.recordedSwaps done)) with h1 | h1
    · rw [h1]
      simpa using hA
    · rw [h1]
      simpa using hA
  have hpiv : s.a irow icol ≠ 0 := by
    intro hz
    have hbig0 : big = 0 := by rw [hbig, hz, abs_zero]
    have hzero : ∀ j k, s.ipiv j ≠ 1 → s.ipiv k = 0 → s.a j k = 0 := by
      intro j k hj hk
      have := hmax j k hj hk
      rw [hbig0] at this
      exact abs_eq_zero.mp (le_antisymm this (abs_nonneg _))
    have hNrow : ∀ k, pendingColumns s.a s.ipiv icol k = 0 := by
      intro k
      simp only [pendingColumns]
      rcases h01 k with h0 | h1
      · rw [if_neg (by rw [h0]; decide)]
        exact hzero icol k hc1 h0
      · rw [if_pos h1, if_neg]
        intro e
        rw [← e] at h1
        exact hc1 h1
    have hM : pivotedColumns s.a s.ipiv =
        pendingColumns s.a s.ipiv * (A.submatrix (s.recordedSwaps done) id)⁻¹ := by
      rw [← hMN, Matrix.mul_assoc, Matrix.mul_nonsing_inv _ hdet, Matrix.mul_one]
    have h1 : pivotedColumns s.a s.ipiv icol icol = 1 := by
      simp only [pivotedColumns]
      rw [if_neg hc1]
      simp
    have h2 : pivotedColumns s.a s.ipiv icol icol = 0 := by
      rw [hM, Matrix.mul_apply]
      simp only [hNrow, zero_mul, Finset.sum_const_zero]
    rw [h1] at h2
    exact one_ne_zero h2
  have hpiv2 : ¬ (fun i j => s.a (Equiv.swap irow icol i) j) icol icol = 0 := by
    simpa using hpiv
  rw [if_neg hpiv2]
  refine ⟨_, rfl, ?_, ?_, ?_⟩
  · intro k
    show Function.update s.ipiv icol (s.ipiv icol + 1) k = 0 ∨
      Function.update s.ipiv icol (s.ipiv icol + 1) k = 1
    by_cases hk : k = icol
    · subst hk
      right
      simp [hc]
    · rw [Function.update_noteq hk]
      exact h01 k
  · show (Finset.univ.filter fun k => Function.update s.ipiv icol (s.ipiv icol + 1) k = 1).card =
      (done ++ [i]).length
    have hins : (Finset.univ.filter fun k => Function.update s.ipiv icol (s.ipiv icol + 1) k = 1) =
        insert icol (Finset.univ.filter fun k => s.ipiv k = 1) := by
      ext k
      simp only [Finset.mem_filter, Finset.mem_univ, true_and, Finset.mem_insert]
      by_cases hk : k = icol
      · subst hk
        simp [hc]
      · rw [Function.update_noteq hk]
        simp [hk]
    rw [hins, Finset.card_insert_of_not_mem (by simp [hc]), hcard]
    simp
  · have hswaps : GaussJordan.recordedSwaps
        { a := MatrixNXM.reduceRows (MatrixNXM.scaleRow (fun i j => s.a (Equiv.swap irow icol i) j)
            icol (1 / (fun i j => s.a (Equiv.swap irow icol i) j) icol icol)) icol,
          indxc := Function.update s.indxc i icol, indxr := Function.update s.indxr i irow,
          ipiv := Function.update s.ipiv icol (s.ipiv icol + 1), irow := irow, icol := icol }
        (done ++ [i]) = s.recordedSwaps done * Equiv.swap irow icol := by
      unfold GaussJordan.recordedSwaps
      rw [List.map_append, List.prod_append]
      simp only [List.map_cons, List.map_nil, List.prod_cons, List.prod_nil, mul_one,
        Function.update_same]
      congr 1
      congr 1
      apply List.map_congr_left
      intro x hx
      have hxi : x ≠ i := fun e => hi (e ▸ hx)
      rw [Function.update_noteq hxi, Function.update_noteq hxi]
    have hsub : A.submatrix (s.recordedSwaps done * Equiv.swap irow icol) id =
        (A.submatrix (s.recordedSwaps done) id).submatrix (Equiv.swap irow icol) id := by
      ext r c
      simp [Matrix.submatrix_apply, Equiv.Perm.mul_apply]
    show pivotedColumns _ _ * A.submatrix (GaussJordan.recordedSwaps _ (done ++ [i])) id =
      pendingColumns _ _
    rw [hswaps, hsub]
    exact pivoted_reduce (fun i j => s.a (Equiv.swap irow icol i) j) s.ipiv _ icol h01 hc
      hpiv2 (pivoted_swapRows s.a s.ipiv _ irow icol hr0 hc hMN)

theorem pivotPasses_inverting {n : ℕ} (A : Matrix (Fin n) (Fin n) ℚ) (hA : IsUnit A.det) :
    ∀ (L done : List (Fin n)) (s : GaussJordan n), (done ++ L).Nodup →
      (done ++ L).length ≤ n → s.Inverting A done →
      ∃ s2, L.foldlM MatrixNXM.pivotPass s = some s2 ∧ s2.Inverting A (done ++ L) := by
  intro L
  induction L with
  | nil =>
    intro done s _ _ h
    exact ⟨s, rfl, by simpa using h⟩
  | cons i L ih =>
    intro done s hnd hlen h
    have hi : i ∉ done := by
      intro hmem
      have := (List.nodup_append.mp hnd).2.2
      exact this hmem (List.mem_cons_self i L)
    have hlt : done.length < n := by
      simp only [List.length_append, List.length_cons] at hlen
      omega
    obtain ⟨s1, hs1, hinv1⟩ := pivotPass_inverting A hA s done i hi hlt h
    have happ : done ++ [i] ++ L = done ++ i :: L := by simp
    obtain ⟨s2, hs2, hinv2⟩ := ih (done ++ [i]) s1 (by rw [happ]; exact hnd)
      (by rw [happ]; exact hlen) hinv1
    refine ⟨s2, ?_, by rw [← happ]; exact hinv2⟩
    rw [List.foldlM_cons, hs1]
    exact hs2

theorem unscramble_foldl {n : ℕ} (indxr indxc : Fin n → Fin n) :
    ∀ (L : List (Fin n)) (a : Fin n → Fin n → ℚ),
      L.foldl (fun a l =>
          if indxr l ≠ indxc l then
            (List.finRange n).foldl
              (fun a k => MatrixNXM.swapElements a k (indxr l) k (indxc l)) a
          else a) a =
        fun i j => a i ((L.map fun l => Equiv.swap (indxr l) (indxc l)).prod j) := by
  intro L
  induction L with
  | nil => intro a; simp
  | cons l L ih =>
    intro a
    rw [List.foldl_cons, ih]
    funext i j
    rw [List.map_cons, List.prod_cons, Equiv.Perm.mul_apply]
    split_ifs with hne
    · rw [swapCols_foldl _ _ _ _ (List.nodup_finRange n)]
      simp
    · have he : indxr l = indxc l := not_not.mp hne
      rw [he, Equiv.swap_self]
      rfl

theorem unscramble_apply {n : ℕ} (s : GaussJordan n) (i j : Fin n) :
    MatrixNXM.unscramble s i j = s.a i ((s.recordedSwaps (List.finRange n))⁻¹ j) := by
  unfold MatrixNXM.unscramble GaussJordan.recordedSwaps
  rw [unscramble_foldl, List.prod_inv_reverse]
  have hinv : List.map (fun x => x⁻¹)
      (List.map (fun i => Equiv.swap (s.indxr i) (s.indxc i)) (List.finRange n)) =
      List.map (fun i => Equiv.swap (s.indxr i) (s.indxc i)) (List.finRange n) := by
    rw [List.map_map]
    apply List.map_congr_left
    intro x _
    simp
  rw [hinv, List.map_reverse]

/-- C26: for a square matrix `A` with an inverse, in exact arithmetic,
`MatrixNXM<double>::invertWithGaussJordan` does not take the "Singular matrix" exit and leaves in
place a matrix whose product with `A`, `A` on the left, is the identity matrix. -/
theorem invertWithGaussJordan_inverse (n : ℕ) (A : Matrix (Fin n) (Fin n) ℚ) (hA : IsUnit A) :
    ∃ r : Matrix (Fin n) (Fin n) ℚ,
      MatrixNXM.invertWithGaussJordan n A = some r ∧ A * r = 1 := by
  have hdet : IsUnit A.det := (Matrix.isUnit_iff_isUnit_det A).mp hA
  unfold MatrixNXM.invertWithGaussJordan
  by_cases hn : 0 < n
  · rw [dif_pos hn]
    have hinit : GaussJordan.Inverting A
        { a := A, indxc := fun _ => ⟨0, hn⟩, indxr := fun _ => ⟨0, hn⟩, ipiv := fun _ => 0,
          irow := ⟨0, hn⟩, icol := ⟨0, hn⟩ } [] := by
      refine ⟨fun _ => Or.inl rfl, by simp, ?_⟩
      show pivotedColumns A (fun _ => 0) * A.submatrix (1 : Equiv.Perm (Fin n)) id =
        pendingColumns A (fun _ => 0)
      have h1 : pivotedColumns A (fun _ => (0 : ℤ)) = 1 := by
        ext i j
        simp [pivotedColumns, Matrix.one_apply]
      have h2 : pendingColumns A (fun _ => (0 : ℤ)) = A := by
        ext i j
        simp [pendingColumns]
      rw [h1, h2, Matrix.one_mul]
      rfl
    obtain ⟨s, hs, h01, hcard, hMN⟩ := pivotPasses_inverting A hdet (List.finRange n) [] _
      (by simpa using List.nodup_finRange n) (by simp) hinit
    rw [hs]
    refine ⟨MatrixNXM.unscramble s, rfl, ?_⟩
    simp only [List.nil_append, List.length_finRange] at hcard hMN
    have hall : ∀ k, s.ipiv k = 1 := by
      intro k
      have hfull : (Finset.univ.filter fun k => s.ipiv k = 1) = Finset.univ := by
        apply Finset.eq_univ_of_card
        rw [hcard, Fintype.card_fin]
      have : k ∈ (Finset.univ.filter fun k => s.ipiv k = 1) := by
        rw [hfull]
        exact Finset.mem_univ k
      exact (Finset.mem_filter.mp this).2
    have h1 : pivotedColumns s.a s.ipiv = s.a := by
      ext i j
      simp [pivotedColumns, hall]
    have h2 : pendingColumns s.a s.ipiv = 1 := by
      ext i j
      simp [pendingColumns, hall, Matrix.one_apply]
    rw [h1, h2] at hMN
    have hcomm := Matrix.mul_eq_one_comm.mp hMN
    ext i j
    rw [Matrix.mul_apply]
    simp only [unscramble_apply]
    have := congrFun (congrFun hcomm ((s.recordedSwaps (List.finRange n))⁻¹ i))
      ((s.recordedSwaps (List.finRange n))⁻¹ j)
    rw [Matrix.mul_apply] at this
    simp only [Matrix.submatrix_apply, id, Equiv.Perm.apply_inv_self] at this
    rw [this, Matrix.one_apply, Matrix.one_apply]
    simp only [(Equiv.injective _).eq_iff]
  · rw [dif_neg hn]
    refine ⟨A, rfl, ?_⟩
    have h0 : n = 0 := by omega
    subst h0
    ext i
    exact Fin.elim0 i

theorem invertWithGaussJordan_inverse_witness :
    IsUnit (!![2, 1; 1, 1] : Matrix (Fin 2) (Fin 2) ℚ) ∧
    ∃ r : Matrix (Fin 2) (Fin 2) ℚ,
      MatrixNXM.invertWithGaussJordan 2 !![2, 1; 1, 1] = some r ∧ !![2, 1; 1, 1] * r = 1 :=
  ⟨(Matrix.isUnit_iff_isUnit_det _).mpr (by
      rw [Matrix.det_fin_two_of]
      norm_num),
    invertWithGaussJordan_inverse 2 !![2, 1; 1, 1]
      ((Matrix.isUnit_iff_isUnit_det _).mpr (by
        rw [Matrix.det_fin_two_of]
        norm_num))⟩

end AutoVarFit
